import Mathlib

/-! The raster engine of `tiff_to_pdf`.

A shallow embedding of `src/tiff_to_pdf/tiff.cpp`, `tiffManager.cpp` and
`colors.cpp`, and the properties of the raster engine proved (or refuted) on it.

Conventions of the embedding.

* `unsigned int` and `unsigned char` values are natural numbers.  Where the C
  arithmetic can leave the range inside realistic inputs (a subtraction that can
  go below zero, the products with the caller's `dpi`, the size of the canvas,
  the conversion of a mask to `unsigned char`) the wrap-around is written out
  with `u32`, `usub` or `% 256`.  Every other unsigned quantity is exact.
* `float` and `double` values are rational numbers (`ℚ`).  In
  `TiffManager::composite` every floating operation is rounded to its type as
  IEEE 754 prescribes (binary32 for `float`, binary64 for `double`, to nearest,
  ties to even; an operation on two `float` operands is evaluated in `float`):
  `f32` and `f64`.  In `class Tiff` (the grey value of a cell, the value of
  `sample`) the floating operations are exact.  The conversion of a floating
  value to an integer type truncates.
* A read outside an array does not have a value fixed by the program.  Such a
  read takes its value from a `Junk` parameter, so that every function is a
  function of its inputs and of that parameter.
* A step after which the program has no result at all (an integer division by
  zero, an element of a vector that does not exist, a conversion of a floating
  value that the target type cannot hold, a write outside the canvas, a
  `delete[]` of a pointer that is neither null nor came from `new[]`) ends the
  run with a `Fault`; functions that can reach such a step return
  `Except Fault`.
* Releasing storage that was allocated (`delete[]`, `_TIFFfree`) has no effect
  in the embedding.
* Library functions (libtiff, `strtoul`, `tolower`, `std::map`, `getline`) are
  embedded as their documentation describes them; a file is what the library
  reads from it (the decoded scanlines of an image, the lines of a text).
-/

namespace Gold3

/-! ## Machine arithmetic -/

/-- Result of an `unsigned int` operation whose exact value is `n`. -/
def u32 (n : Nat) : Nat := n % 4294967296

/-- Unsigned subtraction `a - b` of two `unsigned int` values. -/
def usub (a b : Nat) : Nat := (a + 4294967296 - b) % 4294967296

/-- Conversion of a floating value to `unsigned char` (for values in `0 .. 255`
this is the truncation that C prescribes). -/
def toUChar (q : ℚ) : Nat := Int.toNat ⌊q⌋ % 256

/-- The steps that end a run without a result. -/
inductive Fault where
  | divideByZero
  | nullHandle
  | badIndex
  | badConversion
  | invalidFree
deriving DecidableEq, Repr

deriving instance DecidableEq for Except

/-- Conversion of a floating value to `unsigned int`: truncation, defined when
the truncated value fits. -/
def toUInt (q : ℚ) : Except Fault Nat :=
  if -1 < q ∧ q < 4294967296 then .ok (Int.toNat ⌊q⌋) else .error .badConversion

/-- Nearest integer, ties to the even one. -/
def roundHalfEven (q : ℚ) : ℤ :=
  if q - ⌊q⌋ < 1 / 2 then ⌊q⌋
  else if 1 / 2 < q - ⌊q⌋ then ⌊q⌋ + 1
  else if ⌊q⌋ % 2 = 0 then ⌊q⌋ else ⌊q⌋ + 1

/-- The power `2 ^ e` for an integer exponent. -/
def pow2 (e : ℤ) : ℚ := if 0 ≤ e then ((2 ^ e.toNat : ℕ) : ℚ) else 1 / ((2 ^ (-e).toNat : ℕ) : ℚ)

/-- The number of halvings that take `n` to 1, in at most `fuel` rounds. -/
def halvings : Nat → Nat → Nat
  | 0, _ => 0
  | fuel + 1, n => if 2 ≤ n then halvings fuel (n / 2) + 1 else 0

/-- The position of the leading bit of `n`: `2 ^ bitLog n ≤ n < 2 ^ (bitLog n + 1)`
for `n > 0`. -/
def bitLog (n : Nat) : Nat := halvings n n

/-- The binary exponent of a rational: the `e` with `2 ^ e ≤ |q| < 2 ^ (e + 1)`
(for `q = 0` the value does not matter). -/
def binade (q : ℚ) : ℤ :=
  if pow2 ((bitLog q.num.natAbs : ℤ) - (bitLog q.den : ℤ)) ≤ |q| then
    (bitLog q.num.natAbs : ℤ) - (bitLog q.den : ℤ)
  else (bitLog q.num.natAbs : ℤ) - (bitLog q.den : ℤ) - 1

/-- Rounding to the binary floating-point format with `p` significand bits and
least normal exponent `emin`, to nearest, ties to even: the multiple of the unit
in the last place of `q` that is nearest to `q` (a value beyond the largest
number of the format stays finite; its conversion to an integer type is a
fault all the same). -/
def roundTo (p : ℕ) (emin : ℤ) (q : ℚ) : ℚ :=
  roundHalfEven (q / pow2 (max (binade q) emin - ((p : ℤ) - 1))) *
    pow2 (max (binade q) emin - ((p : ℤ) - 1))

/-- The `float` nearest to `q` (IEEE 754 binary32). -/
def f32 (q : ℚ) : ℚ := roundTo 24 (-126) q

/-- The `double` nearest to `q` (IEEE 754 binary64). -/
def f64 (q : ℚ) : ℚ := roundTo 53 (-1022) q

/-- Values found by reads outside the arrays of the program: `stack i` is the
word found at index `i` of a table on the stack that is shorter than `i + 1`,
`heap p` the byte found at offset `p` of a heap buffer that is shorter than
`p + 1` (or was never filled). -/
structure Junk where
  stack : Nat → Nat
  heap : Nat → Nat

/-- The pointer found in cell `i` of a heap array of pointers that was never
assigned there is `NULL`: the eight bytes of the cell are zero. -/
def Junk.nullAt (junk : Junk) (i : Nat) : Bool :=
  (List.range 8).all fun b => junk.heap (8 * i + b) % 256 == 0

/-! ## The bit table (`tiff.cpp` lines 10-22) -/

/-- The loop `while(j){ count += j & 0x1; j >>= 1; }`; `j` has 32 bits, so 32
rounds always reach `j = 0`. -/
def countOnes : Nat → Nat → Nat → Nat
  | 0, _, count => count
  | fuel + 1, j, count =>
    if j ≠ 0 then countOnes fuel (j >>> 1) (count + (j &&& 1)) else count

/-- The table filled by `BitTableInitialiser`. -/
def bitTable : List Nat := (List.range 256).map fun i => countOnes 32 i 0

/-- The lookup `oneBitsInChar[i]`. -/
def oneBitsInChar (i : Nat) : Nat := bitTable.getD i 0

/-! ## The image file, as libtiff presents it -/

/-- A 1-bit strip image opened by libtiff: its tags and its decoded scanlines
(each scanline a list of bytes, pixel `x` being bit `7 - x % 8` of byte
`x / 8`). The two resolutions are the values that `TIFFGetField` stores into a
`float`. -/
structure TiffFile where
  imageLength : Nat
  imageWidth : Nat
  xResolution : ℚ
  yResolution : ℚ
  rowsPerStrip : Nat
  resolutionUnit : Nat
  photometric : Nat
  scanlines : List (List Nat)
deriving DecidableEq

/-- Value of `TIFFScanlineSize` for one bit per pixel. -/
def TIFFScanlineSize (f : TiffFile) : Nat := (f.imageWidth + 7) / 8

/-- Value of `TIFFStripSize`. -/
def TIFFStripSize (f : TiffFile) : Nat := f.rowsPerStrip * TIFFScanlineSize f

/-- Value of `TIFFNumberOfStrips`. -/
def TIFFNumberOfStrips (f : TiffFile) : Nat :=
  (f.imageLength + f.rowsPerStrip - 1) / f.rowsPerStrip

/-- Buffer contents after `TIFFReadScanline(tiff, data, row)`: the scanline, or
the buffer as it was when the row does not exist. -/
def TIFFReadScanline (f : TiffFile) (data : List Nat) (row : Nat) : List Nat :=
  if h : row < f.scanlines.length then f.scanlines[row] else data

/-- Value of `TIFFComputeStrip(tiff, row, 0)`. -/
def TIFFComputeStrip (f : TiffFile) (row : Nat) : Nat := row / f.rowsPerStrip

/-- Buffer contents after `TIFFReadEncodedStrip(tiff, strip, buf, -1)`: the
scanlines of the strip one after the other. -/
def TIFFReadEncodedStrip (f : TiffFile) (strip : Nat) : List Nat :=
  ((f.scanlines.drop (strip * f.rowsPerStrip)).take f.rowsPerStrip).flatten

/-- The byte `data[p]` of a buffer. -/
def rd (junk : Junk) (data : List Nat) (p : Nat) : Nat :=
  data.getD p (junk.heap p % 256)

/-! ## `class Tiff` (`tiff.h`) -/

/-- The data members of `Tiff`; `tiff` is the libtiff handle (`none` is `NULL`)
and `inches` stands for `resolutionUnit == INCHES`. -/
structure Tiff where
  tiff : Option TiffFile
  x : Nat
  y : Nat
  scanlineSize : Nat
  stripSize : Nat
  numberOfStrips : Nat
  rowsPerStrip : Nat
  inches : Bool
  xResolution : ℚ
  yResolution : ℚ
  zeroWhite : Bool
deriving DecidableEq

namespace Tiff

/-- The constructor `Tiff()`. -/
def new : Tiff :=
  { tiff := none, x := 0, y := 0, scanlineSize := 0, stripSize := 0,
    numberOfStrips := 0, rowsPerStrip := 0, inches := true,
    xResolution := 0, yResolution := 0, zeroWhite := true }

/-- `Tiff::load` (`tiff.cpp` lines 29-57).  `TIFFOpen` is the lookup `fs file`;
`RESUNIT_CENTIMETER` is 3.  The result is the returned flag and the object
after the call. -/
def load (junk : Junk) (fs : String → Option TiffFile) (t : Tiff) (file : String) :
    Bool × Tiff :=
  match fs file with
  | none => (false, { t with tiff := none })
  | some f =>
    let data := TIFFReadScanline f [] 0
    (true,
      { tiff := some f
        x := f.imageWidth
        y := f.imageLength
        scanlineSize := TIFFScanlineSize f
        stripSize := TIFFStripSize f
        numberOfStrips := TIFFNumberOfStrips f
        rowsPerStrip := f.rowsPerStrip
        inches := !(f.resolutionUnit == 3)
        xResolution := f.xResolution
        yResolution := f.yResolution
        zeroWhite := if (rd junk data 0 &&& 0x80) = 0x80 then false else true })

/-! ### `Tiff::getPixels(x1, y1, x2, y2, x, y)` (`tiff.cpp` lines 204-370) -/

/-- The pair `(incH, incL)` of lines 225-233 (and 297-305) for an input span
and an output size. -/
def increments (span out : Nat) : Except Fault (Nat × Nat) :=
  if span ≤ out then .ok (1, 0)
  else if out = 0 then .error .divideByZero
  else .ok (span / out, span - (span / out) * out)

/-- The loop of lines 235-239 that fills `blockX`: `n` rounds are left and
`accum` is the accumulator. -/
def blockLoop (out incH incL : Nat) : Nat → Nat → List Nat
  | 0, _ => []
  | n + 1, accum =>
    if accum + incL ≥ out then (incH + 1) :: blockLoop out incH incL n (accum + incL - out)
    else incH :: blockLoop out incH incL n (accum + incL)

/-- One entry of the three per-column tables of lines 255-260. -/
structure Mask where
  leadingMask : Nat
  wholeBytes : Nat
  trailingMask : Nat
deriving DecidableEq, Repr

/-- The value `(unsigned char)pow(2,n)-1` stored in an `unsigned char`. -/
def pow2m1 (n : Nat) : Nat := (2 ^ n % 256 + 255) % 256

/-- The loop `while(blockXTmp > 7){ wholeBytes[i]++; blockXTmp-=8; }`, returning
`(wholeBytes[i], blockXTmp)`; it makes at most `blockXTmp` rounds. -/
def wholeLoop : Nat → Nat → Nat → Nat × Nat
  | 0, wholeBytes, blockXTmp => (wholeBytes, blockXTmp)
  | fuel + 1, wholeBytes, blockXTmp =>
    if blockXTmp > 7 then wholeLoop fuel (wholeBytes + 1) (blockXTmp - 8)
    else (wholeBytes, blockXTmp)

/-- The mask loop of lines 266-290 over the remaining entries of `blockX`, with
the running `leadingBits` and `remainingBits`. -/
def maskLoop : List Nat → Nat → Nat → List Mask
  | [], _, _ => []
  | b :: bs, leadingBits, remainingBits =>
    let leadingBits := min (min leadingBits b) remainingBits
    let remainingBits := remainingBits - leadingBits
    let leadingMask := (pow2m1 leadingBits <<< remainingBits) % 256
    let blockXTmp := b - leadingBits
    let remainingBits := if blockXTmp > 7 then 8 else remainingBits
    let w := wholeLoop blockXTmp 0 blockXTmp
    let trailingBits := w.2
    let remainingBits := if remainingBits = 0 then 8 else remainingBits
    let remainingBits := remainingBits - trailingBits
    let trailingMask := (pow2m1 trailingBits <<< (8 - trailingBits)) % 256
    { leadingMask := leadingMask, wholeBytes := w.1, trailingMask := trailingMask } ::
      maskLoop bs (8 - trailingBits) remainingBits

/-- The initial `leadingBits` of lines 261-262. -/
def startBits (x1 : Nat) : Nat := if x1 % 8 = 0 then 8 else x1 % 8

/-- The read `wholeBytes[i]` of line 347; the table has one entry per output
column. -/
def wholeBytesAt (junk : Junk) (masks : List Mask) (i : Nat) : Nat :=
  if h : i < masks.length then masks[i].wholeBytes else junk.stack i

/-- The `switch` of lines 333-340: every case adds the bit counts of the next
`n` bytes, `*++tmpData`. -/
def wholeCount (junk : Junk) (data : List Nat) : Nat → Nat → Nat
  | 0, _ => 0
  | n + 1, tmpData =>
    oneBitsInChar (rd junk data (tmpData + 1)) + wholeCount junk data n (tmpData + 1)

/-- The loop over `j` of lines 328-355 on one scanline: the number of bits it
adds to each `numberOfOnes[j]`. `wbi` is the value read as `wholeBytes[i]` and
`tmpData` the offset of the byte pointer in the scanline. -/
def columnLoop (junk : Junk) (data : List Nat) (wbi : Nat) : List Mask → Nat → List Nat
  | [], _ => []
  | m :: ms, tmpData =>
    let c0 := if m.leadingMask ≠ 0 then oneBitsInChar (rd junk data tmpData &&& m.leadingMask)
      else 0
    let c1 := wholeCount junk data m.wholeBytes tmpData
    let tmpData := tmpData + m.wholeBytes
    let c2 := if m.trailingMask ≠ 0 then
        oneBitsInChar (rd junk data (tmpData + 1) &&& m.trailingMask)
      else 0
    let tmpData := if m.trailingMask ≠ 0 then tmpData + 1 else tmpData
    let tmpData :=
      if (wbi ≠ 0 ∨ m.leadingMask &&& 1 ≠ 0) ∧ m.trailingMask = 0 then tmpData + 1
      else tmpData
    (c0 + c1 + c2) :: columnLoop junk data wbi ms tmpData

/-- The loop over `count` of lines 324-356: `blockY` scanlines from `row` on are
read and counted into `numberOfOnes`; the result is `numberOfOnes` and the
scanline buffer after the loop. -/
def countLoop (f : TiffFile) (junk : Junk) (masks : List Mask) (x1 wbi : Nat) :
    Nat → Nat → List Nat → List Nat → List Nat × List Nat
  | 0, _, data, numberOfOnes => (numberOfOnes, data)
  | c + 1, row, data, numberOfOnes =>
    let data := TIFFReadScanline f data row
    countLoop f junk masks x1 wbi c (row + 1) data
      (List.zipWith (· + ·) numberOfOnes (columnLoop junk data wbi masks (x1 / 8)))

/-- The grey value of lines 361-364 for a bit count and a block of `area`
input pixels. -/
def grayscale (zeroWhite : Bool) (numberOfOnes area : Nat) : Nat :=
  if zeroWhite then toUChar (((numberOfOnes : ℚ) / (area : ℚ)) * 255)
  else toUChar (255 - ((numberOfOnes : ℚ) / (area : ℚ)) * 255)

/-- The loop over `i` of lines 316-366: `n` output rows are left, `i` is the
current one. The result is the rest of `scaledImage`. -/
def rowLoop (zeroWhite : Bool) (f : TiffFile) (junk : Junk) (blockX : List Nat)
    (masks : List Mask) (x1 x y incHY incLY : Nat) :
    Nat → Nat → Nat → Nat → List Nat → List Nat
  | 0, _, _, _, _ => []
  | n + 1, i, accumY, row, data =>
    let blockY := if accumY + incLY ≥ y then incHY + 1 else incHY
    let accumY := if accumY + incLY ≥ y then accumY + incLY - y else accumY + incLY
    let r := countLoop f junk masks x1 (wholeBytesAt junk masks i) blockY row data
      (List.replicate x 0)
    List.zipWith (fun c b => grayscale zeroWhite c (blockY * b)) r.1 blockX ++
      rowLoop zeroWhite f junk blockX masks x1 x y incHY incLY n (i + 1) accumY (row + blockY)
        r.2

/-- The loop of line 309, `for(i<row) TIFFReadScanline(tiff, data, i)`. -/
def skipLoop (f : TiffFile) (row : Nat) (data : List Nat) : List Nat :=
  (List.range row).foldl (fun d i => TIFFReadScanline f d i) data

/-- `Tiff::getPixels(x1, y1, x2, y2, x, y)`: `none` is the `NULL` result, else
the `x * y` bytes of `scaledImage`. -/
def getPixels (t : Tiff) (junk : Junk) (x1 y1 x2 y2 x y : Nat) :
    Except Fault (Option (List Nat)) :=
  match t.tiff with
  | none => .ok none
  | some f => do
    let incX ← increments (u32 (usub x2 x1 + 1)) x
    let blockX := blockLoop x incX.1 incX.2 x 0
    let masks := maskLoop blockX (startBits x1) (startBits x1)
    let incY ← increments (u32 (usub y2 y1 + 1)) y
    pure (some (rowLoop t.zeroWhite f junk blockX masks x1 x y incY.1 incY.2 y 0 0 y1
      (skipLoop f y1 [])))

/-- `Tiff::scale(x, y)` (line 61; the rest of the function is not reached). -/
def scale (t : Tiff) (junk : Junk) (x y : Nat) : Except Fault (Option (List Nat)) :=
  getPixels t junk 0 0 (usub t.x 1) (usub t.y 1) x y

/-! ### `Tiff::sample` (`tiff.cpp` lines 372-433) -/

/-- The masks and the whole-byte count of lines 379-397. -/
def sampleMasks (x1 x2 : Nat) : Mask :=
  let totalBits := u32 (usub x2 x1 + 1)
  let leadingBits := 8 - x1 % 8
  if leadingBits > totalBits then
    { leadingMask := ((2 ^ totalBits - 1) <<< (8 - (x1 % 8 + 1))) % 256
      wholeBytes := 0
      trailingMask := 0 }
  else
    let trailingBits := x2 % 8 + 1
    { leadingMask := 2 ^ leadingBits - 1
      wholeBytes := usub (usub totalBits leadingBits) trailingBits / 8
      trailingMask := ((2 ^ trailingBits - 1) <<< (8 - (x2 % 8 + 1))) % 256 }

/-- The state of the loop of lines 400-429: the bits counted, the strip in the
buffer (`none` for the initial `-1`), the buffer and the offset `row` in it. -/
structure SampleState where
  coverage : Nat
  currentStripNumber : Option Nat
  strip : List Nat
  row : Nat

/-- One round of the loop of lines 400-429, for the image row `y`. -/
def sampleRow (f : TiffFile) (junk : Junk) (scanlineSize rowsPerStrip x1 : Nat) (m : Mask)
    (s : SampleState) (y : Nat) : SampleState :=
  let stripNumber := TIFFComputeStrip f y
  let s1 : SampleState :=
    if some stripNumber ≠ s.currentStripNumber then
      { s with
        strip := TIFFReadEncodedStrip f stripNumber
        currentStripNumber := some stripNumber
        row := scanlineSize * usub y (u32 (stripNumber * rowsPerStrip)) }
    else { s with row := s.row + scanlineSize }
  let data := s1.row + x1 / 8
  let c0 := oneBitsInChar (m.leadingMask &&& rd junk s1.strip data)
  let c1 := wholeCount junk s1.strip m.wholeBytes data
  let data := data + m.wholeBytes
  let c2 := oneBitsInChar (m.trailingMask &&& rd junk s1.strip (data + 1))
  { s1 with coverage := s1.coverage + c0 + c1 + c2 }

/-- The number of bits counted by the loop of lines 400-429. -/
def sampleCoverage (t : Tiff) (f : TiffFile) (junk : Junk) (x1 y1 x2 y2 : Nat) : Nat :=
  ((List.range' y1 (u32 (y2 + 1) - y1)).foldl
    (sampleRow f junk t.scanlineSize t.rowsPerStrip x1 (sampleMasks x1 x2))
    { coverage := 0, currentStripNumber := none, strip := [], row := 0 }).coverage

/-- `Tiff::sample(x1, y1, x2, y2)`. -/
def sample (t : Tiff) (junk : Junk) (x1 y1 x2 y2 : Nat) : Except Fault ℚ :=
  match t.tiff with
  | none => .error .nullHandle
  | some f =>
    let coverage := sampleCoverage t f junk x1 y1 x2 y2
    let area := u32 (u32 (usub x2 x1 + 1) * u32 (usub y2 y1 + 1))
    if t.zeroWhite then .ok (((coverage : ℚ) / (area : ℚ)) * 100)
    else .ok ((1 - (coverage : ℚ) / (area : ℚ)) * 100)

end Tiff

/-! ## `class TiffManager` (`tiffManager.h`, `tiffManager.cpp`) -/

/-- The four bytes of `unsigned char color[4]`. -/
structure Rgba where
  red : Nat
  green : Nat
  blue : Nat
  alpha : Nat
deriving DecidableEq, Repr

/-- The byte `color[i]`. -/
def Rgba.get (c : Rgba) (i : Nat) : Nat :=
  match i with
  | 0 => c.red
  | 1 => c.green
  | 2 => c.blue
  | _ => c.alpha

/-- The entry `TiffInfo` of the plate vector. -/
structure TiffInfo where
  tiff : Tiff
  filename : String
  active : Bool
  color : Rgba
deriving DecidableEq

/-- The data member of `TiffManager`: the vector `tiffs`. -/
structure TiffManager where
  tiffs : List TiffInfo
deriving DecidableEq

namespace TiffManager

/-- The element `tiffs[i]`. -/
def plate (m : TiffManager) (i : Nat) : Except Fault TiffInfo :=
  match m.tiffs[i]? with
  | some p => .ok p
  | none => .error .badIndex

/-- `TiffManager::size`. -/
def size (m : TiffManager) : Nat := m.tiffs.length

/-- `TiffManager::getWidth(i)`. -/
def getWidth (m : TiffManager) (i : Nat) : Except Fault Nat := do
  let p ← m.plate i
  pure p.tiff.x

/-- `TiffManager::getHeight(i)`. -/
def getHeight (m : TiffManager) (i : Nat) : Except Fault Nat := do
  let p ← m.plate i
  pure p.tiff.y

/-- `TiffManager::getXResolution(i)`. -/
def getXResolution (m : TiffManager) (i : Nat) : Except Fault ℚ := do
  let p ← m.plate i
  pure p.tiff.xResolution

/-- `TiffManager::getYResolution(i)`. -/
def getYResolution (m : TiffManager) (i : Nat) : Except Fault ℚ := do
  let p ← m.plate i
  pure p.tiff.yResolution

/-- `TiffManager::getMaxWidth`. -/
def getMaxWidth (m : TiffManager) : Nat :=
  m.tiffs.foldl (fun width p => if p.tiff.x > width then p.tiff.x else width) 0

/-- `TiffManager::getMaxHeight`. -/
def getMaxHeight (m : TiffManager) : Nat :=
  m.tiffs.foldl (fun height p => if p.tiff.y > height then p.tiff.y else height) 0

/-- `TiffManager::isActive(i)`. -/
def isActive (m : TiffManager) (i : Nat) : Except Fault Bool := do
  let p ← m.plate i
  pure p.active

/-- The value of `dpi*n/resolution` stored in an `unsigned int` (lines 74-75,
82-83, 103-104): the product is unsigned and is converted to `float` for the
division by the `float` `resolution`, the quotient is a `float`. -/
def scaled (dpi n : Nat) (resolution : ℚ) : Except Fault Nat :=
  if resolution = 0 then .error .badConversion
  else toUInt (f32 (f32 (u32 (dpi * n) : ℚ) / resolution))

/-- The size `(x, y)` that lines 82-83 (and again lines 103-104) compute for a
plate, `xRes` and `yRes` being the values of `getXResolution()` and
`getYResolution()`. -/
def plateSize (dpi : Nat) (xRes yRes : ℚ) (p : TiffInfo) : Except Fault (Nat × Nat) := do
  let x ← scaled dpi p.tiff.x xRes
  let y ← scaled dpi p.tiff.y yRes
  pure (x, y)

/-- The size to which `composite(dpi)` scales the plate `tiffs[i]`:
`dpi*getWidth(i)/getXResolution()` by `dpi*getHeight(i)/getYResolution()`. -/
def scaledSize (m : TiffManager) (dpi i : Nat) : Except Fault (Nat × Nat) := do
  let xRes ← m.getXResolution 0
  let yRes ← m.getYResolution 0
  let p ← m.plate i
  plateSize dpi xRes yRes p

/-- The loop of lines 80-94 over the plates that are left: the scaled images
(an empty entry for a plate that is not active), or `none` when a `scale`
returned `NULL`. -/
def scaleLoop (junk : Junk) (dpi : Nat) (xRes yRes : ℚ) :
    List TiffInfo → Except Fault (Option (List (List Nat)))
  | [] => .ok (some [])
  | p :: ps =>
    if p.active then do
      let size ← plateSize dpi xRes yRes p
      match ← p.tiff.scale junk size.1 size.2 with
      | none => pure none
      | some image =>
        match ← scaleLoop junk dpi xRes yRes ps with
        | none => pure none
        | some images => pure (some (image :: images))
    else do
      match ← scaleLoop junk dpi xRes yRes ps with
      | none => pure none
      | some images => pure (some ([] :: images))

/-- The value stored by lines 108, 110 and 112 into a canvas byte `v`, for the
colour byte `k` of the plate and the byte `s` of its scaled image:
`v * (red*source + (1.0 - source))` with the `float` variables `red = k/255.0`
(lines 100-102) and `source = s/255.0` (line 106). The two quotients are
computed in `double` and stored in a `float`, `red*source` is a `float`
product, the difference, the sum and the product with `v` are `double`
operations. -/
def mix (v k s : Nat) : Nat :=
  toUChar (f64 ((v : ℚ) *
    f64 (f32 (f32 (f64 ((k : ℚ) / 255)) * f32 (f64 ((s : ℚ) / 255))) +
      f64 (1 - f32 (f64 ((s : ℚ) / 255))))))

/-- The assignment `*compositedImage = ..` at offset `ptr` of the canvas. -/
def mixAt (canvas : List Nat) (ptr k s : Nat) : Except Fault (List Nat) :=
  if h : ptr < canvas.length then .ok (canvas.set ptr (mix canvas[ptr] k s))
  else .error .badIndex

/-- The loop over `j` of lines 105-114: `n` rounds are left, `ptr` is the offset
of `compositedImage` in the canvas. -/
def blendPixels (junk : Junk) (color : Rgba) (image : List Nat) (x maxX : Nat) :
    Nat → Nat → Nat → List Nat → Except Fault (List Nat)
  | 0, _, _, canvas => .ok canvas
  | n + 1, j, ptr, canvas => do
    let s := rd junk image j
    let ptr := if j % x = 0 then u32 (maxX * (j / x) * 3) else ptr
    let canvas ← mixAt canvas ptr (color.get 0) s
    let canvas ← mixAt canvas (ptr + 1) (color.get 1) s
    let canvas ← mixAt canvas (ptr + 2) (color.get 2) s
    blendPixels junk color image x maxX n (j + 1) (ptr + 3) canvas

/-- The loop of lines 98-117 over the plates that are left and their scaled
images. -/
def blendLoop (junk : Junk) (dpi : Nat) (xRes yRes : ℚ) (maxX : Nat) :
    List TiffInfo → List (List Nat) → List Nat → Except Fault (List Nat)
  | p :: ps, image :: images, canvas =>
    if p.active then do
      let size ← plateSize dpi xRes yRes p
      let canvas ← blendPixels junk p.color image size.1 maxX (u32 (size.1 * size.2)) 0 0 canvas
      blendLoop junk dpi xRes yRes maxX ps images canvas
    else blendLoop junk dpi xRes yRes maxX ps images canvas
  | _, _, canvas => .ok canvas

/-- The loop of lines 120-122 over the plates that are left, `i` being the index
of the first of them: `delete[] images[i]`. The cell `images[i]` of an active
plate holds what `scale` allocated; the cell of a plate that is not active was
never assigned (line 79 allocates the array, lines 80-94 assign the cells of
the active plates only), and a `delete[]` of what is found there goes wrong
unless it is the null pointer. -/
def deleteLoop (junk : Junk) : List TiffInfo → Nat → Except Fault Unit
  | [], _ => .ok ()
  | p :: ps, i =>
    if p.active then deleteLoop junk ps (i + 1)
    else if junk.nullAt i then deleteLoop junk ps (i + 1)
    else .error .invalidFree

/-- `TiffManager::composite(dpi)`: the bytes of `compositedImage`. -/
def composite (m : TiffManager) (junk : Junk) (dpi : Nat) : Except Fault (List Nat) := do
  let xRes ← m.getXResolution 0
  let yRes ← m.getYResolution 0
  let maxX ← scaled dpi m.getMaxWidth xRes
  let maxY ← scaled dpi m.getMaxHeight yRes
  let compositedImage := List.replicate (u32 (maxX * maxY * 3)) 255
  match ← scaleLoop junk dpi xRes yRes m.tiffs with
  | none => pure compositedImage
  | some images => do
    let compositedImage ← blendLoop junk dpi xRes yRes maxX m.tiffs images compositedImage
    deleteLoop junk m.tiffs 0
    pure compositedImage

end TiffManager

/-! ## Vocabulary of the statements about `Tiff` -/

/-- Pixel `x` of a scanline buffer, 1 when its bit is set: bit `7 - x % 8` of
byte `x / 8`. -/
def pixel (junk : Junk) (data : List Nat) (x : Nat) : Nat :=
  (rd junk data (x / 8) >>> (7 - x % 8)) % 2

/-- Number of set pixels among the `n` columns of a scanline buffer that start
at column `lo`. -/
def setBits (junk : Junk) (data : List Nat) (lo : Nat) : Nat → Nat
  | 0 => 0
  | n + 1 => setBits junk data lo n + pixel junk data (lo + n)

/-- Sum of the bits `hi, hi - 1, ..` (`n` of them) of a byte. -/
def bitSum (v hi : Nat) : Nat → Nat
  | 0 => 0
  | n + 1 => bitSum v hi n + (v >>> (hi - n)) % 2

/-- For consecutive blocks of the given widths that start at column `lo`, the
number of set pixels of a scanline buffer in each block. -/
def blockCounts (junk : Junk) (data : List Nat) : List Nat → Nat → List Nat
  | [], _ => []
  | b :: bs, lo => setBits junk data lo b :: blockCounts junk data bs (lo + b)

/-- The scanline `row` of a file (empty when there is none). -/
def TiffFile.scanline (f : TiffFile) (row : Nat) : List Nat := f.scanlines.getD row []

/-- Number of set pixels in the block of the `w` columns from `lo` and the `h`
rows from `top`. -/
def TiffFile.blockBits (f : TiffFile) (junk : Junk) (lo w top : Nat) : Nat → Nat
  | 0 => 0
  | h + 1 => f.blockBits junk lo w top h + setBits junk (f.scanline (top + h)) lo w

/-- The table `blockX` (and the sequence of the values of `blockY`) for an
input span and an output size. -/
def blockSizes (span out : Nat) : List Nat :=
  if span ≤ out then Tiff.blockLoop out 1 0 out 0
  else Tiff.blockLoop out (span / out) (span - (span / out) * out) out 0

/-- The file is a 1-bit image as libtiff decodes it: as many scanlines as the
image has rows, each of `TIFFScanlineSize` bytes, and sizes that fit
`unsigned int`. -/
structure TiffFile.WellFormed (f : TiffFile) : Prop where
  rows : f.scanlines.length = f.imageLength
  cols : ∀ s ∈ f.scanlines, s.length = TIFFScanlineSize f
  bytes : ∀ s ∈ f.scanlines, ∀ v ∈ s, v < 256
  width : f.imageWidth < 4294967296
  height : f.imageLength < 4294967296

/-- The first pixel column that `getPixels` counts for a left edge `x1`. -/
def firstColumn (x1 : Nat) : Nat := 8 * (x1 / 8) + (8 - Tiff.startBits x1)

/-- The grid with one cell per pair of a row block (heights `hs`, from row
`top`) and a column block (widths `ws`, from column `left`), row by row; the
cell is `cell lo w top h` for its block. -/
def gridRow (cell : Nat → Nat → Nat) : List Nat → Nat → List Nat
  | [], _ => []
  | w :: ws, lo => cell lo w :: gridRow cell ws (lo + w)

/-- See `gridRow`. -/
def grid (cell : Nat → Nat → Nat → Nat → Nat) (ws : List Nat) (left : Nat) :
    List Nat → Nat → List Nat
  | [], _ => []
  | h :: hs, top => gridRow (fun lo w => cell lo w top h) ws left ++ grid cell ws left hs (top + h)

/-- The cell of the scaled image for a block: its grey value. -/
def cellOf (zeroWhite : Bool) (f : TiffFile) (junk : Junk) (lo w top h : Nat) : Nat :=
  Tiff.grayscale zeroWhite (f.blockBits junk lo w top h) (h * w)

/-- The bit of the pixel in column `x` of row `y` of the image, 1 when it is
set. -/
def TiffFile.bit (f : TiffFile) (x y : Nat) : Nat :=
  ((f.scanline y).getD (x / 8) 0 >>> (7 - x % 8)) % 2

/-- The first input column of block `j` of a row of blocks of widths `ws` that
starts at column `left` (and the same for rows). -/
def blockStart (ws : List Nat) (left j : Nat) : Nat := left + (ws.take j).sum


/-! ## Vocabulary of the statements about `TiffManager` -/

/-- The number `floor(dpi * n / resolution)` of exact arithmetic. -/
def exactScaled (dpi n : Nat) (resolution : ℚ) : Nat :=
  Int.toNat ⌊((dpi * n : Nat) : ℚ) / resolution⌋

/-- The size in single precision: the product `dpi * n` rounded to a `float`,
divided by `resolution`, the quotient rounded to a `float` and truncated. -/
def scaledTo (dpi n : Nat) (resolution : ℚ) : Nat :=
  Int.toNat ⌊f32 (f32 ((dpi * n : Nat) : ℚ) / resolution)⌋

/-- The value `floor(v * (k/255 * a + (1 - a)))` with `a = s/255`, in exact
arithmetic. -/
def exactBlend (v k s : Nat) : Nat :=
  Int.toNat ⌊(v : ℚ) * ((k : ℚ) / 255 * ((s : ℚ) / 255) + (1 - (s : ℚ) / 255))⌋

/-- The value `v * (K * A + (1 - A))` in floating-point arithmetic, stored in a
byte: `A` is the `float` nearest to `s/255` and `K` the `float` nearest to
`k/255` (each quotient first rounded to a `double`), the product `K * A` is
rounded to a `float`, the difference `1 - A`, the sum and the product with `v`
are rounded to a `double`, and the result is truncated. -/
def roundedBlend (v k s : Nat) : Nat :=
  let A := f32 (f64 ((s : ℚ) / 255))
  let K := f32 (f64 ((k : ℚ) / 255))
  Int.toNat ⌊f64 ((v : ℚ) * f64 (f32 (K * A) + f64 (1 - A)))⌋ % 256

/-- The scaled image of a plate: the bytes returned by `scale(x, y)`. -/
def scaledImage (junk : Junk) (p : TiffInfo) (x y : Nat) : List Nat :=
  match p.tiff.scale junk x y with
  | .ok (some image) => image
  | _ => []

/-- The blend of spec section 4.5, step 3, of one scaled image of `x` by `y`
cells into a canvas of `maxX` pixels per row: in every canvas pixel
`(col, row)` with `col < x` and `row < y` each of the three channels `v` becomes
`roundedBlend v k s`, `s` being the cell `row * x + col` of the image and `k`
the colour byte of the channel. -/
def blendPlate (maxX : Nat) (color : Rgba) (image : List Nat) (x y : Nat)
    (canvas : List Nat) : List Nat :=
  canvas.mapIdx fun o v =>
    if (o / 3) % maxX < x ∧ (o / 3) / maxX < y then
      roundedBlend v (color.get (o % 3)) (image.getD ((o / 3) / maxX * x + (o / 3) % maxX) 0)
    else v

/-- The blend restricted to the cells of the image before cell `lim`, the image
being read as the program reads it. -/
def blendUpTo (junk : Junk) (maxX : Nat) (color : Rgba) (image : List Nat) (x lim : Nat)
    (canvas : List Nat) : List Nat :=
  canvas.mapIdx fun o v =>
    if (o / 3) % maxX < x ∧ (o / 3) / maxX * x + (o / 3) % maxX < lim then
      TiffManager.mix v (color.get (o % 3)) (rd junk image ((o / 3) / maxX * x + (o / 3) % maxX))
    else v

/-- The left fold of spec section 4.5 over the plates in sequence order: the
canvas starts with every byte 255, a plate that is not active is skipped, an
active plate is blended at its scaled size. `xRes` and `yRes` are the
resolutions that size the canvas and the plates, the sizes are those of
`scaledTo`. -/
def compositeFold (m : TiffManager) (junk : Junk) (dpi : Nat) (xRes yRes : ℚ) : List Nat :=
  m.tiffs.foldl
    (fun canvas p =>
      if p.active then
        blendPlate (scaledTo dpi m.getMaxWidth xRes) p.color
          (scaledImage junk p (scaledTo dpi p.tiff.x xRes) (scaledTo dpi p.tiff.y yRes))
          (scaledTo dpi p.tiff.x xRes) (scaledTo dpi p.tiff.y yRes) canvas
      else canvas)
    (List.replicate
      (scaledTo dpi m.getMaxWidth xRes * scaledTo dpi m.getMaxHeight yRes * 3) 255)


/-! ## Inputs of the examples -/

/-- Reads outside the arrays find zero everywhere. -/
def junkZero : Junk := { stack := fun _ => 0, heap := fun _ => 0 }

/-- Reads outside a table on the stack find 1, reads outside a heap buffer 0. -/
def junkOne : Junk := { stack := fun _ => 1, heap := fun _ => 0 }

/-- The file system with the single file `plate.tif`. -/
def oneFile (f : TiffFile) : String → Option TiffFile :=
  fun name => if name = "plate.tif" then some f else none

/-- The `Tiff` object after `load("plate.tif")` on the file system with that
single file. -/
def loaded (f : TiffFile) : Tiff := (Tiff.load junkZero (oneFile f) Tiff.new "plate.tif").2

/-- An image of 20 by 5 pixels; the pixels 5 to 9 of the last row are set. -/
def file20x5 : TiffFile :=
  { imageLength := 5, imageWidth := 20, xResolution := 1, yResolution := 1, rowsPerStrip := 5,
    resolutionUnit := 2, photometric := 0,
    scanlines := [[0, 0, 0], [0, 0, 0], [0, 0, 0], [0, 0, 0], [0x07, 0xC0, 0]] }

/-- An image of 16 by 1 pixels with the given two bytes. -/
def file16x1 (b0 b1 : Nat) : TiffFile :=
  { imageLength := 1, imageWidth := 16, xResolution := 1, yResolution := 1, rowsPerStrip := 1,
    resolutionUnit := 2, photometric := 0, scanlines := [[b0, b1]] }

/-- An image of 8 by 1 pixels with the given byte and resolution 1. -/
def file8x1 (b : Nat) : TiffFile :=
  { imageLength := 1, imageWidth := 8, xResolution := 1, yResolution := 1, rowsPerStrip := 1,
    resolutionUnit := 2, photometric := 0, scanlines := [[b]] }

/-- An image of 16 by 2 pixels, all bits clear, with resolution 2. -/
def file16x2 : TiffFile :=
  { imageLength := 2, imageWidth := 16, xResolution := 2, yResolution := 2, rowsPerStrip := 2,
    resolutionUnit := 2, photometric := 0, scanlines := [[0, 0], [0, 0]] }

/-- The plate made of a loaded file, active, with a colour. -/
def plateOf (f : TiffFile) (color : Rgba) : TiffInfo :=
  { tiff := loaded f, filename := "plate.tif", active := true, color := color }

/-- The colour (200, 50, 50). -/
def red200 : Rgba := { red := 200, green := 50, blue := 50, alpha := 0 }

/-- The same plate switched off. -/
def idle (p : TiffInfo) : TiffInfo := { p with active := false }

/-- The colour (0, 0, 255). -/
def blue255 : Rgba := { red := 0, green := 0, blue := 255, alpha := 0 }


/-! ## More of `class TiffManager` and of `class Tiff` -/

/-- `TiffManager::addTiff(file, filename)` (`tiffManager.cpp` lines 12-24): the
returned flag and the plate set after the call. The program does not set the
colour of the new entry; its four bytes are what the storage holds. -/
def TiffManager.addTiff (junk : Junk) (fs : String → Option TiffFile) (m : TiffManager)
    (file filename : String) : Bool × TiffManager :=
  if (Tiff.load junk fs Tiff.new file).1 then
    (true,
      { tiffs := m.tiffs ++
          [{ tiff := (Tiff.load junk fs Tiff.new file).2
             filename := filename
             active := true
             color := Rgba.mk (junk.heap 0 % 256) (junk.heap 1 % 256) (junk.heap 2 % 256)
               (junk.heap 3 % 256) }] })
  else (false, m)

/-- `TiffManager::deleteTiff(i)` (lines 26-31): the returned flag and the plate
set after the call. -/
def TiffManager.deleteTiff (m : TiffManager) (i : Nat) : Except Fault (Bool × TiffManager) :=
  if i < m.tiffs.length then .ok (true, { tiffs := m.tiffs.eraseIdx i })
  else .error .badIndex

/-- `TiffManager::deleteTiffs()` (lines 33-40). -/
def TiffManager.deleteTiffs (_m : TiffManager) : Bool × TiffManager := (true, { tiffs := [] })

/-- `TiffManager::setActive(i, status)` (lines 202-204): the plate set after the
call. -/
def TiffManager.setActive (m : TiffManager) (i : Nat) (status : Bool) :
    Except Fault TiffManager :=
  match m.tiffs[i]? with
  | some p => .ok { tiffs := m.tiffs.set i { p with active := status } }
  | none => .error .badIndex

/-- The average of the cells of a grid, each weighted with the number of input
pixels of its block. -/
def weightedAverage (cells areas : List Nat) : ℚ :=
  (((List.zipWith (· * ·) cells areas).sum : Nat) : ℚ) / ((areas.sum : Nat) : ℚ)

/-- The plate set with the plates `p` and `q` at the two ends of the middle part
`mid`. -/
def plateSet (pre : List TiffInfo) (p : TiffInfo) (mid : List TiffInfo) (q : TiffInfo)
    (post : List TiffInfo) : TiffManager :=
  { tiffs := pre ++ p :: (mid ++ q :: post) }

/-- One step of the fold of `compositeFold`: the canvas after the plate `p`, on a
canvas of `scaledTo dpi maxW xRes` pixels per row. -/
def plateStep (junk : Junk) (dpi maxW : Nat) (xRes yRes : ℚ) (canvas : List Nat)
    (p : TiffInfo) : List Nat :=
  if p.active then
    blendPlate (scaledTo dpi maxW xRes) p.color
      (scaledImage junk p (scaledTo dpi p.tiff.x xRes) (scaledTo dpi p.tiff.y yRes))
      (scaledTo dpi p.tiff.x xRes) (scaledTo dpi p.tiff.y yRes) canvas
  else canvas

/-! ## More inputs of the examples -/

/-- An image of 24 by 1 pixels with the given three bytes, 8 dots per unit
across and 1 down: at 1 dpi each byte becomes one cell. -/
def file24x1 (b0 b1 b2 : Nat) : TiffFile :=
  { imageLength := 1, imageWidth := 24, xResolution := 8, yResolution := 1, rowsPerStrip := 1,
    resolutionUnit := 2, photometric := 0, scanlines := [[b0, b1, b2]] }

/-- An image of 8 by 2 pixels with resolution 1; the pixels 4 to 7 of both rows
are set. -/
def file8x2 : TiffFile :=
  { imageLength := 2, imageWidth := 8, xResolution := 1, yResolution := 1, rowsPerStrip := 2,
    resolutionUnit := 2, photometric := 0, scanlines := [[0x0F], [0x0F]] }

/-- An image of 16 by 4 pixels with resolution 2; the rows 2 and 3 are set. -/
def file16x4 : TiffFile :=
  { imageLength := 4, imageWidth := 16, xResolution := 2, yResolution := 2, rowsPerStrip := 4,
    resolutionUnit := 2, photometric := 0,
    scanlines := [[0, 0], [0, 0], [0xFF, 0xFF], [0xFF, 0xFF]] }

/-! ## `class Colors` (`colors.h`, `colors.cpp`) -/

/-- `struct Color`. -/
structure Color where
  r : Nat
  g : Nat
  b : Nat
deriving DecidableEq, Repr

/-- The data member of `Colors`: the entries of `colorMap`, each key once. -/
structure Colors where
  colorMap : List (List Char × Color)
deriving DecidableEq

/-- `::tolower` in the "C" locale. -/
def tolower (c : Char) : Char :=
  if 65 ≤ c.toNat ∧ c.toNat ≤ 90 then Char.ofNat (c.toNat + 32) else c

/-- `isspace` in the "C" locale. -/
def isspace (c : Char) : Bool := c.toNat = 32 ∨ (9 ≤ c.toNat ∧ c.toNat ≤ 13)

/-- The value of a character as a digit of base 16. -/
def hexDigit (c : Char) : Option Nat :=
  if 48 ≤ c.toNat ∧ c.toNat ≤ 57 then some (c.toNat - 48)
  else if 97 ≤ c.toNat ∧ c.toNat ≤ 102 then some (c.toNat - 87)
  else if 65 ≤ c.toNat ∧ c.toNat ≤ 70 then some (c.toNat - 55)
  else none

/-- The digits of base 16 at the front of a text, accumulated onto `acc`. -/
def hexDigits : List Char → Nat → Nat
  | [], acc => acc
  | c :: cs, acc =>
    match hexDigit c with
    | some d => hexDigits cs (16 * acc + d)
    | none => acc

/-- The value of `strtoul(hex.c_str(), NULL, 16)` stored in `unsigned int num`,
for a text of at most six characters: white space, an optional sign, an optional
`0x` or `0X` before a digit, then the digits. -/
def strtoul16 (hex : List Char) : Nat :=
  let s := hex.dropWhile isspace
  let neg := s.head? = some '-'
  let s := if s.head? = some '-' ∨ s.head? = some '+' then s.tail else s
  let s :=
    match s with
    | z :: x :: d :: rest =>
      if z = '0' ∧ (x = 'x' ∨ x = 'X') ∧ (hexDigit d).isSome then d :: rest else s
    | _ => s
  if neg then usub 0 (hexDigits s 0) else u32 (hexDigits s 0)

/-- `line.find("=")`: the position of the first `=`, `none` for `npos`. -/
def findEq : List Char → Option Nat
  | [] => none
  | c :: cs => if c = '=' then some 0 else (findEq cs).map (· + 1)

namespace Colors

/-- The constructor `Colors()`. -/
def new : Colors := { colorMap := [] }

/-- `colorMap.find(s)`: the colour stored under the key, `none` for `end()`. -/
def find (c : Colors) (s : List Char) : Option Color :=
  (c.colorMap.find? fun e => e.1 = s).map fun e => e.2

/-- `colorMap[code] = color`. -/
def assign (c : Colors) (code : List Char) (color : Color) : Colors :=
  { colorMap := (code, color) :: c.colorMap.filter fun e => e.1 ≠ code }

/-- One round of the loop of lines 18-33, for the line read by `getline`. With
`pos = -1` (no `=` in the line) `substr(0, pos)` is the whole line and
`substr(pos+1, 6)` its first six characters. -/
def parseLine (c : Colors) (line : List Char) : Colors :=
  let pos := findEq line
  let code :=
    (match pos with
      | some p => line.take p
      | none => line).map tolower
  let hex :=
    match pos with
    | some p => (line.drop (p + 1)).take 6
    | none => line.take 6
  let num := strtoul16 hex
  c.assign code { r := (num >>> 16) &&& 0x000000ff, g := (num >>> 8) &&& 0x000000ff,
                  b := num &&& 0x000000ff }

/-- `Colors::init(colorsFile)` (`colors.cpp` lines 10-37): the returned flag and
the object after the call. The file system gives the lines of a file that can be
opened. -/
def init (fs : String → Option (List (List Char))) (c : Colors) (colorsFile : String) :
    Bool × Colors :=
  match fs colorsFile with
  | none => (false, c)
  | some lines => (true, lines.foldl parseLine c)

/-- `Colors::operator[](s)` (lines 42-55). -/
def get (c : Colors) (s : List Char) : Color :=
  match c.find (s.map tolower) with
  | none => { r := 0xff, g := 0x6e, b := 0xc7 }
  | some color => color

end Colors

/-! ## `getPixels` with the test of line 347 on the column -/

/-- The loop over `j` of lines 328-355 with the test of line 347 reading
`wholeBytes[j]`, the entry of the column, as the comment above the test
describes it. -/
def columnLoopByColumn (junk : Junk) (data : List Nat) : List Tiff.Mask → Nat → List Nat
  | [], _ => []
  | m :: ms, tmpData =>
    let c0 := if m.leadingMask ≠ 0 then oneBitsInChar (rd junk data tmpData &&& m.leadingMask)
      else 0
    let c1 := Tiff.wholeCount junk data m.wholeBytes tmpData
    let tmpData := tmpData + m.wholeBytes
    let c2 := if m.trailingMask ≠ 0 then
        oneBitsInChar (rd junk data (tmpData + 1) &&& m.trailingMask)
      else 0
    let tmpData := if m.trailingMask ≠ 0 then tmpData + 1 else tmpData
    let tmpData :=
      if (m.wholeBytes ≠ 0 ∨ m.leadingMask &&& 1 ≠ 0) ∧ m.trailingMask = 0 then tmpData + 1
      else tmpData
    (c0 + c1 + c2) :: columnLoopByColumn junk data ms tmpData

/-- The loop over `count` with `columnLoopByColumn`. -/
def countLoopByColumn (f : TiffFile) (junk : Junk) (masks : List Tiff.Mask) (x1 : Nat) :
    Nat → Nat → List Nat → List Nat → List Nat × List Nat
  | 0, _, data, numberOfOnes => (numberOfOnes, data)
  | c + 1, row, data, numberOfOnes =>
    let data := TIFFReadScanline f data row
    countLoopByColumn f junk masks x1 c (row + 1) data
      (List.zipWith (· + ·) numberOfOnes (columnLoopByColumn junk data masks (x1 / 8)))

/-- The loop over `i` with `countLoopByColumn`. -/
def rowLoopByColumn (zeroWhite : Bool) (f : TiffFile) (junk : Junk) (blockX : List Nat)
    (masks : List Tiff.Mask) (x1 x y incHY incLY : Nat) :
    Nat → Nat → Nat → Nat → List Nat → List Nat
  | 0, _, _, _, _ => []
  | n + 1, i, accumY, row, data =>
    let blockY := if accumY + incLY ≥ y then incHY + 1 else incHY
    let accumY := if accumY + incLY ≥ y then accumY + incLY - y else accumY + incLY
    let r := countLoopByColumn f junk masks x1 blockY row data (List.replicate x 0)
    List.zipWith (fun c b => Tiff.grayscale zeroWhite c (blockY * b)) r.1 blockX ++
      rowLoopByColumn zeroWhite f junk blockX masks x1 x y incHY incLY n (i + 1) accumY
        (row + blockY) r.2

/-- `getPixels` with the test of line 347 reading `wholeBytes[j]`. -/
def getPixelsByColumn (t : Tiff) (junk : Junk) (x1 y1 x2 y2 x y : Nat) :
    Except Fault (Option (List Nat)) :=
  match t.tiff with
  | none => .ok none
  | some f => do
    let incX ← Tiff.increments (u32 (usub x2 x1 + 1)) x
    let blockX := Tiff.blockLoop x incX.1 incX.2 x 0
    let masks := Tiff.maskLoop blockX (Tiff.startBits x1) (Tiff.startBits x1)
    let incY ← Tiff.increments (u32 (usub y2 y1 + 1)) y
    pure (some (rowLoopByColumn t.zeroWhite f junk blockX masks x1 x y incY.1 incY.2 y 0 0 y1
      (Tiff.skipLoop f y1 [])))

/-! ## Vocabulary of the statements about the block tables, the complement and the colours -/

/-- The rows of `scaledImage` for the row blocks of the heights `hs`: the body of
the loop of lines 316-366 for each height in turn, `i` being the index of the
output row, `row` the scanline at which the block starts and `data` the
scanline buffer. -/
def rowsOf (zeroWhite : Bool) (f : TiffFile) (junk : Junk) (blockX : List Nat)
    (masks : List Tiff.Mask) (x1 x : Nat) : List Nat → Nat → Nat → List Nat → List Nat
  | [], _, _, _ => []
  | blockY :: hs, i, row, data =>
    List.zipWith (fun c b => Tiff.grayscale zeroWhite c (blockY * b))
        (Tiff.countLoop f junk masks x1 (Tiff.wholeBytesAt junk masks i) blockY row data
          (List.replicate x 0)).1 blockX ++
      rowsOf zeroWhite f junk blockX masks x1 x hs (i + 1) (row + blockY)
        (Tiff.countLoop f junk masks x1 (Tiff.wholeBytesAt junk masks i) blockY row data
          (List.replicate x 0)).2

/-- The image with every byte of every row inverted. -/
def TiffFile.complement (f : TiffFile) : TiffFile :=
  { f with scanlines := f.scanlines.map fun s => s.map fun b => 255 - b }

/-- The code of a line of the colour file: the text before the first `=` (the
whole line when it has none), in lower case. -/
def lineCode (line : List Char) : List Char :=
  (match findEq line with
    | some p => line.take p
    | none => line).map tolower

/-- The up to six characters of a line of the colour file that are read as the
colour: those after the first `=` (the first six of the line when it has
none). -/
def lineHex (line : List Char) : List Char :=
  match findEq line with
  | some p => (line.drop (p + 1)).take 6
  | none => line.take 6

/-- The colour with `r` the bits 23 to 16, `g` the bits 15 to 8 and `b` the bits
7 to 0 of a number. -/
def colorOfNumber (num : Nat) : Color :=
  { r := (num >>> 16) &&& 0x000000ff, g := (num >>> 8) &&& 0x000000ff, b := num &&& 0x000000ff }

/-- The fallback colour of `operator[]`. -/
def neonPink : Color := { r := 0xff, g := 0x6e, b := 0xc7 }

/-! ## More inputs of the examples -/

/-- Reads outside a heap buffer find the byte 255, reads outside a table on the
stack 0. -/
def junkSet : Junk := { stack := fun _ => 0, heap := fun _ => 255 }

/-- An image of 10 by 3 pixels; the pixels 5 to 9 of the last row are set. -/
def file10x3 : TiffFile :=
  { imageLength := 3, imageWidth := 10, xResolution := 1, yResolution := 1, rowsPerStrip := 3,
    resolutionUnit := 2, photometric := 0, scanlines := [[0, 0], [0, 0], [0x07, 0xC0]] }

/-- An image of 65536 by 65536 pixels without ink, with resolution 1. -/
def file65536 : TiffFile :=
  { imageLength := 65536, imageWidth := 65536, xResolution := 1, yResolution := 1,
    rowsPerStrip := 65536, resolutionUnit := 2, photometric := 0,
    scanlines := List.replicate 65536 (List.replicate 8192 0) }

/-- An image of 1431655765 by 1 pixels without ink, with resolution 1. -/
def file1431655765 : TiffFile :=
  { imageLength := 1, imageWidth := 1431655765, xResolution := 1, yResolution := 1,
    rowsPerStrip := 1, resolutionUnit := 2, photometric := 0,
    scanlines := [List.replicate 178956971 0] }

/-- An image of 100 by 1 pixels without ink, with resolution 1. -/
def file100x1 : TiffFile :=
  { imageLength := 1, imageWidth := 100, xResolution := 1, yResolution := 1,
    rowsPerStrip := 1, resolutionUnit := 2, photometric := 0,
    scanlines := [List.replicate 13 0] }

/-- The file system with the single colour file `colors.txt`. -/
def oneColorFile (lines : List (List Char)) : String → Option (List (List Char)) :=
  fun name => if name = "colors.txt" then some lines else none


/-! # Proofs -/

open Tiff TiffManager

/-! ## Machine arithmetic -/

theorem usub_of_le {a b : Nat} (h : b ≤ a) (ha : a < 4294967296) : usub a b = a - b := by
  unfold usub
  omega

theorem span_eq {a b : Nat} (h : b ≤ a) (ha : a < 4294967295) :
    u32 (usub a b + 1) = a - b + 1 := by
  unfold u32 usub
  omega

/-! ## Rounding to a floating-point format -/

theorem halvings_spec : ∀ (fuel n : Nat), 1 ≤ n → n ≤ fuel →
    2 ^ halvings fuel n ≤ n ∧ n < 2 ^ (halvings fuel n + 1) := by
  intro fuel
  induction fuel with
  | zero => intro n h1 h2; omega
  | succ fuel ih =>
    intro n h1 h2
    unfold halvings
    by_cases h : 2 ≤ n
    · rw [if_pos h]
      obtain ⟨a, b⟩ := ih (n / 2) (by omega) (by omega)
      rw [Nat.pow_succ] at b ⊢
      rw [Nat.pow_succ]
      constructor <;> omega
    · rw [if_neg h]
      simp
      omega

theorem bitLog_spec (n : Nat) (h : 1 ≤ n) : 2 ^ bitLog n ≤ n ∧ n < 2 ^ (bitLog n + 1) :=
  halvings_spec n n h (Nat.le_refl n)

theorem pow2_eq (e : ℤ) : pow2 e = (2 : ℚ) ^ e := by
  unfold pow2
  by_cases h : 0 ≤ e
  · rw [if_pos h]
    obtain ⟨n, rfl⟩ := Int.eq_ofNat_of_zero_le h
    simp
  · rw [if_neg h]
    obtain ⟨n, hn⟩ := Int.eq_ofNat_of_zero_le (show 0 ≤ -e by omega)
    have : e = -(n : ℤ) := by omega
    subst this
    simp

theorem pow2_pos (e : ℤ) : 0 < pow2 e := by
  rw [pow2_eq]
  positivity

theorem pow2_add (a b : ℤ) : pow2 (a + b) = pow2 a * pow2 b := by
  rw [pow2_eq, pow2_eq, pow2_eq, zpow_add₀ (by norm_num)]

theorem pow2_le {a b : ℤ} (h : a ≤ b) : pow2 a ≤ pow2 b := by
  rw [pow2_eq, pow2_eq]
  exact zpow_le_zpow_right₀ (by norm_num) h

theorem pow2_natCast (n : ℕ) : pow2 (n : ℤ) = ((2 ^ n : ℕ) : ℚ) := by
  rw [pow2_eq]
  simp

theorem binade_spec (q : ℚ) (hq : 0 < q) : pow2 (binade q) ≤ q ∧ q < pow2 (binade q + 1) := by
  have hnum : 0 < q.num := Rat.num_pos.2 hq
  have hn1 : 1 ≤ q.num.natAbs := by omega
  have hd1 : 1 ≤ q.den := q.den_pos
  obtain ⟨n1, n2⟩ := bitLog_spec q.num.natAbs hn1
  obtain ⟨d1, d2⟩ := bitLog_spec q.den hd1
  have hqe : q = (q.num.natAbs : ℚ) / (q.den : ℚ) := by
    have : ((q.num.natAbs : ℤ) : ℚ) = (q.num : ℚ) := by
      rw [Int.natAbs_of_nonneg (le_of_lt hnum)]
    rw [← Int.cast_natCast q.num.natAbs, this]
    exact (Rat.num_div_den q).symm
  have hdpos : (0 : ℚ) < (q.den : ℚ) := by exact_mod_cast hd1
  have habs : |q| = q := abs_of_pos hq
  generalize hN : q.num.natAbs = N at *
  generalize hD : q.den = D at *
  generalize hA : bitLog N = A at *
  generalize hB : bitLog D = B at *
  have n1q : pow2 (A : ℤ) ≤ (N : ℚ) := by rw [pow2_natCast]; exact_mod_cast n1
  have n2q : (N : ℚ) < pow2 ((A : ℤ) + 1) := by
    have : ((A : ℤ) + 1) = ((A + 1 : ℕ) : ℤ) := by push_cast; ring
    rw [this, pow2_natCast]; exact_mod_cast n2
  have d1q : pow2 (B : ℤ) ≤ (D : ℚ) := by rw [pow2_natCast]; exact_mod_cast d1
  have d2q : (D : ℚ) < pow2 ((B : ℤ) + 1) := by
    have : ((B : ℤ) + 1) = ((B + 1 : ℕ) : ℤ) := by push_cast; ring
    rw [this, pow2_natCast]; exact_mod_cast d2
  unfold binade
  rw [hN, hD, hA, hB, habs]
  by_cases h : pow2 ((A : ℤ) - (B : ℤ)) ≤ q
  · rw [if_pos h]
    refine ⟨h, ?_⟩
    -- q = N / D < 2^(A+1) / 2^B
    rw [hqe, div_lt_iff₀ hdpos]
    have e : pow2 ((A : ℤ) + 1) = pow2 ((A : ℤ) - B + 1) * pow2 (B : ℤ) := by
      rw [← pow2_add]; congr 1; ring
    calc (N : ℚ) < pow2 ((A : ℤ) + 1) := n2q
      _ = pow2 ((A : ℤ) - B + 1) * pow2 (B : ℤ) := e
      _ ≤ pow2 ((A : ℤ) - B + 1) * (D : ℚ) :=
        mul_le_mul_of_nonneg_left d1q (le_of_lt (pow2_pos _))
  · rw [if_neg h]
    refine ⟨?_, ?_⟩
    · rw [hqe, le_div_iff₀ hdpos]
      have e : pow2 (A : ℤ) = pow2 ((A : ℤ) - B - 1) * pow2 ((B : ℤ) + 1) := by
        rw [← pow2_add]; congr 1; ring
      calc pow2 ((A : ℤ) - B - 1) * (D : ℚ)
          ≤ pow2 ((A : ℤ) - B - 1) * pow2 ((B : ℤ) + 1) :=
            mul_le_mul_of_nonneg_left (le_of_lt d2q) (le_of_lt (pow2_pos _))
        _ = pow2 (A : ℤ) := e.symm
        _ ≤ (N : ℚ) := n1q
    · have : (A : ℤ) - B - 1 + 1 = (A : ℤ) - B := by ring
      rw [this]
      exact lt_of_not_le h

theorem roundHalfEven_bounds (q : ℚ) : ⌊q⌋ ≤ roundHalfEven q ∧ roundHalfEven q ≤ ⌊q⌋ + 1 := by
  unfold roundHalfEven
  split_ifs <;> constructor <;> omega

theorem roundHalfEven_intCast (n : ℤ) : roundHalfEven (n : ℚ) = n := by
  unfold roundHalfEven
  simp

theorem roundHalfEven_mono {a b : ℚ} (h : a ≤ b) : roundHalfEven a ≤ roundHalfEven b := by
  have hf : ⌊a⌋ ≤ ⌊b⌋ := Int.floor_mono h
  rcases lt_or_eq_of_le hf with hlt | heq
  · have := (roundHalfEven_bounds a).2
    have := (roundHalfEven_bounds b).1
    omega
  · unfold roundHalfEven
    rw [← heq]
    have hab : a - ⌊a⌋ ≤ b - ⌊a⌋ := by linarith
    split_ifs <;> first | omega | (exfalso; linarith)

theorem roundTo_eq (p : ℕ) (emin : ℤ) (q : ℚ) :
    roundTo p emin q = roundHalfEven (q / pow2 (max (binade q) emin - ((p : ℤ) - 1))) *
      pow2 (max (binade q) emin - ((p : ℤ) - 1)) := rfl

theorem roundTo_nonneg (p : ℕ) (emin : ℤ) (q : ℚ) (hq : 0 ≤ q) : 0 ≤ roundTo p emin q := by
  rw [roundTo_eq]
  apply mul_nonneg _ (le_of_lt (pow2_pos _))
  have h0 : (0 : ℚ) ≤ q / pow2 (max (binade q) emin - ((p : ℤ) - 1)) :=
    div_nonneg hq (le_of_lt (pow2_pos _))
  have := roundHalfEven_mono h0
  have e : roundHalfEven (0 : ℚ) = 0 := by
    have := roundHalfEven_intCast 0
    simpa using this
  rw [e] at this
  exact_mod_cast this

theorem roundTo_zero (p : ℕ) (emin : ℤ) : roundTo p emin 0 = 0 := by
  rw [roundTo_eq]
  have e : roundHalfEven (0 : ℚ) = 0 := by
    have := roundHalfEven_intCast 0
    simpa using this
  simp [e]

/-- A value below a grid point rounds to at most the grid point. -/
theorem round_le_grid (u q : ℚ) (n : ℤ) (hu : 0 < u) (h : q ≤ n * u) :
    roundHalfEven (q / u) * u ≤ n * u := by
  apply mul_le_mul_of_nonneg_right _ (le_of_lt hu)
  have h1 : q / u ≤ (n : ℚ) := by rw [div_le_iff₀ hu]; exact h
  have := roundHalfEven_mono h1
  rw [roundHalfEven_intCast] at this
  exact_mod_cast this

/-- A value above a grid point rounds to at least the grid point. -/
theorem grid_le_round (u q : ℚ) (n : ℤ) (hu : 0 < u) (h : n * u ≤ q) :
    n * u ≤ roundHalfEven (q / u) * u := by
  apply mul_le_mul_of_nonneg_right _ (le_of_lt hu)
  have h1 : (n : ℚ) ≤ q / u := by rw [le_div_iff₀ hu]; exact h
  have := roundHalfEven_mono h1
  rw [roundHalfEven_intCast] at this
  exact_mod_cast this

theorem binade_mono {a b : ℚ} (ha : 0 < a) (hab : a ≤ b) : binade a ≤ binade b := by
  have h1 := (binade_spec a ha).1
  have h2 := (binade_spec b (lt_of_lt_of_le ha hab)).2
  have h3 : pow2 (binade a) < pow2 (binade b + 1) := lt_of_le_of_lt (le_trans h1 hab) h2
  by_contra hcon
  have : binade b + 1 ≤ binade a := by omega
  exact absurd (pow2_le this) (not_le.2 h3)

theorem roundTo_mono (p : ℕ) (emin : ℤ) (hp : 1 ≤ p) {a b : ℚ} (ha : 0 ≤ a) (hab : a ≤ b) :
    roundTo p emin a ≤ roundTo p emin b := by
  rcases eq_or_lt_of_le ha with h0 | hpos
  · rw [← h0, roundTo_zero]
    exact roundTo_nonneg p emin b (le_trans ha hab)
  · have hb : 0 < b := lt_of_lt_of_le hpos hab
    have hbin := binade_mono hpos hab
    have hmax : max (binade a) emin ≤ max (binade b) emin := max_le_max hbin (le_refl _)
    rw [roundTo_eq, roundTo_eq]
    rcases eq_or_lt_of_le hmax with heq | hlt
    · rw [heq]
      apply mul_le_mul_of_nonneg_right _ (le_of_lt (pow2_pos _))
      have : a / pow2 (max (binade b) emin - ((p : ℤ) - 1)) ≤
          b / pow2 (max (binade b) emin - ((p : ℤ) - 1)) :=
        div_le_div_of_nonneg_right hab (le_of_lt (pow2_pos _))
      exact_mod_cast roundHalfEven_mono this
    · -- the larger value is in a higher binade
      have hbe : max (binade b) emin = binade b := by
        rcases le_total (binade b) emin with h | h
        · rw [max_eq_right h] at hlt
          have := le_max_right (binade a) emin
          omega
        · exact max_eq_left h
      generalize hea : max (binade a) emin = ea at *
      rw [hbe] at hlt ⊢
      have hale : binade a ≤ ea := by rw [← hea]; exact le_max_left _ _
      -- a < 2^(ea+1) = 2^p * ulp_a
      have h1 : a ≤ ((2 ^ p : ℕ) : ℤ) * pow2 (ea - ((p : ℤ) - 1)) := by
        have e : (((2 ^ p : ℕ) : ℤ) : ℚ) * pow2 (ea - ((p : ℤ) - 1)) = pow2 (ea + 1) := by
          rw [Int.cast_natCast, ← pow2_natCast, ← pow2_add]; congr 1; ring
        rw [e]
        exact le_trans (le_of_lt (binade_spec a hpos).2) (pow2_le (by omega))
      have h2 : ((2 ^ (p - 1) : ℕ) : ℤ) * pow2 (binade b - ((p : ℤ) - 1)) ≤ b := by
        have e : (((2 ^ (p - 1) : ℕ) : ℤ) : ℚ) * pow2 (binade b - ((p : ℤ) - 1)) =
            pow2 (binade b) := by
          rw [Int.cast_natCast, ← pow2_natCast, ← pow2_add]; congr 1
          have : ((p - 1 : ℕ) : ℤ) = (p : ℤ) - 1 := by omega
          rw [this]; ring
        rw [e]
        exact (binade_spec b hb).1
      have r1 := round_le_grid _ a _ (pow2_pos (ea - ((p : ℤ) - 1))) h1
      have r2 := grid_le_round _ b _ (pow2_pos (binade b - ((p : ℤ) - 1))) h2
      have e1 : (((2 ^ p : ℕ) : ℤ) : ℚ) * pow2 (ea - ((p : ℤ) - 1)) = pow2 (ea + 1) := by
        rw [Int.cast_natCast, ← pow2_natCast, ← pow2_add]; congr 1; ring
      have e2 : (((2 ^ (p - 1) : ℕ) : ℤ) : ℚ) * pow2 (binade b - ((p : ℤ) - 1)) =
          pow2 (binade b) := by
        rw [Int.cast_natCast, ← pow2_natCast, ← pow2_add]; congr 1
        have : ((p - 1 : ℕ) : ℤ) = (p : ℤ) - 1 := by omega
        rw [this]; ring
      rw [e1] at r1
      rw [e2] at r2
      exact le_trans r1 (le_trans (pow2_le (by omega)) r2)

/-- A natural number below `2 ^ p` is a value of the format. -/
theorem roundTo_natCast (p : ℕ) (emin : ℤ) (he : emin ≤ 0) (n : ℕ)
    (hn : n < 2 ^ p) : roundTo p emin (n : ℚ) = n := by
  rcases Nat.eq_zero_or_pos n with h0 | hpos
  · subst h0
    simpa using roundTo_zero p emin
  · have hq : (0 : ℚ) < (n : ℚ) := by exact_mod_cast hpos
    obtain ⟨b1, b2⟩ := binade_spec (n : ℚ) hq
    -- 0 ≤ binade n < p
    have hlo : 0 ≤ binade (n : ℚ) := by
      by_contra hcon
      have h1 : binade (n : ℚ) + 1 ≤ 0 := by omega
      have h2 := pow2_le h1
      have h3 : pow2 0 = 1 := by rw [pow2_eq]; simp
      have h4 : (1 : ℚ) ≤ (n : ℚ) := by exact_mod_cast hpos
      linarith
    have hhi : binade (n : ℚ) ≤ (p : ℤ) - 1 := by
      by_contra hcon
      have h1 : (p : ℤ) ≤ binade (n : ℚ) := by omega
      have h2 := pow2_le h1
      rw [pow2_natCast] at h2
      have h4 : (n : ℚ) < ((2 ^ p : ℕ) : ℚ) := by exact_mod_cast hn
      linarith
    rw [roundTo_eq, max_eq_left (by omega : emin ≤ binade (n : ℚ))]
    obtain ⟨k, hk⟩ := Int.eq_ofNat_of_zero_le (show 0 ≤ (p : ℤ) - 1 - binade (n : ℚ) by omega)
    have hexp : binade (n : ℚ) - ((p : ℤ) - 1) = -(k : ℤ) := by omega
    rw [hexp]
    have hu : pow2 (-(k : ℤ)) * pow2 (k : ℤ) = 1 := by
      rw [← pow2_add]
      have : -(k : ℤ) + k = 0 := by ring
      rw [this, pow2_eq]; simp
    have hk2 : (2 : ℚ) ^ k = pow2 (k : ℤ) := by rw [pow2_eq]; simp
    have hdiv : (n : ℚ) / pow2 (-(k : ℤ)) = ((n * 2 ^ k : ℕ) : ℤ) := by
      rw [div_eq_iff (ne_of_gt (pow2_pos _))]
      push_cast
      rw [hk2, mul_assoc, mul_comm (pow2 (k : ℤ)), hu, mul_one]
    rw [hdiv, roundHalfEven_intCast]
    push_cast
    rw [hk2, mul_assoc, mul_comm (pow2 (k : ℤ)), hu, mul_one]

theorem f32_nonneg (q : ℚ) (hq : 0 ≤ q) : 0 ≤ f32 q := roundTo_nonneg 24 (-126) q hq

theorem f32_mono {a b : ℚ} (ha : 0 ≤ a) (hab : a ≤ b) : f32 a ≤ f32 b :=
  roundTo_mono 24 (-126) (by decide) ha hab

theorem f32_zero : f32 0 = 0 := roundTo_zero 24 (-126)

theorem f64_zero : f64 0 = 0 := roundTo_zero 53 (-1022)

theorem f64_natCast (n : ℕ) (hn : n < 9007199254740992) : f64 (n : ℚ) = n :=
  roundTo_natCast 53 (-1022) (by decide) n (by simpa using hn)

/-! ## The bit table and the masks -/

set_option maxRecDepth 100000 in
theorem oneBitsInChar_eq_bitSum : ∀ v < 256, oneBitsInChar v = bitSum v 7 8 := by decide

set_option maxRecDepth 100000 in
set_option maxHeartbeats 4000000 in
theorem oneBitsInChar_mask : ∀ v < 256, ∀ R < 9, ∀ lb < 9, lb ≤ R →
    oneBitsInChar (v &&& ((Tiff.pow2m1 lb <<< (R - lb)) % 256)) = bitSum v (R - 1) lb := by
  decide

theorem mask_low_bit : ∀ R < 9, ∀ lb < 9, 1 ≤ lb → lb ≤ R →
    ((((Tiff.pow2m1 lb <<< (R - lb)) % 256) &&& 1 ≠ 0) ↔ R = lb) := by
  decide

theorem mask_ne_zero : ∀ R < 9, ∀ lb < 9, lb ≤ R →
    (((Tiff.pow2m1 lb <<< (R - lb)) % 256 ≠ 0) ↔ lb ≠ 0) := by
  decide

theorem rd_lt (junk : Junk) (data : List Nat) (hd : ∀ v ∈ data, v < 256) (p : Nat) :
    rd junk data p < 256 := by
  unfold rd
  rw [List.getD_eq_getElem?_getD]
  cases h : data[p]? with
  | none => simp; omega
  | some v =>
    simp
    exact hd v (List.getElem?_mem h)

theorem wholeLoop_eq (fuel w b : Nat) (h : b ≤ fuel) :
    Tiff.wholeLoop fuel w b = (w + b / 8, b % 8) := by
  induction fuel generalizing w b with
  | zero =>
    have : b = 0 := by omega
    subst this
    simp [Tiff.wholeLoop]
  | succ n ih =>
    unfold Tiff.wholeLoop
    split
    · rw [ih _ _ (by omega)]
      ext
      · simp; omega
      · simp; omega
    · ext
      · simp; omega
      · simp; omega

/-! ## Counting in one scanline -/

theorem setBits_add (junk : Junk) (data : List Nat) (lo a b : Nat) :
    setBits junk data lo (a + b) = setBits junk data lo a + setBits junk data (lo + a) b := by
  induction b with
  | zero => simp [setBits]
  | succ n ih =>
    rw [← Nat.add_assoc]
    simp only [setBits, ih]
    rw [Nat.add_assoc lo a n]
    omega

theorem setBits_in_byte (junk : Junk) (data : List Nat) (P n : Nat) (h : P % 8 + n ≤ 8) :
    setBits junk data P n = bitSum (rd junk data (P / 8)) (7 - P % 8) n := by
  induction n with
  | zero => simp [setBits, bitSum]
  | succ k ih =>
    simp only [setBits, bitSum]
    rw [ih (by omega)]
    congr 1
    unfold pixel
    have h1 : (P + k) / 8 = P / 8 := by omega
    have h2 : 7 - (P + k) % 8 = 7 - P % 8 - k := by omega
    rw [h1, h2]

theorem wholeCount_eq (junk : Junk) (data : List Nat) (hd : ∀ v ∈ data, v < 256) (n p : Nat) :
    Tiff.wholeCount junk data n p = setBits junk data (8 * (p + 1)) (8 * n) := by
  induction n generalizing p with
  | zero => simp [Tiff.wholeCount, setBits]
  | succ k ih =>
    unfold Tiff.wholeCount
    rw [ih (p + 1), oneBitsInChar_eq_bitSum _ (rd_lt junk data hd _)]
    have e : 8 * (k + 1) = 8 + 8 * k := by ring
    rw [e, setBits_add, setBits_in_byte junk data (8 * (p + 1)) 8 (by omega)]
    have h1 : 8 * (p + 1) / 8 = p + 1 := by omega
    have h2 : 7 - 8 * (p + 1) % 8 = 7 := by omega
    have h3 : 8 * (p + 1) + 8 = 8 * (p + 1 + 1) := by ring
    rw [h1, h2, h3]


theorem maskLoop_cons_lt (b : Nat) (bs : List Nat) (L R : Nat) (hRL : R ≤ L) (hbR : b < R) :
    maskLoop (b :: bs) L R =
      { leadingMask := (pow2m1 b <<< (R - b)) % 256, wholeBytes := 0, trailingMask := 0 } ::
        maskLoop bs 8 (R - b) := by
  have h1 : min (min L b) R = b := by omega
  simp only [maskLoop, h1, Nat.sub_self, wholeLoop_eq 0 0 0 (Nat.le_refl 0)]
  have h2 : ¬ (0 > 7) := by omega
  have h3 : ¬ (R - b = 0) := by omega
  simp [h2, h3, pow2m1]

theorem maskLoop_cons_ge (b : Nat) (bs : List Nat) (L R : Nat) (hRL : R ≤ L) (hbR : R ≤ b) :
    maskLoop (b :: bs) L R =
      { leadingMask := (pow2m1 R <<< (R - R)) % 256, wholeBytes := (b - R) / 8,
        trailingMask := (pow2m1 ((b - R) % 8) <<< (8 - (b - R) % 8)) % 256 } ::
        maskLoop bs (8 - (b - R) % 8) (8 - (b - R) % 8) := by
  have h1 : min (min L b) R = R := by omega
  simp only [maskLoop, h1, Nat.sub_self, wholeLoop_eq (b - R) 0 (b - R) (Nat.le_refl _)]
  have h3 : (if (if b - R > 7 then 8 else 0) = 0 then 8 else if b - R > 7 then 8 else 0) = 8 := by
    split_ifs <;> omega
  simp only [h3, Nat.zero_add]

theorem columnLoop_maskLoop (junk : Junk) (data : List Nat) (wbi : Nat)
    (hd : ∀ v ∈ data, v < 256) :
    ∀ (bs : List Nat) (P L : Nat), (∀ b ∈ bs, 1 ≤ b) → (wbi = 0 ∨ ∀ b ∈ bs, 8 ≤ b) →
      8 - P % 8 ≤ L →
      columnLoop junk data wbi (maskLoop bs L (8 - P % 8)) (P / 8) =
        blockCounts junk data bs P := by
  intro bs
  induction bs with
  | nil => intros; simp [maskLoop, columnLoop, blockCounts]
  | cons b bs ih =>
    intro P L hb hadv hL
    have hb1 : 1 ≤ b := hb b (by simp)
    have hbs : ∀ c ∈ bs, 1 ≤ c := fun c hc => hb c (by simp [hc])
    have hadvs : wbi = 0 ∨ ∀ c ∈ bs, 8 ≤ c := by
      rcases hadv with h | h
      · exact Or.inl h
      · exact Or.inr fun c hc => h c (by simp [hc])
    have hv := rd_lt junk data hd
    by_cases hbR : b < 8 - P % 8
    · -- the block ends inside the current byte
      have hw : wbi = 0 := by
        rcases hadv with h | h
        · exact h
        · have := h b (by simp); omega
      rw [maskLoop_cons_lt b bs L _ hL hbR]
      simp only [columnLoop, blockCounts, wholeCount, Nat.add_zero]
      have hm := oneBitsInChar_mask _ (hv (P / 8)) (8 - P % 8) (by omega) b (by omega) (by omega)
      have hne := (mask_ne_zero (8 - P % 8) (by omega) b (by omega) (by omega)).2 (by omega)
      have hlow := mask_low_bit (8 - P % 8) (by omega) b (by omega) hb1 (by omega)
      have hlow2 : ¬ ((pow2m1 b <<< (8 - P % 8 - b)) % 256 &&& 1 ≠ 0) := by
        rw [hlow]; omega
      have e1 : 8 - P % 8 - b = 8 - (P + b) % 8 := by omega
      have e2 : P / 8 = (P + b) / 8 := by omega
      have e3 : 8 - P % 8 - 1 = 7 - P % 8 := by omega
      have hi := ih (P + b) 8 hbs hadvs (by omega)
      have hcond : ¬ ((wbi ≠ 0 ∨ (pow2m1 b <<< (8 - P % 8 - b)) % 256 &&& 1 ≠ 0) ∧ True) := by
        rintro ⟨h | h, -⟩
        · exact h hw
        · exact hlow2 h
      have h00 : ¬ ((0 : Nat) ≠ 0) := by simp
      rw [if_pos hne, hm, if_neg hcond, if_neg h00, if_neg h00,
        setBits_in_byte junk data P b (by omega), e3, e1, e2, hi, Nat.add_zero]
    · -- the block reaches the end of the current byte
      have hbR2 : 8 - P % 8 ≤ b := by omega
      rw [maskLoop_cons_ge b bs L _ hL hbR2]
      simp only [columnLoop, blockCounts, Nat.sub_self]
      have hR8 : 8 - P % 8 < 9 := by omega
      have htb : (b - (8 - P % 8)) % 8 < 9 := by omega
      have hm := oneBitsInChar_mask _ (hv (P / 8)) (8 - P % 8) hR8 (8 - P % 8) hR8 (Nat.le_refl _)
      have hne := (mask_ne_zero (8 - P % 8) hR8 (8 - P % 8) hR8 (Nat.le_refl _)).2 (by omega)
      have hlow := (mask_low_bit (8 - P % 8) hR8 (8 - P % 8) hR8 (by omega) (Nat.le_refl _)).2 rfl
      have hmt := oneBitsInChar_mask _ (hv (P / 8 + (b - (8 - P % 8)) / 8 + 1)) 8 (by omega)
        ((b - (8 - P % 8)) % 8) htb (by omega)
      have hnet := mask_ne_zero 8 (by omega) ((b - (8 - P % 8)) % 8) htb (by omega)
      simp only [Nat.sub_self] at hm hne hlow
      rw [if_pos hne, hm, wholeCount_eq junk data hd]
      have hi := ih (P + b) (8 - (P + b) % 8) hbs hadvs (Nat.le_refl _)
      have e1 : 8 - (b - (8 - P % 8)) % 8 = 8 - (P + b) % 8 := by omega
      have hp : (if (wbi ≠ 0 ∨ (pow2m1 (8 - P % 8) <<< 0) % 256 &&& 1 ≠ 0) ∧
            (pow2m1 ((b - (8 - P % 8)) % 8) <<< (8 - (b - (8 - P % 8)) % 8)) % 256 = 0 then
          (if (pow2m1 ((b - (8 - P % 8)) % 8) <<< (8 - (b - (8 - P % 8)) % 8)) % 256 ≠ 0 then
            P / 8 + (b - (8 - P % 8)) / 8 + 1 else P / 8 + (b - (8 - P % 8)) / 8) + 1
          else
          (if (pow2m1 ((b - (8 - P % 8)) % 8) <<< (8 - (b - (8 - P % 8)) % 8)) % 256 ≠ 0 then
            P / 8 + (b - (8 - P % 8)) / 8 + 1 else P / 8 + (b - (8 - P % 8)) / 8)) =
          (P + b) / 8 := by
        by_cases ht : (pow2m1 ((b - (8 - P % 8)) % 8) <<< (8 - (b - (8 - P % 8)) % 8)) % 256 = 0
        · rw [if_pos ⟨Or.inr hlow, ht⟩, if_neg (by simpa using ht)]
          omega
        · rw [if_neg (fun h => ht h.2), if_pos ht]
          omega
      have hc2 : (if (pow2m1 ((b - (8 - P % 8)) % 8) <<< (8 - (b - (8 - P % 8)) % 8)) % 256 ≠ 0
          then oneBitsInChar (rd junk data (P / 8 + (b - (8 - P % 8)) / 8 + 1) &&&
            (pow2m1 ((b - (8 - P % 8)) % 8) <<< (8 - (b - (8 - P % 8)) % 8)) % 256) else 0) =
          setBits junk data (P + (8 - P % 8) + 8 * ((b - (8 - P % 8)) / 8))
            ((b - (8 - P % 8)) % 8) := by
        rw [setBits_in_byte junk data _ _ (by omega)]
        have q1 : (P + (8 - P % 8) + 8 * ((b - (8 - P % 8)) / 8)) / 8 =
            P / 8 + (b - (8 - P % 8)) / 8 + 1 := by omega
        have q2 : 7 - (P + (8 - P % 8) + 8 * ((b - (8 - P % 8)) / 8)) % 8 = 7 := by omega
        rw [q1, q2]
        by_cases ht : (pow2m1 ((b - (8 - P % 8)) % 8) <<< (8 - (b - (8 - P % 8)) % 8)) % 256 = 0
        · have h0 : (b - (8 - P % 8)) % 8 = 0 := by
            by_contra hc
            exact (hnet.2 hc) ht
          rw [if_neg (by simpa using ht), h0]
          simp [bitSum]
        · rw [if_pos ht, hmt]
      rw [hp, hc2, e1, hi]
      congr 1
      have hsplit : b = (8 - P % 8) + (8 * ((b - (8 - P % 8)) / 8) + (b - (8 - P % 8)) % 8) := by
        omega
      have q3 : 8 * (P / 8 + 1) = P + (8 - P % 8) := by omega
      have q4 : 8 - P % 8 - 1 = 7 - P % 8 := by omega
      conv_rhs => rw [hsplit]
      rw [setBits_add, setBits_add, setBits_in_byte junk data P (8 - P % 8) (by omega), q3, q4]
      omega


/-! ## Block sizes -/

theorem blockLoop_length (out incH incL : Nat) :
    ∀ n accum, (blockLoop out incH incL n accum).length = n := by
  intro n
  induction n with
  | zero => intro accum; simp [blockLoop]
  | succ k ih =>
    intro accum
    unfold blockLoop
    split <;> simp [ih]

theorem blockLoop_mem (out incH incL : Nat) :
    ∀ n accum, ∀ b ∈ blockLoop out incH incL n accum, b = incH ∨ b = incH + 1 := by
  intro n
  induction n with
  | zero => intro accum b hb; simp [blockLoop] at hb
  | succ k ih =>
    intro accum b hb
    unfold blockLoop at hb
    split at hb
    · rcases List.mem_cons.1 hb with h | h
      · exact Or.inr h
      · exact ih _ b h
    · rcases List.mem_cons.1 hb with h | h
      · exact Or.inl h
      · exact ih _ b h

theorem blockLoop_sum (out incH incL : Nat) (hout : 0 < out) (hL : incL < out) :
    ∀ n accum, accum < out →
      (blockLoop out incH incL n accum).sum = n * incH + (accum + n * incL) / out := by
  intro n
  induction n with
  | zero =>
    intro accum ha
    simp [blockLoop, Nat.div_eq_of_lt ha]
  | succ k ih =>
    intro accum ha
    unfold blockLoop
    split
    · rename_i hge
      rw [List.sum_cons, ih _ (by omega)]
      have e : accum + (k + 1) * incL = (accum + incL - out + k * incL) + out := by
        have : (k + 1) * incL = k * incL + incL := by ring
        omega
      rw [e, Nat.add_div_right _ hout]
      ring
    · rename_i hlt
      rw [List.sum_cons, ih _ (by omega)]
      have e : accum + (k + 1) * incL = accum + incL + k * incL := by ring
      rw [e]
      ring

theorem blockSizes_length (span out : Nat) : (blockSizes span out).length = out := by
  unfold blockSizes
  split <;> exact blockLoop_length _ _ _ _ _

theorem blockSizes_pos (span out : Nat) (hout : 0 < out) : ∀ b ∈ blockSizes span out, 1 ≤ b := by
  intro b hb
  unfold blockSizes at hb
  split at hb
  · rcases blockLoop_mem _ _ _ _ _ b hb with h | h <;> omega
  · rename_i hlt
    have h1 : 1 ≤ span / out := (Nat.one_le_div_iff hout).2 (by omega)
    rcases blockLoop_mem _ _ _ _ _ b hb with h | h <;> omega

theorem blockSizes_sum (span out : Nat) (hout : 0 < out) (h : out ≤ span) :
    (blockSizes span out).sum = span := by
  unfold blockSizes
  split
  · rename_i hle
    have : span = out := by omega
    subst this
    rw [blockLoop_sum _ _ _ hout hout _ _ hout]
    simp
  · rename_i hlt
    have hmod : span - span / out * out = span % out := by
      have := Nat.div_add_mod span out
      have e : span / out * out = out * (span / out) := by ring
      omega
    rw [hmod, blockLoop_sum _ _ _ hout (Nat.mod_lt _ hout) _ _ hout]
    have : (0 + out * (span % out)) / out = span % out := by
      rw [Nat.zero_add, Nat.mul_div_cancel_left _ hout]
    rw [this]
    have := Nat.div_add_mod span out
    nlinarith [this]

theorem blockSizes_near (span out : Nat) :
    ∀ b ∈ blockSizes span out, ∀ c ∈ blockSizes span out, b ≤ c + 1 := by
  intro b hb c hc
  unfold blockSizes at hb hc
  by_cases h : span ≤ out
  · rw [if_pos h] at hb hc
    rcases blockLoop_mem _ _ _ _ _ b hb with h1 | h1 <;>
      rcases blockLoop_mem _ _ _ _ _ c hc with h2 | h2 <;> omega
  · rw [if_neg h] at hb hc
    rcases blockLoop_mem _ _ _ _ _ b hb with h1 | h1 <;>
      rcases blockLoop_mem _ _ _ _ _ c hc with h2 | h2 <;> omega

theorem increments_eq (span out : Nat) (hout : 0 < out) :
    increments span out = .ok (if span ≤ out then (1, 0)
      else (span / out, span - (span / out) * out)) := by
  unfold increments
  split
  · rfl
  · rw [if_neg (by omega)]


/-! ## The masks -/

theorem maskLoop_length : ∀ (bs : List Nat) (L R : Nat), (maskLoop bs L R).length = bs.length := by
  intro bs
  induction bs with
  | nil => intros; simp [maskLoop]
  | cons b bs ih => intro L R; simp [maskLoop, ih]

theorem maskLoop_wholeBytes : ∀ (bs : List Nat) (L R : Nat), 1 ≤ R → R ≤ 8 → R ≤ L →
    ∀ m ∈ maskLoop bs L R, m.wholeBytes ≠ 0 → ∃ b ∈ bs, 9 ≤ b := by
  intro bs
  induction bs with
  | nil => intro L R _ _ _ m hm; simp [maskLoop] at hm
  | cons b bs ih =>
    intro L R h1 h8 hL m hm hw
    by_cases hbR : b < R
    · rw [maskLoop_cons_lt b bs L R hL hbR] at hm
      rcases List.mem_cons.1 hm with h | h
      · subst h; simp at hw
      · obtain ⟨c, hc, h9⟩ := ih 8 (R - b) (by omega) (by omega) (by omega) m h hw
        exact ⟨c, List.mem_cons_of_mem _ hc, h9⟩
    · rw [maskLoop_cons_ge b bs L R hL (by omega)] at hm
      rcases List.mem_cons.1 hm with h | h
      · subst h
        simp only at hw
        exact ⟨b, List.mem_cons_self _ _, by omega⟩
      · obtain ⟨c, hc, h9⟩ := ih _ _ (by omega) (by omega) (Nat.le_refl _) m h hw
        exact ⟨c, List.mem_cons_of_mem _ hc, h9⟩

theorem startBits_range (x1 : Nat) : 1 ≤ startBits x1 ∧ startBits x1 ≤ 8 := by
  unfold startBits
  split <;> omega

theorem firstColumn_div (x1 : Nat) : firstColumn x1 / 8 = x1 / 8 := by
  unfold firstColumn startBits
  split <;> omega

theorem firstColumn_mod (x1 : Nat) : 8 - firstColumn x1 % 8 = startBits x1 := by
  unfold firstColumn startBits
  split <;> omega

theorem firstColumn_of_aligned (x1 : Nat) (h : x1 % 8 = 0 ∨ x1 % 8 = 4) : firstColumn x1 = x1 := by
  unfold firstColumn startBits
  split <;> omega

/-- The pointer test of line 347 reads `wholeBytes[i]`; inside the table that
value can only be non-zero when every block is at least 8 columns wide. -/
theorem wholeBytesAt_inside (junk : Junk) (span x x1 i : Nat) (hi : i < x) :
    wholeBytesAt junk (maskLoop (blockSizes span x) (startBits x1) (startBits x1)) i = 0 ∨
      ∀ b ∈ blockSizes span x, 8 ≤ b := by
  by_cases h0 : wholeBytesAt junk (maskLoop (blockSizes span x) (startBits x1) (startBits x1)) i = 0
  · exact Or.inl h0
  · right
    unfold wholeBytesAt at h0
    have hlen : i < (maskLoop (blockSizes span x) (startBits x1) (startBits x1)).length := by
      rw [maskLoop_length, blockSizes_length]; exact hi
    rw [dif_pos hlen] at h0
    obtain ⟨c, hc, h9⟩ := maskLoop_wholeBytes _ _ _ (startBits_range x1).1 (startBits_range x1).2
      (Nat.le_refl _) _ (List.getElem_mem hlen) h0
    intro b hb
    have := blockSizes_near span x c hc b hb
    omega

/-! ## Rows of the grid -/

theorem zipWith_add_gridRow (c1 c2 : Nat → Nat → Nat) :
    ∀ (ws : List Nat) (lo : Nat),
      List.zipWith (· + ·) (gridRow c1 ws lo) (gridRow c2 ws lo) =
        gridRow (fun lo w => c1 lo w + c2 lo w) ws lo := by
  intro ws
  induction ws with
  | nil => intro lo; simp [gridRow]
  | cons w ws ih => intro lo; simp [gridRow, ih]

theorem replicate_eq_gridRow : ∀ (ws : List Nat) (lo : Nat),
    List.replicate ws.length 0 = gridRow (fun _ _ => 0) ws lo := by
  intro ws
  induction ws with
  | nil => intro lo; simp [gridRow]
  | cons w ws ih => intro lo; simp [gridRow, List.replicate_succ, ih (lo + w)]

theorem blockCounts_eq_gridRow (junk : Junk) (data : List Nat) : ∀ (ws : List Nat) (lo : Nat),
    blockCounts junk data ws lo = gridRow (fun lo w => setBits junk data lo w) ws lo := by
  intro ws
  induction ws with
  | nil => intro lo; simp [gridRow, blockCounts]
  | cons w ws ih => intro lo; simp [gridRow, blockCounts, ih]

theorem zipWith_gray_gridRow (g : Nat → Nat → Nat) (cnt : Nat → Nat → Nat) :
    ∀ (ws : List Nat) (lo : Nat),
      List.zipWith g (gridRow cnt ws lo) ws = gridRow (fun lo w => g (cnt lo w) w) ws lo := by
  intro ws
  induction ws with
  | nil => intro lo; simp [gridRow]
  | cons w ws ih => intro lo; simp [gridRow, ih]

theorem gridRow_congr (c1 c2 : Nat → Nat → Nat) (h : ∀ lo w, c1 lo w = c2 lo w)
    (ws : List Nat) (lo : Nat) : gridRow c1 ws lo = gridRow c2 ws lo := by
  have : c1 = c2 := by funext lo w; exact h lo w
  rw [this]

theorem blockBits_front (f : TiffFile) (junk : Junk) (lo w top : Nat) : ∀ h,
    f.blockBits junk lo w top (h + 1) =
      setBits junk (f.scanline top) lo w + f.blockBits junk lo w (top + 1) h := by
  intro h
  induction h with
  | zero => simp [TiffFile.blockBits]
  | succ k ih =>
    rw [TiffFile.blockBits, ih, TiffFile.blockBits]
    have : top + 1 + k = top + (k + 1) := by omega
    rw [this]
    omega

theorem TIFFReadScanline_inside (f : TiffFile) (data : List Nat) (row : Nat)
    (h : row < f.scanlines.length) : TIFFReadScanline f data row = f.scanline row := by
  unfold TIFFReadScanline TiffFile.scanline
  rw [dif_pos h, List.getD_eq_getElem _ _ h]

theorem scanline_bytes (f : TiffFile) (wf : f.WellFormed) (row : Nat) :
    ∀ v ∈ f.scanline row, v < 256 := by
  intro v hv
  unfold TiffFile.scanline at hv
  by_cases h : row < f.scanlines.length
  · rw [List.getD_eq_getElem _ _ h] at hv
    exact wf.bytes _ (List.getElem_mem h) v hv
  · rw [List.getD_eq_default _ _ (by omega)] at hv
    simp at hv

/-- The counting loop over the rows of one output row. -/
theorem countLoop_eq (f : TiffFile) (wf : f.WellFormed) (junk : Junk) (ws : List Nat)
    (x1 wbi : Nat) (hpos : ∀ b ∈ ws, 1 ≤ b) (hadv : wbi = 0 ∨ ∀ b ∈ ws, 8 ≤ b) :
    ∀ (c row : Nat) (data : List Nat) (g : Nat → Nat → Nat), row + c ≤ f.scanlines.length →
      (countLoop f junk (maskLoop ws (startBits x1) (startBits x1)) x1 wbi c row data
          (gridRow g ws (firstColumn x1))).1 =
        gridRow (fun lo w => g lo w + f.blockBits junk lo w row c) ws (firstColumn x1) := by
  intro c
  induction c with
  | zero =>
    intro row data g _
    simp [countLoop, TiffFile.blockBits]
  | succ k ih =>
    intro row data g hrow
    unfold countLoop
    simp only
    rw [TIFFReadScanline_inside f data row (by omega)]
    have hcol := columnLoop_maskLoop junk (f.scanline row) wbi (scanline_bytes f wf row) ws
      (firstColumn x1) (startBits x1) hpos hadv (by rw [firstColumn_mod])
    rw [firstColumn_mod, firstColumn_div] at hcol
    rw [hcol, blockCounts_eq_gridRow, zipWith_add_gridRow, ih (row + 1) _ _ (by omega)]
    apply gridRow_congr
    intro lo w
    rw [blockBits_front]
    omega


theorem rowLoop_eq (zw : Bool) (f : TiffFile) (wf : f.WellFormed) (junk : Junk) (ws : List Nat)
    (x1 x y incHY incLY : Nat) (hx : x = ws.length) (hpos : ∀ b ∈ ws, 1 ≤ b) :
    ∀ (n i accumY row : Nat) (data : List Nat),
      row + (blockLoop y incHY incLY n accumY).sum ≤ f.scanlines.length →
      (∀ k, i ≤ k → k < i + n →
        wholeBytesAt junk (maskLoop ws (startBits x1) (startBits x1)) k = 0 ∨
          ∀ b ∈ ws, 8 ≤ b) →
      rowLoop zw f junk ws (maskLoop ws (startBits x1) (startBits x1)) x1 x y incHY incLY
          n i accumY row data =
        grid (cellOf zw f junk) ws (firstColumn x1) (blockLoop y incHY incLY n accumY) row := by
  intro n
  induction n with
  | zero => intros; simp [rowLoop, blockLoop, grid]
  | succ k ih =>
    intro i accumY row data hrow hadv
    have hstep : ∀ (blockY : Nat) (data : List Nat), row + blockY ≤ f.scanlines.length →
        List.zipWith (fun c b => grayscale zw c (blockY * b))
          (countLoop f junk (maskLoop ws (startBits x1) (startBits x1)) x1
            (wholeBytesAt junk (maskLoop ws (startBits x1) (startBits x1)) i) blockY row data
            (List.replicate x 0)).1 ws =
        gridRow (fun lo w => cellOf zw f junk lo w row blockY) ws (firstColumn x1) := by
      intro blockY data hb
      rw [hx, replicate_eq_gridRow ws (firstColumn x1),
        countLoop_eq f wf junk ws x1 _ hpos (hadv i (Nat.le_refl _) (by omega)) blockY row data _
          hb,
        zipWith_gray_gridRow (fun c b => grayscale zw c (blockY * b))]
      apply gridRow_congr
      intro lo w
      simp [cellOf]
    unfold rowLoop
    unfold blockLoop at hrow ⊢
    by_cases hc : accumY + incLY ≥ y
    · simp only [if_pos hc] at hrow ⊢
      rw [List.sum_cons] at hrow
      rw [hstep _ _ (by omega), ih _ _ _ _ (by omega) (fun j h1 h2 => hadv j (by omega) (by omega))]
      rfl
    · simp only [if_neg hc] at hrow ⊢
      rw [List.sum_cons] at hrow
      rw [hstep _ _ (by omega), ih _ _ _ _ (by omega) (fun j h1 h2 => hadv j (by omega) (by omega))]
      rfl

theorem blockSizes_eq_blockLoop (span out : Nat) :
    blockSizes span out =
      blockLoop out (if span ≤ out then (1, 0) else (span / out, span - (span / out) * out)).1
        (if span ≤ out then (1, 0) else (span / out, span - (span / out) * out)).2 out 0 := by
  unfold blockSizes
  split <;> rfl

/-- What `getPixels` returns: the grid of the grey values of the blocks, the
column blocks starting at `firstColumn x1`. -/
theorem getPixels_eq_grid (t : Tiff) (f : TiffFile) (junk : Junk) (x1 y1 x2 y2 x y : Nat)
    (ht : t.tiff = some f) (wf : f.WellFormed) (hx : 0 < x) (hy : 0 < y)
    (hrows : y1 + (blockSizes (u32 (usub y2 y1 + 1)) y).sum ≤ f.scanlines.length)
    (hadv : ∀ i < y,
      wholeBytesAt junk (maskLoop (blockSizes (u32 (usub x2 x1 + 1)) x) (startBits x1)
        (startBits x1)) i = 0 ∨ ∀ b ∈ blockSizes (u32 (usub x2 x1 + 1)) x, 8 ≤ b) :
    getPixels t junk x1 y1 x2 y2 x y =
      .ok (some (grid (cellOf t.zeroWhite f junk) (blockSizes (u32 (usub x2 x1 + 1)) x)
        (firstColumn x1) (blockSizes (u32 (usub y2 y1 + 1)) y) y1)) := by
  unfold getPixels
  rw [ht]
  simp only [increments_eq _ _ hx, increments_eq _ _ hy, bind, Except.bind, pure, Except.pure]
  rw [← blockSizes_eq_blockLoop, blockSizes_eq_blockLoop (u32 (usub y2 y1 + 1)) y] at *
  rw [rowLoop_eq t.zeroWhite f wf junk _ x1 x y _ _ (blockSizes_length _ _).symm
    (blockSizes_pos _ _ hx) y 0 0 y1 _ hrows (fun k _ hk => hadv k (by omega))]


/-! ## Cells of the grid -/

theorem gridRow_length (cell : Nat → Nat → Nat) : ∀ (ws : List Nat) (lo : Nat),
    (gridRow cell ws lo).length = ws.length := by
  intro ws
  induction ws with
  | nil => intro lo; simp [gridRow]
  | cons w ws ih => intro lo; simp [gridRow, ih]

theorem gridRow_getElem? (cell : Nat → Nat → Nat) : ∀ (ws : List Nat) (lo j : Nat) (w : Nat),
    ws[j]? = some w → (gridRow cell ws lo)[j]? = some (cell (blockStart ws lo j) w) := by
  intro ws
  induction ws with
  | nil => intro lo j w h; simp at h
  | cons v ws ih =>
    intro lo j w h
    cases j with
    | zero =>
      simp at h
      simp [gridRow, blockStart, h]
    | succ k =>
      simp at h
      simp only [gridRow, List.getElem?_cons_succ]
      rw [ih (lo + v) k w h]
      simp [blockStart, Nat.add_assoc]

theorem grid_length (cell : Nat → Nat → Nat → Nat → Nat) (ws : List Nat) (left : Nat) :
    ∀ (hs : List Nat) (top : Nat), (grid cell ws left hs top).length = hs.length * ws.length := by
  intro hs
  induction hs with
  | nil => intro top; simp [grid]
  | cons h hs ih =>
    intro top
    simp [grid, ih, gridRow_length]
    ring

theorem grid_getElem? (cell : Nat → Nat → Nat → Nat → Nat) (ws : List Nat) (left : Nat) :
    ∀ (hs : List Nat) (top i j w h : Nat), hs[i]? = some h → ws[j]? = some w →
      (grid cell ws left hs top)[j + i * ws.length]? =
        some (cell (blockStart ws left j) w (blockStart hs top i) h) := by
  intro hs
  induction hs with
  | nil => intro top i j w h hh; simp at hh
  | cons g hs ih =>
    intro top i j w h hh hw
    have hj : j < ws.length := (List.getElem?_eq_some_iff.1 hw).1
    cases i with
    | zero =>
      simp at hh
      simp only [grid, Nat.zero_mul, Nat.add_zero]
      rw [List.getElem?_append_left (by rw [gridRow_length]; exact hj),
        gridRow_getElem? _ ws left j w hw]
      simp [blockStart, hh]
    | succ k =>
      simp at hh
      simp only [grid]
      rw [List.getElem?_append_right (by rw [gridRow_length]; nlinarith)]
      rw [gridRow_length]
      have e : j + (k + 1) * ws.length - ws.length = j + k * ws.length := by
        have : (k + 1) * ws.length = k * ws.length + ws.length := by ring
        omega
      rw [e, ih (top + g) k j w h hh hw]
      simp [blockStart, Nat.add_assoc]

/-! ## Blocks of one colour -/

theorem setBits_const (junk : Junk) (data : List Nat) (lo v : Nat) : ∀ n,
    (∀ k < n, pixel junk data (lo + k) = v) → setBits junk data lo n = n * v := by
  intro n
  induction n with
  | zero => intro _; simp [setBits]
  | succ m ih =>
    intro h
    rw [setBits, ih (fun k hk => h k (by omega)), h m (by omega)]
    ring

theorem blockBits_const (f : TiffFile) (junk : Junk) (lo w top v : Nat) : ∀ h,
    (∀ r < h, ∀ k < w, pixel junk (f.scanline (top + r)) (lo + k) = v) →
      f.blockBits junk lo w top h = h * w * v := by
  intro h
  induction h with
  | zero => intro _; simp [TiffFile.blockBits]
  | succ m ih =>
    intro hv
    rw [TiffFile.blockBits, ih (fun r hr => hv r (by omega)),
      setBits_const junk _ lo v w (hv m (by omega))]
    ring

theorem pixel_inside (f : TiffFile) (wf : f.WellFormed) (junk : Junk) (x y : Nat)
    (hx : x < f.imageWidth) (hy : y < f.imageLength) :
    pixel junk (f.scanline y) x = f.bit x y := by
  unfold pixel TiffFile.bit rd
  have hy2 : y < f.scanlines.length := by rw [wf.rows]; exact hy
  have hlen : (f.scanline y).length = TIFFScanlineSize f := by
    unfold TiffFile.scanline
    rw [List.getD_eq_getElem _ _ hy2]
    exact wf.cols _ (List.getElem_mem hy2)
  have hp : x / 8 < (f.scanline y).length := by
    rw [hlen]; unfold TIFFScanlineSize; omega
  rw [List.getD_eq_getElem _ _ hp, List.getD_eq_getElem _ _ hp]

theorem grayscale_white_zero (area : Nat) : grayscale true 0 area = 0 := by
  simp [grayscale, toUChar]

theorem grayscale_white_one (area : Nat) (h : 0 < area) : grayscale false area area = 0 := by
  have : (area : ℚ) ≠ 0 := by exact_mod_cast (Nat.pos_iff_ne_zero.1 h)
  simp [grayscale, toUChar, div_self this]

theorem grayscale_ink_zero (area : Nat) (h : 0 < area) : grayscale true area area = 255 := by
  have : (area : ℚ) ≠ 0 := by exact_mod_cast (Nat.pos_iff_ne_zero.1 h)
  simp [grayscale, toUChar, div_self this]

theorem grayscale_ink_one (area : Nat) : grayscale false 0 area = 255 := by
  simp [grayscale, toUChar]


theorem blockSizes_ge (span out : Nat) (k : Nat) (hout : 0 < out) (h : k * out ≤ span)
    (hk : 1 ≤ k) : ∀ b ∈ blockSizes span out, k ≤ b := by
  intro b hb
  unfold blockSizes at hb
  by_cases hle : span ≤ out
  · rw [if_pos hle] at hb
    have hk1 : k = 1 := by
      by_contra hne
      have : 2 ≤ k := by omega
      nlinarith
    rcases blockLoop_mem _ _ _ _ _ b hb with h1 | h1 <;> omega
  · rw [if_neg hle] at hb
    have : k ≤ span / out := (Nat.le_div_iff_mul_le hout).2 h
    rcases blockLoop_mem _ _ _ _ _ b hb with h1 | h1 <;> omega

/-- The pointer test of line 347 is harmless when the output has no more rows
than columns, or when every block is at least 8 columns wide. -/
theorem advance_ok (junk : Junk) (span x y x1 : Nat) (hx : 0 < x)
    (h : y ≤ x ∨ 8 * x ≤ span) :
    ∀ i < y,
      wholeBytesAt junk (maskLoop (blockSizes span x) (startBits x1) (startBits x1)) i = 0 ∨
        ∀ b ∈ blockSizes span x, 8 ≤ b := by
  intro i hi
  rcases h with h | h
  · exact wholeBytesAt_inside junk span x x1 i (by omega)
  · exact Or.inr (blockSizes_ge span x 8 hx (by omega) (by omega))

/-- What `getPixels` returns for a rectangle inside the image and an output that
is not larger than the rectangle: the grid of the grey values of the blocks. -/
theorem getPixels_inside (t : Tiff) (f : TiffFile) (junk : Junk) (x1 y1 x2 y2 x y : Nat)
    (ht : t.tiff = some f) (wf : f.WellFormed)
    (hxx : x1 ≤ x2) (hx2 : x2 < f.imageWidth) (hyy : y1 ≤ y2) (hy2 : y2 < f.imageLength)
    (hx : 1 ≤ x) (hy : 1 ≤ y) (hym : y ≤ y2 - y1 + 1)
    (hadv : y ≤ x ∨ 8 * x ≤ x2 - x1 + 1) :
    getPixels t junk x1 y1 x2 y2 x y =
      .ok (some (grid (cellOf t.zeroWhite f junk) (blockSizes (x2 - x1 + 1) x)
        (firstColumn x1) (blockSizes (y2 - y1 + 1) y) y1)) := by
  have hw := wf.width
  have hh := wf.height
  have ex : u32 (usub x2 x1 + 1) = x2 - x1 + 1 := span_eq hxx (by omega)
  have ey : u32 (usub y2 y1 + 1) = y2 - y1 + 1 := span_eq hyy (by omega)
  have := getPixels_eq_grid t f junk x1 y1 x2 y2 x y ht wf hx hy
    (by rw [ey, blockSizes_sum _ _ hy hym, wf.rows]; omega)
    (by rw [ex]; exact advance_ok junk _ x y x1 hx hadv)
  rw [this, ex, ey]

theorem blockStart_succ (ws : List Nat) (left j w : Nat) (h : ws[j]? = some w) :
    blockStart ws left (j + 1) = blockStart ws left j + w := by
  unfold blockStart
  have hj : j < ws.length := (List.getElem?_eq_some_iff.1 h).1
  have hw : ws[j] = w := by
    have := List.getElem?_eq_getElem hj
    rw [this] at h
    exact Option.some.inj h
  rw [List.sum_take_succ ws j hj, hw]
  omega

theorem blockStart_le (ws : List Nat) (left j : Nat) :
    blockStart ws left j ≤ left + ws.sum := by
  unfold blockStart
  have : (ws.take j).sum ≤ ws.sum := by
    conv_rhs => rw [← List.take_append_drop j ws]
    rw [List.sum_append]
    omega
  omega


/-- The cell of a block inside the image all of whose pixels have the bit `v`
counts `h * w * v` bits. -/
theorem blockBits_uniform (f : TiffFile) (wf : f.WellFormed) (junk : Junk)
    (ws hs : List Nat) (left top j i w h v : Nat)
    (hw : ws[j]? = some w) (hh : hs[i]? = some h)
    (hin : left + ws.sum ≤ f.imageWidth) (hin2 : top + hs.sum ≤ f.imageLength)
    (hv : ∀ c r, blockStart ws left j ≤ c → c < blockStart ws left (j + 1) →
      blockStart hs top i ≤ r → r < blockStart hs top (i + 1) → f.bit c r = v) :
    f.blockBits junk (blockStart ws left j) w (blockStart hs top i) h = h * w * v := by
  have e1 := blockStart_succ ws left j w hw
  have e2 := blockStart_succ hs top i h hh
  have l1 := blockStart_le ws left (j + 1)
  have l2 := blockStart_le hs top (i + 1)
  apply blockBits_const
  intro r hr k hk
  rw [pixel_inside f wf junk _ _ (by omega) (by omega)]
  exact hv _ _ (by omega) (by omega) (by omega) (by omega)

theorem white_cell (t : Tiff) (f : TiffFile) (junk : Junk) (x1 y1 x2 y2 x y i j : Nat)
    (ht : t.tiff = some f) (wf : f.WellFormed)
    (halign : x1 % 8 = 0 ∨ x1 % 8 = 4)
    (hxx : x1 ≤ x2) (hx2 : x2 < f.imageWidth) (hyy : y1 ≤ y2) (hy2 : y2 < f.imageLength)
    (hx : 1 ≤ x) (hxn : x ≤ x2 - x1 + 1) (hy : 1 ≤ y) (hym : y ≤ y2 - y1 + 1)
    (hadv : y ≤ x ∨ 8 * x ≤ x2 - x1 + 1) (hi : i < y) (hj : j < x)
    (hwhite : ∀ c r,
      blockStart (blockSizes (x2 - x1 + 1) x) x1 j ≤ c →
      c < blockStart (blockSizes (x2 - x1 + 1) x) x1 (j + 1) →
      blockStart (blockSizes (y2 - y1 + 1) y) y1 i ≤ r →
      r < blockStart (blockSizes (y2 - y1 + 1) y) y1 (i + 1) →
      f.bit c r = if t.zeroWhite then 0 else 1) :
    ∃ cells, getPixels t junk x1 y1 x2 y2 x y = .ok (some cells) ∧
      cells[j + i * x]? = some 0 := by
  refine ⟨_, getPixels_inside t f junk x1 y1 x2 y2 x y ht wf hxx hx2 hyy hy2 hx hy hym hadv, ?_⟩
  rw [firstColumn_of_aligned x1 halign]
  have hjl : j < (blockSizes (x2 - x1 + 1) x).length := by rw [blockSizes_length]; exact hj
  have hil : i < (blockSizes (y2 - y1 + 1) y).length := by rw [blockSizes_length]; exact hi
  have hw := List.getElem?_eq_getElem hjl
  have hh := List.getElem?_eq_getElem hil
  have hg := grid_getElem? (cellOf t.zeroWhite f junk) (blockSizes (x2 - x1 + 1) x) x1
    (blockSizes (y2 - y1 + 1) y) y1 i j _ _ hh hw
  rw [blockSizes_length] at hg
  rw [hg]
  have hwpos := blockSizes_pos (x2 - x1 + 1) x hx _ (List.getElem_mem hjl)
  have hhpos := blockSizes_pos (y2 - y1 + 1) y hy _ (List.getElem_mem hil)
  have hb := blockBits_uniform f wf junk (blockSizes (x2 - x1 + 1) x) (blockSizes (y2 - y1 + 1) y)
    x1 y1 j i _ _ (if t.zeroWhite then 0 else 1) hw hh
    (by rw [blockSizes_sum _ _ hx hxn]; omega) (by rw [blockSizes_sum _ _ hy hym]; omega) hwhite
  congr 1
  unfold cellOf
  rw [hb]
  cases hz : t.zeroWhite
  · simp only [Bool.false_eq_true, if_false, Nat.mul_one]
    exact grayscale_white_one _ (Nat.mul_pos hhpos hwpos)
  · simp only [if_true, Nat.mul_zero]
    exact grayscale_white_zero _


/-! ## The size of the scaled image -/

theorem columnLoop_length (junk : Junk) (data : List Nat) (wbi : Nat) :
    ∀ (ms : List Mask) (p : Nat), (columnLoop junk data wbi ms p).length = ms.length := by
  intro ms
  induction ms with
  | nil => intro p; simp [columnLoop]
  | cons m ms ih => intro p; simp [columnLoop, ih]

theorem countLoop_length (f : TiffFile) (junk : Junk) (masks : List Mask) (x1 wbi : Nat) :
    ∀ (c row : Nat) (data numberOfOnes : List Nat), numberOfOnes.length = masks.length →
      (countLoop f junk masks x1 wbi c row data numberOfOnes).1.length = masks.length := by
  intro c
  induction c with
  | zero => intro row data n h; simpa [countLoop] using h
  | succ k ih =>
    intro row data n h
    unfold countLoop
    apply ih
    simp [columnLoop_length, h]

theorem rowLoop_length (zw : Bool) (f : TiffFile) (junk : Junk) (blockX : List Nat)
    (masks : List Mask) (x1 x y incHY incLY : Nat) (hm : masks.length = x)
    (hb : blockX.length = x) :
    ∀ (n i accumY row : Nat) (data : List Nat),
      (rowLoop zw f junk blockX masks x1 x y incHY incLY n i accumY row data).length = n * x := by
  intro n
  induction n with
  | zero => intros; simp [rowLoop]
  | succ k ih =>
    intro i accumY row data
    unfold rowLoop
    simp only [List.length_append, List.length_zipWith, ih]
    rw [countLoop_length f junk masks x1 _ _ _ _ _ (by simp [hm]), hm, hb]
    simp
    ring

theorem getPixels_length (t : Tiff) (junk : Junk) (x1 y1 x2 y2 x y : Nat) (image : List Nat)
    (h : getPixels t junk x1 y1 x2 y2 x y = .ok (some image)) : image.length = x * y := by
  unfold getPixels at h
  cases ht : t.tiff with
  | none => rw [ht] at h; simp at h
  | some f =>
    rw [ht] at h
    simp only [bind, Except.bind, pure, Except.pure] at h
    cases hx : increments (u32 (usub x2 x1 + 1)) x with
    | error e => rw [hx] at h; simp at h
    | ok incX =>
      rw [hx] at h
      simp only at h
      cases hy : increments (u32 (usub y2 y1 + 1)) y with
      | error e => rw [hy] at h; simp at h
      | ok incY =>
        rw [hy] at h
        simp only [Except.ok.injEq, Option.some.injEq] at h
        rw [← h, rowLoop_length _ _ _ _ _ _ _ _ _ _ (by rw [maskLoop_length, blockLoop_length])
          (blockLoop_length _ _ _ _ _)]
        ring


/-! ## The blend of one plate -/

theorem mix_eq_roundedBlend (v k s : Nat) : mix v k s = roundedBlend v k s := rfl

theorem offset_decomp (maxX row col ch : Nat) (hcol : col < maxX) (hch : ch < 3) :
    ((3 * (maxX * row + col) + ch) / 3) % maxX = col ∧
      ((3 * (maxX * row + col) + ch) / 3) / maxX = row ∧
      (3 * (maxX * row + col) + ch) % 3 = ch := by
  have h3 : (3 * (maxX * row + col) + ch) / 3 = maxX * row + col := by omega
  have hpos : 0 < maxX := by omega
  refine ⟨?_, ?_, by omega⟩
  · rw [h3, Nat.mul_add_mod, Nat.mod_eq_of_lt hcol]
  · rw [h3, Nat.mul_add_div hpos, Nat.div_eq_of_lt hcol, Nat.add_zero]

theorem divmod_unique (x j r c : Nat) (hc : c < x) (h : r * x + c = j) :
    j / x = r ∧ j % x = c := by
  have hpos : 0 < x := by omega
  subst h
  constructor
  · rw [Nat.mul_comm, Nat.mul_add_div hpos, Nat.div_eq_of_lt hc, Nat.add_zero]
  · rw [Nat.mul_comm, Nat.mul_add_mod, Nat.mod_eq_of_lt hc]

theorem mixAt_ok (canvas : List Nat) (p k s : Nat) (h : p < canvas.length) :
    mixAt canvas p k s = .ok (canvas.set p (mix (canvas.getD p 0) k s)) := by
  unfold mixAt
  rw [dif_pos h, List.getD_eq_getElem _ _ h]

theorem blendUpTo_length (junk : Junk) (maxX : Nat) (color : Rgba) (image : List Nat) (x lim : Nat)
    (canvas : List Nat) : (blendUpTo junk maxX color image x lim canvas).length = canvas.length := by
  simp [blendUpTo]

theorem blendUpTo_getD_later (junk : Junk) (maxX : Nat) (color : Rgba) (image : List Nat) (x lim : Nat)
    (canvas : List Nat) (o : Nat)
    (h : ¬ ((o / 3) % maxX < x ∧ (o / 3) / maxX * x + (o / 3) % maxX < lim)) :
    (blendUpTo junk maxX color image x lim canvas).getD o 0 = canvas.getD o 0 := by
  simp only [blendUpTo, List.getD_eq_getElem?_getD, List.getElem?_mapIdx]
  cases canvas[o]? with
  | none => rfl
  | some v => simp [h]

theorem blendUpTo_zero (junk : Junk) (maxX : Nat) (color : Rgba) (image : List Nat) (x : Nat)
    (canvas : List Nat) : blendUpTo junk maxX color image x 0 canvas = canvas := by
  apply List.ext_getElem?
  intro o
  simp only [blendUpTo, List.getElem?_mapIdx]
  cases canvas[o]? with
  | none => rfl
  | some v => simp

theorem blendUpTo_all (junk : Junk) (maxX : Nat) (color : Rgba) (image : List Nat) (x y : Nat)
    (canvas : List Nat) (himg : image.length = x * y) :
    blendUpTo junk maxX color image x (x * y) canvas =
      blendPlate maxX color image x y canvas := by
  apply List.ext_getElem?
  intro o
  simp only [blendUpTo, blendPlate, List.getElem?_mapIdx]
  have hiff : ((o / 3) % maxX < x ∧ (o / 3) / maxX * x + (o / 3) % maxX < x * y) ↔
      ((o / 3) % maxX < x ∧ (o / 3) / maxX < y) := by
    constructor
    · rintro ⟨h1, h2⟩
      refine ⟨h1, ?_⟩
      by_contra hc
      have : y ≤ (o / 3) / maxX := by omega
      have : y * x ≤ (o / 3) / maxX * x := Nat.mul_le_mul_right x this
      have e : x * y = y * x := Nat.mul_comm x y
      omega
    · rintro ⟨h1, h2⟩
      refine ⟨h1, ?_⟩
      have : ((o / 3) / maxX + 1) * x ≤ y * x := Nat.mul_le_mul_right x (by omega)
      have e : x * y = y * x := Nat.mul_comm x y
      have e2 : ((o / 3) / maxX + 1) * x = (o / 3) / maxX * x + x := by ring
      omega
  cases canvas[o]? with
  | none => simp
  | some v =>
    simp only [Option.map_some', Option.some.injEq]
    by_cases hc : (o / 3) % maxX < x ∧ (o / 3) / maxX * x + (o / 3) % maxX < x * y
    · rw [if_pos hc, if_pos (hiff.1 hc)]
      have hlt : (o / 3) / maxX * x + (o / 3) % maxX < image.length := by rw [himg]; exact hc.2
      unfold rd
      rw [List.getD_eq_getElem _ _ hlt, List.getD_eq_getElem _ _ hlt, mix_eq_roundedBlend]
    · rw [if_neg hc, if_neg (fun h => hc (hiff.2 h))]


/-- One round of the loop over `j`: the three bytes of the canvas pixel of cell
`j` are blended. -/
theorem blendUpTo_step (junk : Junk) (maxX maxY x y j : Nat) (color : Rgba) (image canvas : List Nat)
    (hx : 0 < x) (hxm : x ≤ maxX) (hym : y ≤ maxY) (hj : j < x * y)
    (hlen : canvas.length = maxX * maxY * 3) :
    3 * (maxX * (j / x) + j % x) + 2 < canvas.length ∧
    (((blendUpTo junk maxX color image x j canvas).set (3 * (maxX * (j / x) + j % x))
        (mix ((blendUpTo junk maxX color image x j canvas).getD
          (3 * (maxX * (j / x) + j % x)) 0) (color.get 0) (rd junk image j))).set
        (3 * (maxX * (j / x) + j % x) + 1)
        (mix (((blendUpTo junk maxX color image x j canvas).set (3 * (maxX * (j / x) + j % x))
          (mix ((blendUpTo junk maxX color image x j canvas).getD
            (3 * (maxX * (j / x) + j % x)) 0) (color.get 0) (rd junk image j))).getD
          (3 * (maxX * (j / x) + j % x) + 1) 0) (color.get 1) (rd junk image j))).set
        (3 * (maxX * (j / x) + j % x) + 2)
        (mix ((((blendUpTo junk maxX color image x j canvas).set (3 * (maxX * (j / x) + j % x))
          (mix ((blendUpTo junk maxX color image x j canvas).getD
            (3 * (maxX * (j / x) + j % x)) 0) (color.get 0) (rd junk image j))).set
          (3 * (maxX * (j / x) + j % x) + 1)
          (mix (((blendUpTo junk maxX color image x j canvas).set (3 * (maxX * (j / x) + j % x))
            (mix ((blendUpTo junk maxX color image x j canvas).getD
              (3 * (maxX * (j / x) + j % x)) 0) (color.get 0) (rd junk image j))).getD
            (3 * (maxX * (j / x) + j % x) + 1) 0) (color.get 1) (rd junk image j))).getD
          (3 * (maxX * (j / x) + j % x) + 2) 0) (color.get 2) (rd junk image j)) =
      blendUpTo junk maxX color image x (j + 1) canvas := by
  have hcol : j % x < x := Nat.mod_lt _ hx
  have hrow : j / x < y := (Nat.div_lt_iff_lt_mul hx).2 (by rw [Nat.mul_comm]; exact hj)
  have hj2 : j / x * x + j % x = j := by
    have := Nat.div_add_mod j x
    rw [Nat.mul_comm] at this
    exact this
  have hcm : j % x < maxX := by omega
  -- the pixel lies in the canvas
  have hin : maxX * (j / x) + j % x < maxX * maxY := by
    have h1 : maxX * (j / x + 1) ≤ maxX * maxY := Nat.mul_le_mul_left maxX (by omega)
    have h2 : maxX * (j / x + 1) = maxX * (j / x) + maxX := by ring
    omega
  have hq : 3 * (maxX * (j / x) + j % x) + 2 < canvas.length := by
    rw [hlen]; omega
  refine ⟨hq, ?_⟩
  generalize hQ : 3 * (maxX * (j / x) + j % x) = q at hq ⊢
  have d0 := offset_decomp maxX (j / x) (j % x) 0 hcm (by omega)
  have d1 := offset_decomp maxX (j / x) (j % x) 1 hcm (by omega)
  have d2 := offset_decomp maxX (j / x) (j % x) 2 hcm (by omega)
  rw [hQ] at d0 d1 d2
  -- the three bytes have not been blended before
  have hnot : ∀ ch < 3, ¬ (((q + ch) / 3) % maxX < x ∧
      ((q + ch) / 3) / maxX * x + ((q + ch) / 3) % maxX < j) := by
    intro ch hch
    have d := offset_decomp maxX (j / x) (j % x) ch hcm hch
    rw [hQ] at d
    rw [d.1, d.2.1, hj2]
    omega
  have g0 := blendUpTo_getD_later junk maxX color image x j canvas q (by simpa using hnot 0 (by omega))
  have g1 := blendUpTo_getD_later junk maxX color image x j canvas (q + 1) (hnot 1 (by omega))
  have g2 := blendUpTo_getD_later junk maxX color image x j canvas (q + 2) (hnot 2 (by omega))
  have s1 : ∀ (l : List Nat) (a : Nat), (l.set q a).getD (q + 1) 0 = l.getD (q + 1) 0 := by
    intro l a
    simp only [List.getD_eq_getElem?_getD]
    rw [List.getElem?_set_ne (by omega)]
  have s2 : ∀ (l : List Nat) (a b : Nat),
      ((l.set q a).set (q + 1) b).getD (q + 2) 0 = l.getD (q + 2) 0 := by
    intro l a b
    simp only [List.getD_eq_getElem?_getD]
    rw [List.getElem?_set_ne (by omega), List.getElem?_set_ne (by omega)]
  rw [s2, s1, g0, g1, g2]
  apply List.ext_getElem?
  intro o
  have hlenB : (blendUpTo junk maxX color image x j canvas).length = canvas.length :=
    blendUpTo_length _ _ _ _ _ _ _
  rw [List.getElem?_set, List.getElem?_set, List.getElem?_set]
  simp only [List.length_set, hlenB]
  have hval : ∀ ch < 3, (blendUpTo junk maxX color image x (j + 1) canvas)[q + ch]? =
      some (mix (canvas.getD (q + ch) 0) (color.get ch) (rd junk image j)) := by
    intro ch hch
    have d := offset_decomp maxX (j / x) (j % x) ch hcm hch
    rw [hQ] at d
    have hlt : q + ch < canvas.length := by omega
    simp only [blendUpTo, List.getElem?_mapIdx, List.getElem?_eq_getElem hlt, Option.map_some',
      List.getD_eq_getElem _ _ hlt, d.1, d.2.1, d.2.2, hj2]
    rw [if_pos ⟨hcol, by omega⟩]
  by_cases h2 : q + 2 = o
  · rw [if_pos h2, if_pos (by omega), ← h2, hval 2 (by omega)]
  · rw [if_neg h2]
    by_cases h1 : q + 1 = o
    · rw [if_pos h1, if_pos (by omega), ← h1, hval 1 (by omega)]
    · rw [if_neg h1]
      by_cases h0 : q = o
      · rw [if_pos h0, if_pos (by omega), ← h0]
        have := hval 0 (by omega)
        simpa using this.symm
      · rw [if_neg h0]
        simp only [blendUpTo, List.getElem?_mapIdx]
        cases canvas[o]? with
        | none => rfl
        | some v =>
          simp only [Option.map_some']
          congr 1
          have hiff : (((o / 3) % maxX < x ∧ (o / 3) / maxX * x + (o / 3) % maxX < j) ↔
              ((o / 3) % maxX < x ∧ (o / 3) / maxX * x + (o / 3) % maxX < j + 1)) := by
            constructor
            · rintro ⟨a, b⟩; exact ⟨a, by omega⟩
            · rintro ⟨a, b⟩
              refine ⟨a, ?_⟩
              by_contra hc
              have heq : (o / 3) / maxX * x + (o / 3) % maxX = j := by omega
              obtain ⟨e1, e2⟩ := divmod_unique x j _ _ a heq
              have hpos : 0 < maxX := by omega
              have e3 := Nat.div_add_mod (o / 3) maxX
              rw [e1, e2] at hQ
              omega
          simp only [hiff]


theorem u32_of_lt {n : Nat} (h : n < 4294967296) : u32 n = n := by
  unfold u32
  omega

/-- The loop over `j` of lines 105-114 blends the cells one after the other. -/
theorem blendPixels_eq (junk : Junk) (maxX maxY x y : Nat) (color : Rgba) (image canvas : List Nat)
    (hx : 0 < x) (hxm : x ≤ maxX) (hym : y ≤ maxY)
    (hsize : maxX * maxY * 3 < 4294967296) (hlen : canvas.length = maxX * maxY * 3) :
    ∀ (n j ptr : Nat), j + n ≤ x * y →
      (j % x ≠ 0 → ptr = 3 * (maxX * (j / x) + j % x)) →
      blendPixels junk color image x maxX n j ptr (blendUpTo junk maxX color image x j canvas) =
        .ok (blendUpTo junk maxX color image x (j + n) canvas) := by
  intro n
  induction n with
  | zero => intro j ptr _ _; simp [blendPixels]
  | succ k ih =>
    intro j ptr hjn hptr
    obtain ⟨hq, hstep⟩ := blendUpTo_step junk maxX maxY x y j color image canvas hx hxm hym
      (by omega) hlen
    have hj2 : j / x * x + j % x = j := by
      have := Nat.div_add_mod j x
      rw [Nat.mul_comm] at this
      exact this
    have hp : (if j % x = 0 then u32 (maxX * (j / x) * 3) else ptr) =
        3 * (maxX * (j / x) + j % x) := by
      by_cases h0 : j % x = 0
      · rw [if_pos h0, h0, u32_of_lt (by rw [h0] at hq; omega)]
        ring
      · rw [if_neg h0, hptr h0]
    have hlenB : (blendUpTo junk maxX color image x j canvas).length = canvas.length :=
      blendUpTo_length _ _ _ _ _ _ _
    unfold blendPixels
    simp only [hp, bind, Except.bind]
    rw [mixAt_ok _ _ _ _ (by rw [hlenB]; omega)]
    simp only []
    rw [mixAt_ok _ _ _ _ (by rw [List.length_set, hlenB]; omega)]
    simp only []
    rw [mixAt_ok _ _ _ _ (by rw [List.length_set, List.length_set, hlenB]; omega)]
    simp only []
    rw [hstep]
    have e : j + (k + 1) = j + 1 + k := by omega
    rw [e]
    apply ih (j + 1) _ (by omega)
    intro hne
    have hcol : j % x < x := Nat.mod_lt _ hx
    by_cases hlast : j % x + 1 < x
    · obtain ⟨e1, e2⟩ := divmod_unique x (j + 1) (j / x) (j % x + 1) hlast (by omega)
      rw [e1, e2]
      ring
    · exfalso
      have hx1 : j % x + 1 = x := by omega
      obtain ⟨_, e2⟩ := divmod_unique x (j + 1) (j / x + 1) 0 hx (by
        have : (j / x + 1) * x = j / x * x + x := by ring
        omega)
      exact hne e2

/-- The whole loop over `j` for one plate is the blend of the spec. -/
theorem blendPixels_plate (junk : Junk) (maxX maxY x y : Nat) (color : Rgba) (image canvas : List Nat)
    (hx : 0 < x) (hxm : x ≤ maxX) (hym : y ≤ maxY)
    (hsize : maxX * maxY * 3 < 4294967296) (hlen : canvas.length = maxX * maxY * 3)
    (himg : image.length = x * y) :
    blendPixels junk color image x maxX (x * y) 0 0 canvas =
      .ok (blendPlate maxX color image x y canvas) := by
  have := blendPixels_eq junk maxX maxY x y color image canvas hx hxm hym hsize hlen (x * y) 0 0
    (by omega) (by simp)
  rw [blendUpTo_zero, Nat.zero_add, blendUpTo_all _ _ _ _ _ _ _ himg] at this
  exact this

theorem blendPlate_length (maxX : Nat) (color : Rgba) (image : List Nat) (x y : Nat)
    (canvas : List Nat) : (blendPlate maxX color image x y canvas).length = canvas.length := by
  simp [blendPlate]


/-! ## Sizes -/

theorem scaled_eq (dpi n : Nat) (res : ℚ) (hres : 0 < res) (hn : dpi * n < 4294967296)
    (hq : scaledTo dpi n res < 4294967296) : scaled dpi n res = .ok (scaledTo dpi n res) := by
  unfold scaled scaledTo at *
  rw [if_neg (ne_of_gt hres), u32_of_lt hn]
  unfold toUInt
  generalize hv : f32 (f32 ((dpi * n : Nat) : ℚ) / res) = v at *
  have h0 : (0 : ℚ) ≤ v := by
    rw [← hv]
    exact f32_nonneg _ (div_nonneg (f32_nonneg _ (Nat.cast_nonneg _)) (le_of_lt hres))
  have hf : (0 : ℤ) ≤ ⌊v⌋ := Int.floor_nonneg.2 h0
  have hlt : v < 4294967296 := by
    have h1 := Int.lt_floor_add_one v
    have h2 : ⌊v⌋ + 1 ≤ 4294967296 := by omega
    have h3 : ((⌊v⌋ : ℤ) : ℚ) + 1 ≤ 4294967296 := by
      exact_mod_cast h2
    linarith
  rw [if_pos ⟨by linarith, hlt⟩]

theorem scaledTo_mono (dpi n k : Nat) (res : ℚ) (hres : 0 < res) (h : n ≤ k) :
    scaledTo dpi n res ≤ scaledTo dpi k res := by
  unfold scaledTo
  apply Int.toNat_le_toNat
  apply Int.floor_mono
  have h1 : (((dpi * n : Nat) : ℚ)) ≤ ((dpi * k : Nat) : ℚ) := by
    exact_mod_cast Nat.mul_le_mul_left dpi h
  have h2 : f32 ((dpi * n : Nat) : ℚ) ≤ f32 ((dpi * k : Nat) : ℚ) :=
    f32_mono (Nat.cast_nonneg _) h1
  exact f32_mono (div_nonneg (f32_nonneg _ (Nat.cast_nonneg _)) (le_of_lt hres))
    (div_le_div_of_nonneg_right h2 (le_of_lt hres))

theorem foldl_max_ge (g : TiffInfo → Nat) : ∀ (ps : List TiffInfo) (a : Nat),
    a ≤ ps.foldl (fun w p => if g p > w then g p else w) a ∧
      ∀ p ∈ ps, g p ≤ ps.foldl (fun w p => if g p > w then g p else w) a := by
  intro ps
  induction ps with
  | nil => intro a; simp
  | cons q qs ih =>
    intro a
    simp only [List.foldl_cons]
    obtain ⟨h1, h2⟩ := ih (if g q > a then g q else a)
    by_cases hgt : g q > a
    · rw [if_pos hgt] at h1 h2 ⊢
      refine ⟨by omega, ?_⟩
      intro p hp
      rcases List.mem_cons.1 hp with h | h
      · subst h; exact h1
      · exact h2 p h
    · rw [if_neg hgt] at h1 h2 ⊢
      refine ⟨h1, ?_⟩
      intro p hp
      rcases List.mem_cons.1 hp with h | h
      · subst h; omega
      · exact h2 p h

theorem le_getMaxWidth (m : TiffManager) (p : TiffInfo) (hp : p ∈ m.tiffs) :
    p.tiff.x ≤ m.getMaxWidth :=
  (foldl_max_ge (fun p => p.tiff.x) m.tiffs 0).2 p hp

theorem le_getMaxHeight (m : TiffManager) (p : TiffInfo) (hp : p ∈ m.tiffs) :
    p.tiff.y ≤ m.getMaxHeight :=
  (foldl_max_ge (fun p => p.tiff.y) m.tiffs 0).2 p hp

/-! ## `scale` on an open file -/

theorem getPixels_ok (t : Tiff) (f : TiffFile) (junk : Junk) (x1 y1 x2 y2 x y : Nat)
    (ht : t.tiff = some f) (hx : 1 ≤ x) (hy : 1 ≤ y) :
    ∃ image, getPixels t junk x1 y1 x2 y2 x y = .ok (some image) := by
  unfold getPixels
  rw [ht]
  simp only [increments_eq _ _ hx, increments_eq _ _ hy, bind, Except.bind, pure, Except.pure]
  exact ⟨_, rfl⟩

theorem scale_eq_scaledImage (junk : Junk) (p : TiffInfo) (x y : Nat)
    (ht : p.tiff.tiff ≠ none) (hx : 1 ≤ x) (hy : 1 ≤ y) :
    p.tiff.scale junk x y = .ok (some (scaledImage junk p x y)) := by
  obtain ⟨f, hf⟩ := Option.ne_none_iff_exists'.1 ht
  obtain ⟨image, hi⟩ := getPixels_ok p.tiff f junk 0 0 (usub p.tiff.x 1) (usub p.tiff.y 1) x y
    hf hx hy
  unfold scaledImage scale
  rw [hi]

theorem scaledImage_length (junk : Junk) (p : TiffInfo) (x y : Nat)
    (ht : p.tiff.tiff ≠ none) (hx : 1 ≤ x) (hy : 1 ≤ y) :
    (scaledImage junk p x y).length = x * y :=
  getPixels_length p.tiff junk 0 0 (usub p.tiff.x 1) (usub p.tiff.y 1) x y _
    (scale_eq_scaledImage junk p x y ht hx hy)


/-! ## The loops of `composite` -/

theorem plateSize_eq (dpi : Nat) (xRes yRes : ℚ) (maxW maxH : Nat) (p : TiffInfo)
    (hxr : 0 < xRes) (hyr : 0 < yRes)
    (hW : dpi * maxW < 4294967296) (hH : dpi * maxH < 4294967296)
    (hmx : scaledTo dpi maxW xRes < 4294967296) (hmy : scaledTo dpi maxH yRes < 4294967296)
    (hpw : p.tiff.x ≤ maxW) (hph : p.tiff.y ≤ maxH) :
    plateSize dpi xRes yRes p =
      .ok (scaledTo dpi p.tiff.x xRes, scaledTo dpi p.tiff.y yRes) := by
  have h1 := scaledTo_mono dpi _ _ xRes hxr hpw
  have h2 := scaledTo_mono dpi _ _ yRes hyr hph
  have h3 : dpi * p.tiff.x ≤ dpi * maxW := Nat.mul_le_mul_left dpi hpw
  have h4 : dpi * p.tiff.y ≤ dpi * maxH := Nat.mul_le_mul_left dpi hph
  unfold plateSize
  rw [scaled_eq dpi _ xRes hxr (by omega) (by omega), scaled_eq dpi _ yRes hyr (by omega) (by omega)]
  rfl

theorem scaleLoop_eq (junk : Junk) (dpi : Nat) (xRes yRes : ℚ) (maxW maxH : Nat)
    (hxr : 0 < xRes) (hyr : 0 < yRes)
    (hW : dpi * maxW < 4294967296) (hH : dpi * maxH < 4294967296)
    (hmx : scaledTo dpi maxW xRes < 4294967296) (hmy : scaledTo dpi maxH yRes < 4294967296) :
    ∀ ps : List TiffInfo,
      (∀ p ∈ ps, p.tiff.x ≤ maxW ∧ p.tiff.y ≤ maxH ∧ (p.active = true →
        p.tiff.tiff ≠ none ∧ 1 ≤ scaledTo dpi p.tiff.x xRes ∧ 1 ≤ scaledTo dpi p.tiff.y yRes)) →
      scaleLoop junk dpi xRes yRes ps =
        .ok (some (ps.map fun p =>
          if p.active then
            scaledImage junk p (scaledTo dpi p.tiff.x xRes) (scaledTo dpi p.tiff.y yRes)
          else [])) := by
  intro ps
  induction ps with
  | nil => intro _; rfl
  | cons p ps ih =>
    intro h
    have hp := h p (List.mem_cons_self _ _)
    have hps := ih (fun q hq => h q (List.mem_cons_of_mem _ hq))
    unfold scaleLoop
    by_cases ha : p.active = true
    · obtain ⟨ht, hx, hy⟩ := hp.2.2 ha
      rw [if_pos ha, plateSize_eq dpi xRes yRes maxW maxH p hxr hyr hW hH hmx hmy hp.1 hp.2.1]
      simp only [bind, Except.bind, scale_eq_scaledImage junk p _ _ ht hx hy, hps, pure,
        Except.pure, List.map_cons, if_pos ha]
    · rw [if_neg ha]
      simp only [bind, Except.bind, hps, pure, Except.pure, List.map_cons, if_neg ha]

theorem blendLoop_eq (junk : Junk) (dpi : Nat) (xRes yRes : ℚ) (maxW maxH : Nat)
    (hxr : 0 < xRes) (hyr : 0 < yRes)
    (hW : dpi * maxW < 4294967296) (hH : dpi * maxH < 4294967296)
    (hmx : scaledTo dpi maxW xRes < 4294967296) (hmy : scaledTo dpi maxH yRes < 4294967296)
    (hsize : scaledTo dpi maxW xRes * scaledTo dpi maxH yRes * 3 < 4294967296) :
    ∀ (ps : List TiffInfo) (canvas : List Nat),
      (∀ p ∈ ps, p.tiff.x ≤ maxW ∧ p.tiff.y ≤ maxH ∧ (p.active = true →
        p.tiff.tiff ≠ none ∧ 1 ≤ scaledTo dpi p.tiff.x xRes ∧ 1 ≤ scaledTo dpi p.tiff.y yRes)) →
      canvas.length = scaledTo dpi maxW xRes * scaledTo dpi maxH yRes * 3 →
      blendLoop junk dpi xRes yRes (scaledTo dpi maxW xRes) ps
          (ps.map fun p =>
            if p.active then
              scaledImage junk p (scaledTo dpi p.tiff.x xRes) (scaledTo dpi p.tiff.y yRes)
            else []) canvas =
        .ok (ps.foldl
          (fun canvas p =>
            if p.active then
              blendPlate (scaledTo dpi maxW xRes) p.color
                (scaledImage junk p (scaledTo dpi p.tiff.x xRes) (scaledTo dpi p.tiff.y yRes))
                (scaledTo dpi p.tiff.x xRes) (scaledTo dpi p.tiff.y yRes) canvas
            else canvas) canvas) := by
  intro ps
  induction ps with
  | nil => intro canvas _ _; rfl
  | cons p ps ih =>
    intro canvas h hlen
    have hp := h p (List.mem_cons_self _ _)
    have hrest : ∀ q ∈ ps, q.tiff.x ≤ maxW ∧ q.tiff.y ≤ maxH ∧ (q.active = true →
        q.tiff.tiff ≠ none ∧ 1 ≤ scaledTo dpi q.tiff.x xRes ∧ 1 ≤ scaledTo dpi q.tiff.y yRes) :=
      fun q hq => h q (List.mem_cons_of_mem _ hq)
    simp only [List.map_cons, List.foldl_cons]
    unfold blendLoop
    by_cases ha : p.active = true
    · obtain ⟨ht, hx, hy⟩ := hp.2.2 ha
      have hxm := scaledTo_mono dpi _ _ xRes hxr hp.1
      have hym := scaledTo_mono dpi _ _ yRes hyr hp.2.1
      have hxy : scaledTo dpi p.tiff.x xRes * scaledTo dpi p.tiff.y yRes ≤
          scaledTo dpi maxW xRes * scaledTo dpi maxH yRes := Nat.mul_le_mul hxm hym
      simp only [if_pos ha]
      rw [plateSize_eq dpi xRes yRes maxW maxH p hxr hyr hW hH hmx hmy hp.1 hp.2.1]
      simp only [bind, Except.bind]
      rw [u32_of_lt (by omega),
        blendPixels_plate junk _ (scaledTo dpi maxH yRes) _ _ _ _ canvas hx hxm hym hsize hlen
          (scaledImage_length junk p _ _ ht hx hy)]
      simp only []
      exact ih _ hrest (by rw [blendPlate_length]; exact hlen)
    · simp only [if_neg ha]
      exact ih _ hrest hlen

/-- The loop of lines 120-122 ends when every plate that is not active finds the
null pointer in its cell of `images`. -/
theorem deleteLoop_ok (junk : Junk) : ∀ (ps : List TiffInfo) (i0 : Nat),
    (∀ i p, ps[i]? = some p → p.active = false → junk.nullAt (i0 + i) = true) →
    deleteLoop junk ps i0 = .ok () := by
  intro ps
  induction ps with
  | nil => intro _ _; rfl
  | cons p ps ih =>
    intro i0 h
    have hrest : deleteLoop junk ps (i0 + 1) = .ok () :=
      ih (i0 + 1) (fun i q hi hq => by
        have := h (i + 1) q (by simpa using hi) hq
        rw [show i0 + 1 + i = i0 + (i + 1) by omega]
        exact this)
    unfold deleteLoop
    by_cases ha : p.active = true
    · rw [if_pos ha]
      exact hrest
    · rw [if_neg ha]
      have hn := h 0 p (by simp) (by simpa using ha)
      rw [Nat.add_zero] at hn
      rw [if_pos hn]
      exact hrest

/-- The loop of lines 120-122 stops at the first plate that is not active and
does not find the null pointer in its cell. -/
theorem deleteLoop_fault (junk : Junk) : ∀ (ps : List TiffInfo) (i0 i : Nat) (p : TiffInfo),
    ps[i]? = some p → p.active = false → junk.nullAt (i0 + i) = false →
    (∀ j q, j < i → ps[j]? = some q → q.active = false → junk.nullAt (i0 + j) = true) →
    deleteLoop junk ps i0 = .error .invalidFree := by
  intro ps
  induction ps with
  | nil => intro i0 i p hi; simp at hi
  | cons a ps ih =>
    intro i0 i p hi hp hn hbefore
    unfold deleteLoop
    cases i with
    | zero =>
      simp only [List.getElem?_cons_zero, Option.some.injEq] at hi
      subst hi
      rw [Nat.add_zero] at hn
      simp [hp, hn]
    | succ i =>
      simp only [List.getElem?_cons_succ] at hi
      have hrest : deleteLoop junk ps (i0 + 1) = .error .invalidFree :=
        ih (i0 + 1) i p hi hp (by rw [show i0 + 1 + i = i0 + (i + 1) by omega]; exact hn)
          (fun j q hj hq hqa => by
            have := hbefore (j + 1) q (by omega) (by simpa using hq) hqa
            rw [show i0 + 1 + j = i0 + (j + 1) by omega]
            exact this)
      by_cases ha : a.active = true
      · rw [if_pos ha]
        exact hrest
      · rw [if_neg ha]
        have h0 := hbefore 0 a (by omega) (by simp) (by simpa using ha)
        rw [Nat.add_zero] at h0
        rw [if_pos h0]
        exact hrest

/-- The loop of lines 120-122 looks at the flags `active` only. -/
theorem deleteLoop_congr (junk : Junk) : ∀ (ps qs : List TiffInfo) (i0 : Nat),
    ps.map (fun p => p.active) = qs.map (fun p => p.active) →
    deleteLoop junk ps i0 = deleteLoop junk qs i0 := by
  intro ps
  induction ps with
  | nil =>
    intro qs i0 h
    cases qs with
    | nil => rfl
    | cons q qs => simp at h
  | cons p ps ih =>
    intro qs i0 h
    cases qs with
    | nil => simp at h
    | cons q qs =>
      simp only [List.map_cons, List.cons.injEq] at h
      unfold deleteLoop
      rw [h.1, ih qs (i0 + 1) h.2]

/-- `composite` for a plate set that is not empty, with sizes inside the range of
`unsigned int` and active plates that are open and keep at least one cell:
the fold of the spec, when the loop of lines 120-122 ends. -/
theorem composite_eq_delete (m : TiffManager) (junk : Junk) (dpi : Nat) (p0 : TiffInfo)
    (rest : List TiffInfo) (hm : m.tiffs = p0 :: rest)
    (hxr : 0 < p0.tiff.xResolution) (hyr : 0 < p0.tiff.yResolution)
    (hW : dpi * m.getMaxWidth < 4294967296) (hH : dpi * m.getMaxHeight < 4294967296)
    (hmx : scaledTo dpi m.getMaxWidth p0.tiff.xResolution < 4294967296)
    (hmy : scaledTo dpi m.getMaxHeight p0.tiff.yResolution < 4294967296)
    (hsize : scaledTo dpi m.getMaxWidth p0.tiff.xResolution *
      scaledTo dpi m.getMaxHeight p0.tiff.yResolution * 3 < 4294967296)
    (hact : ∀ p ∈ m.tiffs, p.active = true → p.tiff.tiff ≠ none ∧
      1 ≤ scaledTo dpi p.tiff.x p0.tiff.xResolution ∧
      1 ≤ scaledTo dpi p.tiff.y p0.tiff.yResolution) :
    m.composite junk dpi =
      (deleteLoop junk m.tiffs 0).map
        (fun _ => compositeFold m junk dpi p0.tiff.xResolution p0.tiff.yResolution) := by
  have hall : ∀ p ∈ m.tiffs, p.tiff.x ≤ m.getMaxWidth ∧ p.tiff.y ≤ m.getMaxHeight ∧
      (p.active = true → p.tiff.tiff ≠ none ∧
        1 ≤ scaledTo dpi p.tiff.x p0.tiff.xResolution ∧
        1 ≤ scaledTo dpi p.tiff.y p0.tiff.yResolution) :=
    fun p hp => ⟨le_getMaxWidth m p hp, le_getMaxHeight m p hp, hact p hp⟩
  have hxres : m.getXResolution 0 = .ok p0.tiff.xResolution := by
    simp [getXResolution, plate, hm, bind, Except.bind, pure, Except.pure]
  have hyres : m.getYResolution 0 = .ok p0.tiff.yResolution := by
    simp [getYResolution, plate, hm, bind, Except.bind, pure, Except.pure]
  unfold composite compositeFold
  rw [hxres, hyres]
  simp only [bind, Except.bind]
  rw [scaled_eq dpi _ _ hxr hW hmx, scaled_eq dpi _ _ hyr hH hmy]
  simp only []
  rw [scaleLoop_eq junk dpi _ _ _ _ hxr hyr hW hH hmx hmy m.tiffs hall]
  simp only [u32_of_lt hsize]
  rw [blendLoop_eq junk dpi _ _ _ _ hxr hyr hW hH hmx hmy hsize m.tiffs _ hall (by simp)]
  cases deleteLoop junk m.tiffs 0 <;> rfl

/-- `composite` for a plate set that is not empty, with sizes inside the range of
`unsigned int`, active plates that are open and keep at least one cell, and
the null pointer in the cells of `images` that are never assigned: the fold of
the spec. -/
theorem composite_eq_compositeFold (m : TiffManager) (junk : Junk) (dpi : Nat) (p0 : TiffInfo)
    (rest : List TiffInfo) (hm : m.tiffs = p0 :: rest)
    (hxr : 0 < p0.tiff.xResolution) (hyr : 0 < p0.tiff.yResolution)
    (hW : dpi * m.getMaxWidth < 4294967296) (hH : dpi * m.getMaxHeight < 4294967296)
    (hmx : scaledTo dpi m.getMaxWidth p0.tiff.xResolution < 4294967296)
    (hmy : scaledTo dpi m.getMaxHeight p0.tiff.yResolution < 4294967296)
    (hsize : scaledTo dpi m.getMaxWidth p0.tiff.xResolution *
      scaledTo dpi m.getMaxHeight p0.tiff.yResolution * 3 < 4294967296)
    (hact : ∀ p ∈ m.tiffs, p.active = true → p.tiff.tiff ≠ none ∧
      1 ≤ scaledTo dpi p.tiff.x p0.tiff.xResolution ∧
      1 ≤ scaledTo dpi p.tiff.y p0.tiff.yResolution)
    (hdel : deleteLoop junk m.tiffs 0 = .ok ()) :
    m.composite junk dpi =
      .ok (compositeFold m junk dpi p0.tiff.xResolution p0.tiff.yResolution) := by
  rw [composite_eq_delete m junk dpi p0 rest hm hxr hyr hW hH hmx hmy hsize hact, hdel]
  rfl

/-! ## `load` -/

set_option maxRecDepth 100000 in
theorem byte_high_bit : ∀ b < 256, ((b &&& 0x80) = 0x80 ↔ (b >>> 7) % 2 = 1) := by decide

theorem bit_le_one (f : TiffFile) (x y : Nat) : f.bit x y = 0 ∨ f.bit x y = 1 := by
  unfold TiffFile.bit
  omega

theorem load_some (junk : Junk) (fs : String → Option TiffFile) (t : Tiff) (file : String)
    (f : TiffFile) (hf : fs file = some f) :
    (load junk fs t file).1 = true ∧ (load junk fs t file).2.tiff = some f ∧
      (load junk fs t file).2.x = f.imageWidth ∧ (load junk fs t file).2.y = f.imageLength ∧
      (load junk fs t file).2.xResolution = f.xResolution ∧
      (load junk fs t file).2.yResolution = f.yResolution := by
  unfold load
  rw [hf]
  simp

theorem load_zeroWhite_eq (junk : Junk) (fs : String → Option TiffFile) (t : Tiff)
    (file : String) (f : TiffFile) (hf : fs file = some f) (wf : f.WellFormed)
    (hw : 1 ≤ f.imageWidth) (hh : 1 ≤ f.imageLength) :
    (load junk fs t file).2.zeroWhite = decide (f.bit 0 0 = 0) := by
  have hrow : 0 < f.scanlines.length := by rw [wf.rows]; exact hh
  have hs : f.scanline 0 = f.scanlines[0] := by
    unfold TiffFile.scanline
    rw [List.getD_eq_getElem _ _ hrow]
  have hlen : 0 < (f.scanline 0).length := by
    rw [hs, wf.cols _ (List.getElem_mem hrow)]
    unfold TIFFScanlineSize
    omega
  have hb : (f.scanline 0).getD 0 0 < 256 := by
    rw [List.getD_eq_getElem _ _ hlen]
    exact scanline_bytes f wf 0 _ (List.getElem_mem hlen)
  have hrd : rd junk (TIFFReadScanline f [] 0) 0 = (f.scanline 0).getD 0 0 := by
    rw [TIFFReadScanline_inside f [] 0 hrow]
    unfold rd
    rw [List.getD_eq_getElem _ _ hlen, List.getD_eq_getElem _ _ hlen]
  have hbit : f.bit 0 0 = ((f.scanline 0).getD 0 0 >>> 7) % 2 := by
    unfold TiffFile.bit
    simp
  unfold load
  rw [hf]
  simp only [hrd]
  have := byte_high_bit _ hb
  by_cases h : ((f.scanline 0).getD 0 0 &&& 0x80) = 0x80
  · rw [if_pos h]
    have h1 := this.1 h
    rw [hbit, h1]
    rfl
  · rw [if_neg h]
    have h1 : ((f.scanline 0).getD 0 0 >>> 7) % 2 = 0 := by
      have h2 : ¬ ((f.scanline 0).getD 0 0 >>> 7) % 2 = 1 := fun hc => h (this.2 hc)
      omega
    rw [hbit, h1]
    rfl

/-! ## Plates that leave the canvas as it is -/

theorem mix_zero (v k : Nat) (hv : v < 256) : mix v k 0 = v := by
  unfold mix
  have h1 : f64 (1 : ℚ) = 1 := by simpa using f64_natCast 1 (by decide)
  simp only [Nat.cast_zero, zero_div, f64_zero, f32_zero, mul_zero, sub_zero, h1, zero_add,
    mul_one]
  rw [f64_natCast v (by omega)]
  unfold toUChar
  simp
  omega

theorem blendPlate_zero_image (maxX : Nat) (color : Rgba) (image : List Nat) (x y : Nat)
    (canvas : List Nat) (hz : ∀ i j, i < y → j < x → image.getD (i * x + j) 0 = 0)
    (hc : ∀ v ∈ canvas, v < 256) :
    blendPlate maxX color image x y canvas = canvas := by
  apply List.ext_getElem?
  intro o
  simp only [blendPlate, List.getElem?_mapIdx]
  cases hv : canvas[o]? with
  | none => rfl
  | some v =>
    simp only [Option.map_some', Option.some.injEq]
    split
    · rename_i h
      rw [hz _ _ h.2 h.1, ← mix_eq_roundedBlend]
      exact mix_zero v _ (hc v (List.getElem?_mem hv))
    · rfl

theorem foldl_inactive (g : List Nat → TiffInfo → List Nat) :
    ∀ (ps : List TiffInfo) (canvas : List Nat), (∀ p ∈ ps, p.active = false) →
      ps.foldl (fun canvas p => if p.active then g canvas p else canvas) canvas = canvas := by
  intro ps
  induction ps with
  | nil => intro canvas _; rfl
  | cons p ps ih =>
    intro canvas h
    simp only [List.foldl_cons]
    rw [h p (List.mem_cons_self _ _)]
    simp only [Bool.false_eq_true, if_false]
    exact ih canvas (fun q hq => h q (List.mem_cons_of_mem _ hq))

theorem composite_without_active (m : TiffManager) (junk : Junk) (dpi : Nat) (p0 : TiffInfo)
    (rest : List TiffInfo) (hm : m.tiffs = p0 :: rest)
    (hxr : 0 < p0.tiff.xResolution) (hyr : 0 < p0.tiff.yResolution)
    (hW : dpi * m.getMaxWidth < 4294967296) (hH : dpi * m.getMaxHeight < 4294967296)
    (hmx : scaledTo dpi m.getMaxWidth p0.tiff.xResolution < 4294967296)
    (hmy : scaledTo dpi m.getMaxHeight p0.tiff.yResolution < 4294967296)
    (hsize : scaledTo dpi m.getMaxWidth p0.tiff.xResolution *
      scaledTo dpi m.getMaxHeight p0.tiff.yResolution * 3 < 4294967296)
    (hnone : ∀ p ∈ m.tiffs, p.active = false)
    (hdel : deleteLoop junk m.tiffs 0 = .ok ()) :
    m.composite junk dpi =
      .ok (List.replicate (scaledTo dpi m.getMaxWidth p0.tiff.xResolution *
        scaledTo dpi m.getMaxHeight p0.tiff.yResolution * 3) 255) := by
  rw [composite_eq_compositeFold m junk dpi p0 rest hm hxr hyr hW hH hmx hmy hsize
    (fun p hp ha => by rw [hnone p hp] at ha; exact absurd ha (by simp)) hdel]
  unfold compositeFold
  rw [foldl_inactive _ m.tiffs _ hnone]

theorem scaledSize_eq (m : TiffManager) (dpi i : Nat) (p0 p : TiffInfo) (rest : List TiffInfo)
    (hm : m.tiffs = p0 :: rest) (hi : m.tiffs[i]? = some p) :
    m.scaledSize dpi i = plateSize dpi p0.tiff.xResolution p0.tiff.yResolution p := by
  unfold scaledSize getXResolution getYResolution plate
  rw [hi]
  simp [hm, bind, Except.bind, pure, Except.pure]


/-- What `scale` returns for an open image and an output with no more rows than
the image. -/
theorem scale_eq_grid (t : Tiff) (f : TiffFile) (junk : Junk) (x y : Nat)
    (ht : t.tiff = some f) (wf : f.WellFormed) (htx : t.x = f.imageWidth)
    (hty : t.y = f.imageLength) (hw : 1 ≤ f.imageWidth) (hh : 1 ≤ f.imageLength)
    (hx : 1 ≤ x) (hy : 1 ≤ y) (hyH : y ≤ f.imageLength)
    (hadv : y ≤ x ∨ 8 * x ≤ f.imageWidth) :
    t.scale junk x y =
      .ok (some (grid (cellOf t.zeroWhite f junk) (blockSizes f.imageWidth x) 0
        (blockSizes f.imageLength y) 0)) := by
  have hW := wf.width
  have hH := wf.height
  unfold scale
  rw [htx, hty, usub_of_le hw hW, usub_of_le hh hH]
  have := getPixels_inside t f junk 0 0 (f.imageWidth - 1) (f.imageLength - 1) x y ht wf
    (Nat.zero_le _) (by omega) (Nat.zero_le _) (by omega) hx hy (by omega) (by omega)
  rw [this, firstColumn_of_aligned 0 (Or.inl rfl)]
  have e1 : f.imageWidth - 1 - 0 + 1 = f.imageWidth := by omega
  have e2 : f.imageLength - 1 - 0 + 1 = f.imageLength := by omega
  rw [e1, e2]

theorem shift_255 : ∀ k < 8, (255 >>> (7 - k)) % 2 = 1 := by decide

theorem bit_of_all_set (f : TiffFile) (wf : f.WellFormed)
    (hall : ∀ s ∈ f.scanlines, ∀ v ∈ s, v = 255) (c r : Nat) (hc : c < f.imageWidth)
    (hr : r < f.imageLength) : f.bit c r = 1 := by
  have hr2 : r < f.scanlines.length := by rw [wf.rows]; exact hr
  have hs : f.scanline r = f.scanlines[r] := by
    unfold TiffFile.scanline
    rw [List.getD_eq_getElem _ _ hr2]
  have hlen : c / 8 < (f.scanline r).length := by
    rw [hs, wf.cols _ (List.getElem_mem hr2)]
    unfold TIFFScanlineSize
    omega
  have hb : (f.scanline r).getD (c / 8) 0 = 255 := by
    rw [List.getD_eq_getElem _ _ hlen]
    have hmem : (f.scanline r)[c / 8] ∈ f.scanline r := List.getElem_mem hlen
    exact hall (f.scanline r) (by rw [hs]; exact List.getElem_mem hr2) _ hmem
  unfold TiffFile.bit
  rw [hb]
  exact shift_255 (c % 8) (Nat.mod_lt _ (by omega))

/-- The scaled image of an image with every bit set that `load` has read as
white: every cell is 0. -/
theorem grid_of_all_set (f : TiffFile) (wf : f.WellFormed) (junk : Junk)
    (hall : ∀ s ∈ f.scanlines, ∀ v ∈ s, v = 255) (x y : Nat)
    (hx : 1 ≤ x) (hxW : x ≤ f.imageWidth) (hy : 1 ≤ y) (hyH : y ≤ f.imageLength)
    (i j : Nat) (hi : i < y) (hj : j < x) :
    (grid (cellOf false f junk) (blockSizes f.imageWidth x) 0
      (blockSizes f.imageLength y) 0).getD (i * x + j) 0 = 0 := by
  have hjl : j < (blockSizes f.imageWidth x).length := by rw [blockSizes_length]; exact hj
  have hil : i < (blockSizes f.imageLength y).length := by rw [blockSizes_length]; exact hi
  have hw := List.getElem?_eq_getElem hjl
  have hh := List.getElem?_eq_getElem hil
  have hg := grid_getElem? (cellOf false f junk) (blockSizes f.imageWidth x) 0
    (blockSizes f.imageLength y) 0 i j _ _ hh hw
  rw [blockSizes_length] at hg
  rw [List.getD_eq_getElem?_getD, Nat.add_comm, hg]
  simp only [Option.getD_some]
  have hwpos := blockSizes_pos f.imageWidth x hx _ (List.getElem_mem hjl)
  have hhpos := blockSizes_pos f.imageLength y hy _ (List.getElem_mem hil)
  have hsx := blockSizes_sum f.imageWidth x hx hxW
  have hsy := blockSizes_sum f.imageLength y hy hyH
  have hb := blockBits_uniform f wf junk (blockSizes f.imageWidth x) (blockSizes f.imageLength y)
    0 0 j i _ _ 1 hw hh (by rw [hsx]; omega) (by rw [hsy]; omega)
    (fun c r _ h2 _ h4 => by
      have l1 := blockStart_le (blockSizes f.imageWidth x) 0 (j + 1)
      have l2 := blockStart_le (blockSizes f.imageLength y) 0 (i + 1)
      exact bit_of_all_set f wf hall c r (by omega) (by omega))
  unfold cellOf
  rw [hb, Nat.mul_one]
  exact grayscale_white_one _ (Nat.mul_pos hhpos hwpos)

theorem getMaxWidth_single (p : TiffInfo) : (TiffManager.mk [p]).getMaxWidth = p.tiff.x := by
  unfold getMaxWidth
  simp only [List.foldl_cons, List.foldl_nil]
  split <;> omega

theorem getMaxHeight_single (p : TiffInfo) : (TiffManager.mk [p]).getMaxHeight = p.tiff.y := by
  unfold getMaxHeight
  simp only [List.foldl_cons, List.foldl_nil]
  split <;> omega

/-- One active plate whose image has every bit set leaves the canvas white. -/
theorem composite_all_set (junk junkL : Junk) (fs : String → Option TiffFile) (t0 : Tiff)
    (file label : String) (f : TiffFile) (color : Rgba) (dpi : Nat)
    (hf : fs file = some f) (wf : f.WellFormed)
    (hall : ∀ s ∈ f.scanlines, ∀ v ∈ s, v = 255)
    (hxr : 0 < f.xResolution) (hyr : 0 < f.yResolution)
    (hW : dpi * f.imageWidth < 4294967296) (hH : dpi * f.imageLength < 4294967296)
    (hx : 1 ≤ scaledTo dpi f.imageWidth f.xResolution)
    (hxW : scaledTo dpi f.imageWidth f.xResolution ≤ f.imageWidth)
    (hy : 1 ≤ scaledTo dpi f.imageLength f.yResolution)
    (hyH : scaledTo dpi f.imageLength f.yResolution ≤ f.imageLength)
    (hadv : scaledTo dpi f.imageLength f.yResolution ≤ scaledTo dpi f.imageWidth f.xResolution ∨
      8 * scaledTo dpi f.imageWidth f.xResolution ≤ f.imageWidth)
    (hsize : scaledTo dpi f.imageWidth f.xResolution *
      scaledTo dpi f.imageLength f.yResolution * 3 < 4294967296) :
    (TiffManager.mk [TiffInfo.mk (load junkL fs t0 file).2 label true color]).composite junk
        dpi =
      .ok (List.replicate (scaledTo dpi f.imageWidth f.xResolution *
        scaledTo dpi f.imageLength f.yResolution * 3) 255) := by
  obtain ⟨_, ht, htx, hty, hrx, hry⟩ := load_some junkL fs t0 file f hf
  have hw1 : 1 ≤ f.imageWidth := by omega
  have hh1 : 1 ≤ f.imageLength := by omega
  have hzw : (load junkL fs t0 file).2.zeroWhite = false := by
    rw [load_zeroWhite_eq junkL fs t0 file f hf wf hw1 hh1,
      bit_of_all_set f wf hall 0 0 (by omega) (by omega)]
    rfl
  have hWb := wf.width
  have hHb := wf.height
  generalize hp : TiffInfo.mk (load junkL fs t0 file).2 label true color = p
  have hpt : p.tiff = (load junkL fs t0 file).2 := by rw [← hp]
  have hpa : p.active = true := by rw [← hp]
  have hmw : (TiffManager.mk [p]).getMaxWidth = f.imageWidth := by
    rw [getMaxWidth_single, hpt, htx]
  have hmh : (TiffManager.mk [p]).getMaxHeight = f.imageLength := by
    rw [getMaxHeight_single, hpt, hty]
  have hfold := composite_eq_compositeFold (TiffManager.mk [p]) junk dpi p [] rfl
    (by rw [hpt, hrx]; exact hxr) (by rw [hpt, hry]; exact hyr)
    (by rw [hmw]; exact hW) (by rw [hmh]; exact hH)
    (by rw [hmw, hpt, hrx]; omega) (by rw [hmh, hpt, hry]; omega)
    (by rw [hmw, hmh, hpt, hrx, hry]; exact hsize)
    (by
      intro q hq _
      have : q = p := by simpa using hq
      subst this
      rw [hpt, htx, hty, hrx, hry, ht]
      exact ⟨by simp, hx, hy⟩)
    (by
      show deleteLoop junk [p] 0 = .ok ()
      unfold deleteLoop
      rw [if_pos hpa]
      rfl)
  rw [hfold]
  unfold compositeFold
  simp only [List.foldl_cons, List.foldl_nil, hpa, if_true, hmw, hmh]
  rw [hpt, htx, hty, hrx, hry]
  have himg : scaledImage junk p (scaledTo dpi f.imageWidth f.xResolution)
      (scaledTo dpi f.imageLength f.yResolution) =
      grid (cellOf false f junk)
        (blockSizes f.imageWidth (scaledTo dpi f.imageWidth f.xResolution)) 0
        (blockSizes f.imageLength (scaledTo dpi f.imageLength f.yResolution)) 0 := by
    have h1 := scale_eq_scaledImage junk p _ _ (by rw [hpt, ht]; simp) hx hy
    have h2 := scale_eq_grid p.tiff f junk _ _ (by rw [hpt]; exact ht) wf (by rw [hpt]; exact htx)
      (by rw [hpt]; exact hty) hw1 hh1 hx hy hyH hadv
    rw [h1] at h2
    rw [hpt, hzw] at h2
    simpa using h2
  rw [himg]
  congr 1
  apply blendPlate_zero_image
  · intro i j hi hj
    exact grid_of_all_set f wf junk hall _ _ hx hxW hy hyH i j hi hj
  · intro v hv
    rw [List.eq_of_mem_replicate hv]
    omega


/-! # The claims -/

/-- C1, where the code departs from the claim. `scale(4, 5)` on the image of 20
by 5 pixels whose pixels 5 to 9 of the last row are set: the claim gives cell
(column 1, row 4) the value 255, its block being columns 5 to 9 of row 4. The
test of line 347 reads `wholeBytes[i]` with the row index `i = 4`, outside the
table of 4 entries; with a non-zero word there the pointer moves on after
column 0 and the cell counts other pixels: the image returned is 0 everywhere.
With a zero word there the image is the one of the claim. -/
theorem scale_reads_wholeBytes_by_row :
    (loaded file20x5).scale junkOne 4 5 = .ok (some (List.replicate 20 0)) ∧
    grid (cellOf (loaded file20x5).zeroWhite file20x5 junkOne) (blockSizes 20 4) 0
        (blockSizes 5 5) 0 =
      [0, 0, 0, 0, 0, 0, 0, 0, 0, 0, 0, 0, 0, 0, 0, 0, 0, 255, 0, 0] ∧
    (loaded file20x5).scale junkZero 4 5 =
      .ok (some [0, 0, 0, 0, 0, 0, 0, 0, 0, 0, 0, 0, 0, 0, 0, 0, 0, 255, 0, 0]) := by
  decide!

/-- C2, where the code departs from the claim. `getPixels(1, 0, 1, 0, 1, 1)` on
the image of 16 by 1 pixels in which only pixel 1 is set (so that zero is
white): the one cell is the block of pixel 1 alone, which is set, and the claim
gives it 255; the code starts with `leadingBits = x1 % 8 = 1` and counts bit 0
of byte 0, that is pixel 7, and returns 0. -/
theorem getPixels_left_edge_counts_other_pixel :
    (loaded (file16x1 0x40 0)).getPixels junkZero 1 0 1 0 1 1 = .ok (some [0]) ∧
    (loaded (file16x1 0x40 0)).zeroWhite = true ∧
    (file16x1 0x40 0).bit 1 0 = 1 ∧
    cellOf true (file16x1 0x40 0) junkZero 1 1 0 1 = 255 := by
  decide!

/-- C3, where the code departs from the claim. `sample(1, 0, 2, 0)` on the image
of 16 by 1 pixels in which exactly the pixels 1 and 2 are set (zero is white):
both pixels of the rectangle are set and the claim gives 100; the mask of lines
387-388 is shifted by `8 - (x1 % 8 + 1)` and covers the pixels 0 and 1, one bit
is counted and the result is 50. -/
theorem sample_inside_one_byte_counts_other_pixels :
    (loaded (file16x1 0x60 0)).sample junkZero 1 0 2 0 = .ok 50 ∧
    (file16x1 0x60 0).blockBits junkZero 1 2 0 1 = 2 ∧
    (loaded (file16x1 0x60 0)).zeroWhite = true := by
  decide!

/-- C4 as stated fails: the plate of 24 by 1 pixels with the bytes 0x00 0x0F
0x00, the only plate, active, with colour (0, 0, 255), at 1 dpi (8 dots per
unit across). The plate is scaled to the cells 0, 127, 0, and `composite` sets
the red and the green channel of pixel 1 to 127, where the formula of the claim
gives `floor(255 * (0/255 * a + (1 - a))) = 128` for `a = 127/255` in exact
arithmetic: the program keeps `127/255.0` in a `float`, which is above
`127/255`. -/
theorem blend_is_below_the_exact_value :
    (TiffManager.mk [plateOf (file24x1 0 0x0F 0) blue255]).composite junkZero 1 =
      .ok [255, 255, 255, 127, 127, 255, 255, 255, 255] ∧
    (plateOf (file24x1 0 0x0F 0) blue255).tiff.scale junkZero 3 1 = .ok (some [0, 127, 0]) ∧
    exactBlend 255 0 127 = 128 ∧ exactBlend 255 255 127 = 255 ∧
    TiffManager.mix 255 0 127 = 127 ∧ TiffManager.mix 255 255 127 = 255 := by
  decide!

/-- C4 as amended. For a plate set that is not empty, whose first plate has
positive resolutions, with the products `dpi * maxWidth`, `dpi * maxHeight`, the
canvas sizes and the canvas byte count inside the range of `unsigned int`,
whose active plates are open images that keep at least one cell in each
direction, and in which every plate that is not active finds the null pointer
in its never assigned cell of `images` (so that the loop of lines 120-122
ends): `composite(dpi)` returns the left fold over the plates in sequence order
that starts from the canvas with every byte 255, skips the plates that are not
active and blends an active plate cell by cell, each channel `v` of the canvas
pixel `(col, row)` becoming `roundedBlend v k s` for `s = s[row * x + col]`: the
value `v * (K * A + (1 - A))` as floating-point arithmetic gives it, truncated,
with `A` and `K` the `float`s nearest to `s/255` and `k/255`. The value stored
by lines 108-112 is this `roundedBlend` for all `v`, `k`, `s`. -/
theorem composite_is_plate_fold (m : TiffManager) (junk : Junk) (dpi : Nat) (p0 : TiffInfo)
    (rest : List TiffInfo) (hm : m.tiffs = p0 :: rest)
    (hxr : 0 < p0.tiff.xResolution) (hyr : 0 < p0.tiff.yResolution)
    (hW : dpi * m.getMaxWidth < 4294967296) (hH : dpi * m.getMaxHeight < 4294967296)
    (hmx : scaledTo dpi m.getMaxWidth p0.tiff.xResolution < 4294967296)
    (hmy : scaledTo dpi m.getMaxHeight p0.tiff.yResolution < 4294967296)
    (hsize : scaledTo dpi m.getMaxWidth p0.tiff.xResolution *
      scaledTo dpi m.getMaxHeight p0.tiff.yResolution * 3 < 4294967296)
    (hact : ∀ p ∈ m.tiffs, p.active = true → p.tiff.tiff ≠ none ∧
      1 ≤ scaledTo dpi p.tiff.x p0.tiff.xResolution ∧
      1 ≤ scaledTo dpi p.tiff.y p0.tiff.yResolution)
    (hnull : ∀ i p, m.tiffs[i]? = some p → p.active = false → junk.nullAt i = true) :
    m.composite junk dpi =
        .ok (compositeFold m junk dpi p0.tiff.xResolution p0.tiff.yResolution) ∧
      ∀ v k s, TiffManager.mix v k s = roundedBlend v k s :=
  ⟨composite_eq_compositeFold m junk dpi p0 rest hm hxr hyr hW hH hmx hmy hsize hact
      (deleteLoop_ok junk m.tiffs 0 (fun i p hi hp => by
        rw [Nat.zero_add]
        exact hnull i p hi hp)),
    mix_eq_roundedBlend⟩

/-- C4 as amended, at two active plates of 8 by 1 pixels, at 1 dpi. -/
theorem composite_is_plate_fold_witness :
    (TiffManager.mk [plateOf (file8x1 0x3C) red200,
        plateOf (file8x1 0x0F) blue255]).composite junkSet 1 =
      .ok (compositeFold
        (TiffManager.mk [plateOf (file8x1 0x3C) red200, plateOf (file8x1 0x0F) blue255])
        junkSet 1 1 1) :=
  (composite_is_plate_fold
    (TiffManager.mk [plateOf (file8x1 0x3C) red200, plateOf (file8x1 0x0F) blue255]) junkSet 1
    (plateOf (file8x1 0x3C) red200) [plateOf (file8x1 0x0F) blue255] rfl
    (by decide!) (by decide!) (by decide!) (by decide!) (by decide!) (by decide!) (by decide!)
    (by decide!)
    (fun i p hi hp => by
      have hall : ∀ q ∈ [plateOf (file8x1 0x3C) red200, plateOf (file8x1 0x0F) blue255],
          q.active = true := by decide!
      rw [hall p (List.getElem?_mem hi)] at hp
      exact absurd hp (by simp))).1

/-- C5 as stated fails: the image of 8 by 1 pixels with every bit set, the only
plate, active, colour (200, 50, 50), at 1 dpi (resolution 1): the canvas of 8
pixels returned by `composite` is white, (255, 255, 255), in every pixel, not
(200, 50, 50). -/
theorem all_set_plate_is_not_tinted :
    (TiffManager.mk [plateOf (file8x1 0xFF) red200]).composite junkZero 1 =
      .ok (List.replicate 24 255) := by
  decide!

/-- C5 as amended. An image in which all bits are set, loaded as the only plate,
active, with any colour: `load` finds the first pixel set and takes set bits
for white, so for every dpi for which the scaled size that `composite` computes
(`scaledTo`, the quotient in single precision) is at least one pixel and not
larger than the image in either direction (rows not outnumbering columns, or
blocks at least 8 columns wide), `composite(dpi)` returns the canvas in which
every byte is 255. -/
theorem all_set_plate_stays_white (junk junkL : Junk) (fs : String → Option TiffFile)
    (t0 : Tiff) (file label : String) (f : TiffFile) (color : Rgba) (dpi : Nat)
    (hf : fs file = some f) (wf : f.WellFormed)
    (hall : ∀ s ∈ f.scanlines, ∀ v ∈ s, v = 255)
    (hxr : 0 < f.xResolution) (hyr : 0 < f.yResolution)
    (hW : dpi * f.imageWidth < 4294967296) (hH : dpi * f.imageLength < 4294967296)
    (hx : 1 ≤ scaledTo dpi f.imageWidth f.xResolution)
    (hxW : scaledTo dpi f.imageWidth f.xResolution ≤ f.imageWidth)
    (hy : 1 ≤ scaledTo dpi f.imageLength f.yResolution)
    (hyH : scaledTo dpi f.imageLength f.yResolution ≤ f.imageLength)
    (hadv : scaledTo dpi f.imageLength f.yResolution ≤ scaledTo dpi f.imageWidth f.xResolution ∨
      8 * scaledTo dpi f.imageWidth f.xResolution ≤ f.imageWidth)
    (hsize : scaledTo dpi f.imageWidth f.xResolution *
      scaledTo dpi f.imageLength f.yResolution * 3 < 4294967296) :
    (TiffManager.mk [TiffInfo.mk (load junkL fs t0 file).2 label true color]).composite junk
        dpi =
      .ok (List.replicate (scaledTo dpi f.imageWidth f.xResolution *
        scaledTo dpi f.imageLength f.yResolution * 3) 255) :=
  composite_all_set junk junkL fs t0 file label f color dpi hf wf hall hxr hyr hW hH hx hxW hy
    hyH hadv hsize

/-- C5 as amended, at the image of 8 by 1 pixels with every bit set, colour
(200, 50, 50) and 1 dpi. -/
theorem all_set_plate_stays_white_witness :
    (TiffManager.mk [TiffInfo.mk
        (load junkZero (oneFile (file8x1 0xFF)) Tiff.new "plate.tif").2 "red" true
        red200]).composite junkOne 1 =
      .ok (List.replicate (scaledTo 1 (file8x1 0xFF).imageWidth (file8x1 0xFF).xResolution *
        scaledTo 1 (file8x1 0xFF).imageLength (file8x1 0xFF).yResolution * 3) 255) :=
  all_set_plate_stays_white junkOne junkZero (oneFile (file8x1 0xFF)) Tiff.new "plate.tif" "red"
    (file8x1 0xFF) red200 1 (by decide!)
    ⟨by decide, by decide, by decide, by decide, by decide⟩
    (by decide) (by decide!) (by decide!) (by decide!) (by decide!) (by decide!) (by decide!)
    (by decide!) (by decide!) (by decide!) (by decide!)

/-- C6 as stated fails: two plates of the same physical size, 8 by 1 units, one
of 8 by 1 pixels at resolution 1 and one of 16 by 2 pixels at resolution 2, at
1 dpi: `composite` scales the first to 8 by 1 and the second to 16 by 2, not to
`floor(1 * 16 / 2) = 8` by `floor(1 * 2 / 2) = 1`. And the quotient is not the
exact one: 11811 dots at the resolution `118.11f` and 1 dpi give 100, the exact
quotient is below 100 and its floor is 99. -/
theorem same_physical_size_scaled_differently :
    (TiffManager.mk [plateOf (file8x1 0) red200, plateOf file16x2 red200]).scaledSize 1 0 =
      .ok (8, 1) ∧
    (TiffManager.mk [plateOf (file8x1 0) red200, plateOf file16x2 red200]).scaledSize 1 1 =
      .ok (16, 2) ∧
    exactScaled 1 16 2 = 8 ∧ exactScaled 1 2 2 = 1 ∧
    TiffManager.scaled 1 11811 (f32 (11811 / 100)) = .ok 100 ∧
    exactScaled 1 11811 (f32 (11811 / 100)) = 99 := by
  decide!

/-- C6 as amended. In `composite(dpi)` the plate `i` is scaled to `x_i` by `y_i`
with the resolutions of the first plate of the set: `x_i` is `dpi * width_i`,
converted to `float`, divided in `float` by `xResolution_0` and truncated, and
`y_i` the same for `dpi * height_i` and `yResolution_0` (`scaledTo`); so two
plates of the same pixel width and height are scaled to the same size. -/
theorem plate_scaled_by_first_resolution (m : TiffManager) (dpi i : Nat) (p0 p : TiffInfo)
    (rest : List TiffInfo) (hm : m.tiffs = p0 :: rest) (hi : m.tiffs[i]? = some p)
    (hxr : 0 < p0.tiff.xResolution) (hyr : 0 < p0.tiff.yResolution)
    (hW : dpi * p.tiff.x < 4294967296) (hH : dpi * p.tiff.y < 4294967296)
    (hqx : scaledTo dpi p.tiff.x p0.tiff.xResolution < 4294967296)
    (hqy : scaledTo dpi p.tiff.y p0.tiff.yResolution < 4294967296) :
    m.scaledSize dpi i =
        .ok (scaledTo dpi p.tiff.x p0.tiff.xResolution,
          scaledTo dpi p.tiff.y p0.tiff.yResolution) ∧
      ∀ (j : Nat) (q : TiffInfo), m.tiffs[j]? = some q → q.tiff.x = p.tiff.x →
        q.tiff.y = p.tiff.y → m.scaledSize dpi j = m.scaledSize dpi i := by
  constructor
  · rw [scaledSize_eq m dpi i p0 p rest hm hi]
    unfold plateSize
    rw [scaled_eq dpi _ _ hxr hW hqx, scaled_eq dpi _ _ hyr hH hqy]
    rfl
  · intro j q hj hx hy
    rw [scaledSize_eq m dpi i p0 p rest hm hi, scaledSize_eq m dpi j p0 q rest hm hj]
    unfold plateSize
    rw [hx, hy]

/-- C6 as amended, at the second of the two plates of 8 by 1 and 16 by 2
pixels. -/
theorem plate_scaled_by_first_resolution_witness :
    (TiffManager.mk [plateOf (file8x1 0) red200, plateOf file16x2 red200]).scaledSize 1 1 =
        .ok (scaledTo 1 (plateOf file16x2 red200).tiff.x (plateOf (file8x1 0) red200).tiff.xResolution,
          scaledTo 1 (plateOf file16x2 red200).tiff.y
            (plateOf (file8x1 0) red200).tiff.yResolution) ∧
      ∀ (j : Nat) (q : TiffInfo),
        (TiffManager.mk [plateOf (file8x1 0) red200, plateOf file16x2 red200]).tiffs[j]? =
          some q →
        q.tiff.x = (plateOf file16x2 red200).tiff.x →
        q.tiff.y = (plateOf file16x2 red200).tiff.y →
        (TiffManager.mk [plateOf (file8x1 0) red200, plateOf file16x2 red200]).scaledSize 1 j =
          (TiffManager.mk [plateOf (file8x1 0) red200, plateOf file16x2 red200]).scaledSize 1 1 :=
  plate_scaled_by_first_resolution
    (TiffManager.mk [plateOf (file8x1 0) red200, plateOf file16x2 red200]) 1 1
    (plateOf (file8x1 0) red200) (plateOf file16x2 red200) [plateOf file16x2 red200] rfl
    (by decide!) (by decide!) (by decide!) (by decide!) (by decide!) (by decide!) (by decide!)

/-- C7, where the code departs from the claim. For a plate set that is not
empty in which no plate is active (first plate with positive resolutions,
sizes inside the range of `unsigned int`), `composite(dpi)` ends with the loop
of lines 120-122, which passes `images[i]` to `delete[]` for every plate,
although lines 80-94 assign `images[i]` for the active plates only. When every
one of these cells happens to hold the null pointer, the white canvas of the
claim is returned; when one of them holds anything else, the run ends in the
`delete[]` and no canvas is returned. -/
theorem composite_without_active_plate_frees_unassigned (m : TiffManager) (junk : Junk)
    (dpi : Nat) (p0 : TiffInfo) (rest : List TiffInfo) (hm : m.tiffs = p0 :: rest)
    (hxr : 0 < p0.tiff.xResolution) (hyr : 0 < p0.tiff.yResolution)
    (hW : dpi * m.getMaxWidth < 4294967296) (hH : dpi * m.getMaxHeight < 4294967296)
    (hmx : scaledTo dpi m.getMaxWidth p0.tiff.xResolution < 4294967296)
    (hmy : scaledTo dpi m.getMaxHeight p0.tiff.yResolution < 4294967296)
    (hsize : scaledTo dpi m.getMaxWidth p0.tiff.xResolution *
      scaledTo dpi m.getMaxHeight p0.tiff.yResolution * 3 < 4294967296)
    (hnone : ∀ p ∈ m.tiffs, p.active = false) :
    ((∀ i, i < m.size → junk.nullAt i = true) →
      m.composite junk dpi =
        .ok (List.replicate (scaledTo dpi m.getMaxWidth p0.tiff.xResolution *
          scaledTo dpi m.getMaxHeight p0.tiff.yResolution * 3) 255)) ∧
    ((∃ i, i < m.size ∧ junk.nullAt i = false) →
      m.composite junk dpi = .error .invalidFree) := by
  have hcomp := composite_eq_delete m junk dpi p0 rest hm hxr hyr hW hH hmx hmy hsize
    (fun p hp ha => by rw [hnone p hp] at ha; exact absurd ha (by simp))
  constructor
  · intro hnull
    exact composite_without_active m junk dpi p0 rest hm hxr hyr hW hH hmx hmy hsize hnone
      (deleteLoop_ok junk m.tiffs 0 (fun i p hi _ => by
        rw [Nat.zero_add]
        exact hnull i (by
          unfold size
          by_contra hge
          rw [List.getElem?_eq_none (by omega)] at hi
          exact absurd hi (by simp))))
  · rintro ⟨i, hi, hn⟩
    -- the first cell that does not hold the null pointer
    have hex : ∃ j, j < m.size ∧ junk.nullAt j = false := ⟨i, hi, hn⟩
    classical
    obtain ⟨hj, hjn⟩ := Nat.find_spec hex
    have hmin : ∀ k, k < Nat.find hex → ¬ (k < m.size ∧ junk.nullAt k = false) :=
      fun k hk => Nat.find_min hex hk
    have hj2 : Nat.find hex < m.tiffs.length := hj
    have hget : m.tiffs[Nat.find hex]? = some m.tiffs[Nat.find hex] :=
      List.getElem?_eq_getElem hj2
    rw [hcomp, deleteLoop_fault junk m.tiffs 0 (Nat.find hex) _ hget
      (hnone _ (List.getElem_mem _)) (by rw [Nat.zero_add]; exact hjn)
      (fun k q hk _ _ => by
        rw [Nat.zero_add]
        have := hmin k hk
        have hks : k < m.size := by unfold size at hj ⊢; omega
        cases hv : junk.nullAt k with
        | true => rfl
        | false => exact absurd ⟨hks, hv⟩ this)]
    rfl

/-- C7 at one plate of 8 by 1 pixels that is switched off, at 1 dpi, where the
cell `images[0]` does not hold the null pointer (every byte found there is
255): no canvas is returned. -/
theorem composite_without_active_plate_frees_unassigned_witness :
    (TiffManager.mk [idle (plateOf (file8x1 0x3C) red200)]).composite junkSet 1 =
      .error .invalidFree :=
  (composite_without_active_plate_frees_unassigned
    (TiffManager.mk [idle (plateOf (file8x1 0x3C) red200)]) junkSet 1
    (idle (plateOf (file8x1 0x3C) red200)) [] rfl
    (by decide!) (by decide!) (by decide!) (by decide!) (by decide!) (by decide!) (by decide!)
    (by decide!)).2 ⟨0, by decide, by decide⟩

/-- C8, where the code departs from the claim. `getPixels(1, 0, 2, 0, 2, 1)`, the
rectangle at its own size, on the image of 16 by 1 pixels in which only pixel 2
is set: the input bit of cell 0 (pixel 1) is clear and the one of cell 1
(pixel 2) is set, so the claim gives the two cells different values; the code
starts with `leadingBits = x1 % 8 = 1`, reads the pixels 7 and 8, and returns
0 for both. The defect is the one of C2. -/
theorem getPixels_native_size_reads_other_pixels :
    (loaded (file16x1 0x20 0)).getPixels junkZero 1 0 2 0 2 1 = .ok (some [0, 0]) ∧
    (file16x1 0x20 0).bit 1 0 = 0 ∧ (file16x1 0x20 0).bit 2 0 = 1 := by
  decide!

/-- C9 as stated fails: the image of 8 by 1 pixels with every bit clear is read
with zero as white, the block of its 8 pixels holds only white pixels, and
`getPixels(0, 0, 7, 0, 1, 1)` returns the cell 0, not 255. -/
theorem white_block_is_not_255 :
    (loaded (file8x1 0)).getPixels junkZero 0 0 7 0 1 1 = .ok (some [0]) ∧
    (loaded (file8x1 0)).zeroWhite = true ∧
    (file8x1 0).blockBits junkZero 0 8 0 1 = 0 := by
  decide!

/-- C9 as amended. For an open image of either polarity, a rectangle inside it
whose left edge `x1` has `x1 % 8` equal to 0 or 4, and an output size not larger
than the rectangle (rows not outnumbering columns, or blocks at least 8 columns
wide), a cell of the grid returned by `getPixels` whose input block holds only
white pixels has the value 0: white is the low value, 0 means no ink, whatever
the bit convention of the raster. -/
theorem white_block_is_zero (t : Tiff) (f : TiffFile) (junk : Junk)
    (x1 y1 x2 y2 x y i j : Nat) (ht : t.tiff = some f) (wf : f.WellFormed)
    (halign : x1 % 8 = 0 ∨ x1 % 8 = 4)
    (hxx : x1 ≤ x2) (hx2 : x2 < f.imageWidth) (hyy : y1 ≤ y2) (hy2 : y2 < f.imageLength)
    (hx : 1 ≤ x) (hxn : x ≤ x2 - x1 + 1) (hy : 1 ≤ y) (hym : y ≤ y2 - y1 + 1)
    (hadv : y ≤ x ∨ 8 * x ≤ x2 - x1 + 1) (hi : i < y) (hj : j < x)
    (hwhite : ∀ c r,
      blockStart (blockSizes (x2 - x1 + 1) x) x1 j ≤ c →
      c < blockStart (blockSizes (x2 - x1 + 1) x) x1 (j + 1) →
      blockStart (blockSizes (y2 - y1 + 1) y) y1 i ≤ r →
      r < blockStart (blockSizes (y2 - y1 + 1) y) y1 (i + 1) →
      f.bit c r = if t.zeroWhite then 0 else 1) :
    ∃ cells, getPixels t junk x1 y1 x2 y2 x y = .ok (some cells) ∧
      cells[j + i * x]? = some 0 :=
  white_cell t f junk x1 y1 x2 y2 x y i j ht wf halign hxx hx2 hyy hy2 hx hxn hy hym hadv hi hj
    hwhite

/-- C9 as amended, at the image of 16 by 1 pixels with the bytes 0xF0 and 0xFF,
where one is white: the right half, scaled to 2 by 1, cell 1. -/
theorem white_block_is_zero_witness :
    ∃ cells, getPixels (loaded (file16x1 0xF0 0xFF)) junkOne 0 0 15 0 2 1 = .ok (some cells) ∧
      cells[1 + 0 * 2]? = some 0 :=
  white_block_is_zero (loaded (file16x1 0xF0 0xFF)) (file16x1 0xF0 0xFF) junkOne 0 0 15 0 2 1 0 1
    (by decide!) ⟨by decide, by decide, by decide, by decide, by decide⟩
    (by decide) (by decide) (by decide) (by decide) (by decide) (by decide) (by decide)
    (by decide) (by decide) (by decide) (by decide) (by decide)
    (by
      have hb : ∀ c < 16, 8 ≤ c → (file16x1 0xF0 0xFF).bit c 0 =
          if (loaded (file16x1 0xF0 0xFF)).zeroWhite then 0 else 1 := by decide!
      have e1 : blockStart (blockSizes (15 - 0 + 1) 2) 0 1 = 8 := by decide
      have e2 : blockStart (blockSizes (15 - 0 + 1) 2) 0 (1 + 1) = 16 := by decide
      have e3 : blockStart (blockSizes (0 - 0 + 1) 1) 0 (0 + 1) = 1 := by decide
      intro c r h1 h2 _ h4
      rw [e1] at h1
      rw [e2] at h2
      rw [e3] at h4
      have hr : r = 0 := by omega
      rw [hr]
      exact hb c h2 h1)

/-- C10. After a `load` that succeeds on an image of at least one pixel,
`zeroWhite` is false exactly when the first pixel of the first scanline (bit
0x80 of byte 0 of row 0) is set and true otherwise; every other readable image
with the same first pixel, whatever its tags and its other pixels, gets the
same `zeroWhite`. -/
theorem load_polarity_from_first_pixel (junk : Junk) (fs : String → Option TiffFile)
    (t : Tiff) (file : String) (f : TiffFile) (hf : fs file = some f) (wf : f.WellFormed)
    (hw : 1 ≤ f.imageWidth) (hh : 1 ≤ f.imageLength) :
    (load junk fs t file).1 = true ∧
      ((load junk fs t file).2.zeroWhite = false ↔ f.bit 0 0 = 1) ∧
      ((load junk fs t file).2.zeroWhite = true ↔ f.bit 0 0 = 0) ∧
      ∀ (junk2 : Junk) (fs2 : String → Option TiffFile) (t2 : Tiff) (file2 : String)
        (g : TiffFile), fs2 file2 = some g → g.WellFormed → 1 ≤ g.imageWidth →
        1 ≤ g.imageLength → g.bit 0 0 = f.bit 0 0 →
        (load junk2 fs2 t2 file2).2.zeroWhite = (load junk fs t file).2.zeroWhite := by
  have hz := load_zeroWhite_eq junk fs t file f hf wf hw hh
  refine ⟨(load_some junk fs t file f hf).1, ?_, ?_, ?_⟩
  · rw [hz]
    rcases bit_le_one f 0 0 with h | h <;> simp [h]
  · rw [hz]
    simp
  · intro junk2 fs2 t2 file2 g hg wg hgw hgh hbit
    rw [hz, load_zeroWhite_eq junk2 fs2 t2 file2 g hg wg hgw hgh, hbit]

/-- C10 at the image of 16 by 1 pixels whose first pixel is set. -/
theorem load_polarity_from_first_pixel_witness :
    (load junkOne (oneFile (file16x1 0x80 0)) Tiff.new "plate.tif").1 = true ∧
      ((load junkOne (oneFile (file16x1 0x80 0)) Tiff.new "plate.tif").2.zeroWhite = false ↔
        (file16x1 0x80 0).bit 0 0 = 1) ∧
      ((load junkOne (oneFile (file16x1 0x80 0)) Tiff.new "plate.tif").2.zeroWhite = true ↔
        (file16x1 0x80 0).bit 0 0 = 0) ∧
      ∀ (junk2 : Junk) (fs2 : String → Option TiffFile) (t2 : Tiff) (file2 : String)
        (g : TiffFile), fs2 file2 = some g → g.WellFormed → 1 ≤ g.imageWidth →
        1 ≤ g.imageLength → g.bit 0 0 = (file16x1 0x80 0).bit 0 0 →
        (load junk2 fs2 t2 file2).2.zeroWhite =
          (load junkOne (oneFile (file16x1 0x80 0)) Tiff.new "plate.tif").2.zeroWhite :=
  load_polarity_from_first_pixel junkOne (oneFile (file16x1 0x80 0)) Tiff.new "plate.tif"
    (file16x1 0x80 0) (by decide!) ⟨by decide, by decide, by decide, by decide, by decide⟩
    (by decide) (by decide)


/-! # Further proofs -/


/-! ## The plate sequence -/

theorem addTiff_eq (junk : Junk) (fs : String → Option TiffFile) (m : TiffManager)
    (file filename : String) :
    (m.addTiff junk fs file filename).1 = (load junk fs Tiff.new file).1 ∧
    ((load junk fs Tiff.new file).1 = true ↔ fs file ≠ none) ∧
    ((load junk fs Tiff.new file).1 = true →
      ∃ p : TiffInfo, (m.addTiff junk fs file filename).2.tiffs = m.tiffs ++ [p] ∧
        p.active = true ∧ p.filename = filename ∧ p.tiff = (load junk fs Tiff.new file).2 ∧
        (m.addTiff junk fs file filename).2.size = m.size + 1 ∧
        (m.addTiff junk fs file filename).2.tiffs[m.size]? = some p ∧
        ∀ k, k < m.size → (m.addTiff junk fs file filename).2.tiffs[k]? = m.tiffs[k]?) ∧
    ((load junk fs Tiff.new file).1 = false → (m.addTiff junk fs file filename).2 = m) := by
  refine ⟨?_, ?_, ?_, ?_⟩
  · unfold addTiff
    split <;> simp_all
  · unfold load
    cases h : fs file <;> simp
  · intro h
    unfold addTiff
    rw [if_pos h]
    refine ⟨_, rfl, rfl, rfl, rfl, ?_, ?_, ?_⟩
    · simp [size]
    · simp [size]
    · intro k hk
      simp only [size] at hk
      simp [List.getElem?_append_left hk]
  · intro h
    unfold addTiff
    rw [h]
    simp

theorem deleteTiff_eq (m : TiffManager) (i : Nat) (hi : i < m.size) :
    m.deleteTiff i = .ok (true, TiffManager.mk (m.tiffs.eraseIdx i)) ∧
    (TiffManager.mk (m.tiffs.eraseIdx i)).size = m.size - 1 ∧
    (∀ k, k < i → (m.tiffs.eraseIdx i)[k]? = m.tiffs[k]?) ∧
    (∀ k, i ≤ k → (m.tiffs.eraseIdx i)[k]? = m.tiffs[k + 1]?) := by
  simp only [size] at hi
  refine ⟨?_, ?_, ?_, ?_⟩
  · unfold deleteTiff
    rw [if_pos hi]
  · simp [size, List.length_eraseIdx, hi]
  · intro k hk
    rw [List.getElem?_eraseIdx]
    simp [hk]
  · intro k hk
    rw [List.getElem?_eraseIdx]
    have : ¬ k < i := by omega
    simp [this]


theorem wholeCount_ge (junk : Junk) (data : List Nat) (n p : Nat) :
    oneBitsInChar (rd junk data (p + 1)) ≤ wholeCount junk data (n + 1) p := by
  rw [wholeCount]
  omega

theorem sampleCoverage_wrap (junk : Junk) :
    15 ≤ sampleCoverage (loaded (file16x1 0x7F 0xFF)) (file16x1 0x7F 0xFF) junk 0 0 7 0 := by
  have hm : sampleMasks 0 7 =
      { leadingMask := 255, wholeBytes := 536870910 + 1, trailingMask := 255 } := by decide
  have hr : List.range' 0 (u32 (0 + 1) - 0) = [0] := by decide
  have hs : TIFFReadEncodedStrip (file16x1 0x7F 0xFF) (TIFFComputeStrip (file16x1 0x7F 0xFF) 0) =
      [0x7F, 0xFF] := by decide
  have hrow : (loaded (file16x1 0x7F 0xFF)).scanlineSize *
      usub 0 (u32 (TIFFComputeStrip (file16x1 0x7F 0xFF) 0 *
        (loaded (file16x1 0x7F 0xFF)).rowsPerStrip)) = 0 := by decide
  unfold sampleCoverage
  rw [hm, hr]
  simp only [List.foldl, sampleRow, hs, hrow, Nat.zero_div, Nat.add_zero, Nat.zero_add]
  have h0 : rd junk [0x7F, 0xFF] 0 = 0x7F := rfl
  have h1 : rd junk [0x7F, 0xFF] 1 = 0xFF := rfl
  have hg := wholeCount_ge junk [0x7F, 0xFF] 536870910 0
  rw [h1] at hg
  have h8 : oneBitsInChar 0xFF = 8 := by decide
  have h7 : oneBitsInChar (255 &&& 0x7F) = 7 := by decide
  rw [h8] at hg
  simp only [ne_eq, not_false_eq_true, reduceCtorEq, if_true, Nat.zero_add, h0, h7] 
  omega


theorem scale_closed (junk : Junk) (t : Tiff) (x y : Nat) (ht : t.tiff = none) :
    t.scale junk x y = .ok none := by
  unfold scale getPixels
  rw [ht]

theorem blockLoop_flat (out incH : Nat) (hout : 0 < out) :
    ∀ n, blockLoop out incH 0 n 0 = List.replicate n incH := by
  intro n
  induction n with
  | zero => rfl
  | succ n ih =>
    rw [blockLoop, if_neg (by omega), List.replicate_succ]
    exact congrArg _ ih

theorem mix_lt (v k s : Nat) : mix v k s < 256 := by
  unfold mix toUChar
  exact Nat.mod_lt _ (by omega)

theorem blendPlate_getElem? (maxX : Nat) (color : Rgba) (image : List Nat) (x y : Nat)
    (canvas : List Nat) (o : Nat) :
    (blendPlate maxX color image x y canvas)[o]? =
      (canvas[o]?).map fun v =>
        if (o / 3) % maxX < x ∧ (o / 3) / maxX < y then
          mix v (color.get (o % 3)) (image.getD ((o / 3) / maxX * x + (o / 3) % maxX) 0)
        else v := by
  simp only [blendPlate, List.getElem?_mapIdx, mix_eq_roundedBlend]

theorem blendPlate_bytes (maxX : Nat) (color : Rgba) (image : List Nat) (x y : Nat)
    (canvas : List Nat) (hc : ∀ v ∈ canvas, v < 256) :
    ∀ v ∈ blendPlate maxX color image x y canvas, v < 256 := by
  intro v hv
  obtain ⟨o, ho, rfl⟩ := List.getElem_of_mem hv
  have h := blendPlate_getElem? maxX color image x y canvas o
  rw [List.getElem?_eq_getElem ho] at h
  cases hw : canvas[o]? with
  | none => rw [hw] at h; simp at h
  | some w =>
    rw [hw] at h
    simp only [Option.map_some', Option.some.injEq] at h
    rw [h]
    split
    · exact mix_lt _ _ _
    · exact hc w (List.getElem?_mem hw)

theorem blendPlate_comm (maxX : Nat) (c1 c2 : Rgba) (im1 im2 : List Nat) (x1 y1 x2 y2 : Nat)
    (canvas : List Nat) (hc : ∀ v ∈ canvas, v < 256)
    (hdis : ∀ col row, col < x1 → row < y1 → col < x2 → row < y2 →
      im1.getD (row * x1 + col) 0 = 0 ∨ im2.getD (row * x2 + col) 0 = 0) :
    blendPlate maxX c2 im2 x2 y2 (blendPlate maxX c1 im1 x1 y1 canvas) =
      blendPlate maxX c1 im1 x1 y1 (blendPlate maxX c2 im2 x2 y2 canvas) := by
  apply List.ext_getElem?
  intro o
  rw [blendPlate_getElem?, blendPlate_getElem?, blendPlate_getElem?, blendPlate_getElem?]
  cases hv : canvas[o]? with
  | none => simp
  | some v =>
    have hv256 : v < 256 := hc v (List.getElem?_mem hv)
    simp only [Option.map_some', Option.some.injEq]
    by_cases h1 : (o / 3) % maxX < x1 ∧ (o / 3) / maxX < y1
    · by_cases h2 : (o / 3) % maxX < x2 ∧ (o / 3) / maxX < y2
      · rw [if_pos h1, if_pos h2, if_pos h1, if_pos h2]
        rcases hdis _ _ h1.1 h1.2 h2.1 h2.2 with hz | hz
        · rw [hz, mix_zero v _ hv256, mix_zero _ _ (mix_lt _ _ _)]
        · rw [hz, mix_zero v _ hv256, mix_zero _ _ (mix_lt _ _ _)]
      · rw [if_pos h1, if_neg h2, if_neg h2, if_pos h1]
    · by_cases h2 : (o / 3) % maxX < x2 ∧ (o / 3) / maxX < y2
      · simp only [if_neg h1, if_pos h2]
      · simp only [if_neg h1, if_neg h2]

/-! ## The fold over the plates -/

theorem compositeFold_eq (m : TiffManager) (junk : Junk) (dpi : Nat) (xRes yRes : ℚ) :
    compositeFold m junk dpi xRes yRes =
      m.tiffs.foldl (plateStep junk dpi m.getMaxWidth xRes yRes)
        (List.replicate
          (scaledTo dpi m.getMaxWidth xRes * scaledTo dpi m.getMaxHeight yRes * 3) 255) := rfl

theorem plateStep_bytes (junk : Junk) (dpi maxW : Nat) (xRes yRes : ℚ) (canvas : List Nat)
    (p : TiffInfo) (hc : ∀ v ∈ canvas, v < 256) :
    ∀ v ∈ plateStep junk dpi maxW xRes yRes canvas p, v < 256 := by
  unfold plateStep
  split
  · exact blendPlate_bytes _ _ _ _ _ _ hc
  · exact hc

theorem plateStep_length (junk : Junk) (dpi maxW : Nat) (xRes yRes : ℚ) (canvas : List Nat)
    (p : TiffInfo) : (plateStep junk dpi maxW xRes yRes canvas p).length = canvas.length := by
  unfold plateStep
  split
  · exact blendPlate_length _ _ _ _ _ _
  · rfl

theorem foldl_plateStep_bytes (junk : Junk) (dpi maxW : Nat) (xRes yRes : ℚ) :
    ∀ (ps : List TiffInfo) (canvas : List Nat), (∀ v ∈ canvas, v < 256) →
      ∀ v ∈ ps.foldl (plateStep junk dpi maxW xRes yRes) canvas, v < 256 := by
  intro ps
  induction ps with
  | nil => intro canvas hc; exact hc
  | cons p ps ih =>
    intro canvas hc
    rw [List.foldl_cons]
    exact ih _ (plateStep_bytes junk dpi maxW xRes yRes canvas p hc)

theorem foldl_plateStep_length (junk : Junk) (dpi maxW : Nat) (xRes yRes : ℚ) :
    ∀ (ps : List TiffInfo) (canvas : List Nat),
      (ps.foldl (plateStep junk dpi maxW xRes yRes) canvas).length = canvas.length := by
  intro ps
  induction ps with
  | nil => intro canvas; rfl
  | cons p ps ih =>
    intro canvas
    rw [List.foldl_cons, ih, plateStep_length]

theorem foldl_plateStep_inactive (junk : Junk) (dpi maxW : Nat) (xRes yRes : ℚ) :
    ∀ (ps : List TiffInfo) (canvas : List Nat), (∀ p ∈ ps, p.active = false) →
      ps.foldl (plateStep junk dpi maxW xRes yRes) canvas = canvas := by
  intro ps
  induction ps with
  | nil => intro canvas _; rfl
  | cons p ps ih =>
    intro canvas h
    rw [List.foldl_cons]
    have hp : plateStep junk dpi maxW xRes yRes canvas p = canvas := by
      unfold plateStep
      rw [h p (List.mem_cons_self _ _)]
      simp
    rw [hp]
    exact ih canvas (fun q hq => h q (List.mem_cons_of_mem _ hq))

theorem replicate_bytes (n : Nat) : ∀ v ∈ List.replicate n 255, v < 256 := by
  intro v hv
  rw [List.eq_of_mem_replicate hv]
  omega

/-- Replacing one element of a list by one on which the step agrees leaves the
fold unchanged. -/
theorem foldl_set_same {α : Type} (step : α → TiffInfo → α) (Inv : α → Prop)
    (hpres : ∀ c q, Inv c → Inv (step c q)) (p p2 : TiffInfo)
    (heq : ∀ c, Inv c → step c p2 = step c p) :
    ∀ (l : List TiffInfo) (i : Nat), l[i]? = some p → ∀ c, Inv c →
      (l.set i p2).foldl step c = l.foldl step c := by
  intro l
  induction l with
  | nil => intro i h; simp at h
  | cons a l ih =>
    intro i h c hc
    cases i with
    | zero =>
      simp only [List.getElem?_cons_zero, Option.some.injEq] at h
      subst h
      simp only [List.set_cons_zero, List.foldl_cons]
      rw [heq c hc]
    | succ i =>
      simp only [List.getElem?_cons_succ] at h
      simp only [List.set_cons_succ, List.foldl_cons]
      exact ih i h _ (hpres c a hc)

/-! ## The largest width and height -/

theorem foldl_max_attained (g : TiffInfo → Nat) : ∀ (ps : List TiffInfo) (a : Nat),
    ps.foldl (fun w p => if g p > w then g p else w) a = a ∨
      ∃ p ∈ ps, ps.foldl (fun w p => if g p > w then g p else w) a = g p := by
  intro ps
  induction ps with
  | nil => intro a; exact Or.inl rfl
  | cons q ps ih =>
    intro a
    rw [List.foldl_cons]
    rcases ih (if g q > a then g q else a) with h | ⟨p, hp, h⟩
    · rw [h]
      by_cases hgt : g q > a
      · rw [if_pos hgt]
        exact Or.inr ⟨q, List.mem_cons_self _ _, rfl⟩
      · rw [if_neg hgt]
        exact Or.inl rfl
    · exact Or.inr ⟨p, List.mem_cons_of_mem _ hp, h⟩

theorem foldl_max_mono (g : TiffInfo → Nat) (l1 l2 : List TiffInfo)
    (h : ∀ p ∈ l1, ∃ q ∈ l2, g p ≤ g q) :
    l1.foldl (fun w p => if g p > w then g p else w) 0 ≤
      l2.foldl (fun w p => if g p > w then g p else w) 0 := by
  rcases foldl_max_attained g l1 0 with h0 | ⟨p, hp, hv⟩
  · rw [h0]; exact Nat.zero_le _
  · rw [hv]
    obtain ⟨q, hq, hle⟩ := h p hp
    exact Nat.le_trans hle ((foldl_max_ge g l2 0).2 q hq)

theorem foldl_max_congr (g : TiffInfo → Nat) (l1 l2 : List TiffInfo)
    (h12 : ∀ p ∈ l1, ∃ q ∈ l2, g p ≤ g q) (h21 : ∀ p ∈ l2, ∃ q ∈ l1, g p ≤ g q) :
    l1.foldl (fun w p => if g p > w then g p else w) 0 =
      l2.foldl (fun w p => if g p > w then g p else w) 0 :=
  Nat.le_antisymm (foldl_max_mono g l1 l2 h12) (foldl_max_mono g l2 l1 h21)

theorem mem_set_cases (l : List TiffInfo) (i : Nat) (p p2 : TiffInfo) (hi : l[i]? = some p) :
    (∀ q ∈ l.set i p2, q ∈ l ∨ q = p2) ∧ (∀ q ∈ l, q ∈ l.set i p2 ∨ q = p) := by
  constructor
  · intro q hq
    exact List.mem_or_eq_of_mem_set hq
  · intro q hq
    obtain ⟨j, hj, rfl⟩ := List.getElem_of_mem hq
    by_cases hji : i = j
    · subst hji
      right
      rw [List.getElem?_eq_getElem hj] at hi
      exact Option.some.inj hi
    · left
      have : (l.set i p2)[j]? = some l[j] := by
        rw [List.getElem?_set_ne hji, List.getElem?_eq_getElem hj]
      exact List.getElem?_mem this

theorem getMax_set (m : TiffManager) (i : Nat) (p p2 : TiffInfo) (hi : m.tiffs[i]? = some p)
    (ht : p2.tiff = p.tiff) :
    (TiffManager.mk (m.tiffs.set i p2)).getMaxWidth = m.getMaxWidth ∧
      (TiffManager.mk (m.tiffs.set i p2)).getMaxHeight = m.getMaxHeight := by
  obtain ⟨h1, h2⟩ := mem_set_cases m.tiffs i p p2 hi
  have hp : p ∈ m.tiffs := List.getElem?_mem hi
  have hp2 : p2 ∈ m.tiffs.set i p2 := by
    have hlt : i < m.tiffs.length := by
      rcases Nat.lt_or_ge i m.tiffs.length with h | h
      · exact h
      · rw [List.getElem?_eq_none h] at hi; simp at hi
    exact List.mem_set _ _ hlt _
  constructor
  · unfold getMaxWidth
    apply foldl_max_congr
    · intro q hq
      rcases h1 q hq with h | h
      · exact ⟨q, h, Nat.le_refl _⟩
      · exact ⟨p, hp, by rw [h, ht]⟩
    · intro q hq
      rcases h2 q hq with h | h
      · exact ⟨q, h, Nat.le_refl _⟩
      · exact ⟨p2, hp2, by rw [h, ht]⟩
  · unfold getMaxHeight
    apply foldl_max_congr
    · intro q hq
      rcases h1 q hq with h | h
      · exact ⟨q, h, Nat.le_refl _⟩
      · exact ⟨p, hp, by rw [h, ht]⟩
    · intro q hq
      rcases h2 q hq with h | h
      · exact ⟨q, h, Nat.le_refl _⟩
      · exact ⟨p2, hp2, by rw [h, ht]⟩

theorem mem_plateSet (pre mid post : List TiffInfo) (p q r : TiffInfo) :
    r ∈ (plateSet pre p mid q post).tiffs ↔ r ∈ (plateSet pre q mid p post).tiffs := by
  simp only [plateSet, List.mem_append, List.mem_cons]
  tauto

theorem getMax_plateSet (pre mid post : List TiffInfo) (p q : TiffInfo) :
    (plateSet pre q mid p post).getMaxWidth = (plateSet pre p mid q post).getMaxWidth ∧
      (plateSet pre q mid p post).getMaxHeight = (plateSet pre p mid q post).getMaxHeight := by
  constructor
  · unfold getMaxWidth
    apply foldl_max_congr
    · intro r hr
      exact ⟨r, (mem_plateSet pre mid post q p r).1 hr, Nat.le_refl _⟩
    · intro r hr
      exact ⟨r, (mem_plateSet pre mid post p q r).1 hr, Nat.le_refl _⟩
  · unfold getMaxHeight
    apply foldl_max_congr
    · intro r hr
      exact ⟨r, (mem_plateSet pre mid post q p r).1 hr, Nat.le_refl _⟩
    · intro r hr
      exact ⟨r, (mem_plateSet pre mid post p q r).1 hr, Nat.le_refl _⟩

/-- The result of `composite`, with the resolutions as `getXResolution()` and
`getYResolution()` return them. -/
theorem composite_fold_res (m : TiffManager) (junk : Junk) (dpi : Nat) (xRes yRes : ℚ)
    (hx : m.getXResolution 0 = .ok xRes) (hy : m.getYResolution 0 = .ok yRes)
    (hxr : 0 < xRes) (hyr : 0 < yRes)
    (hW : dpi * m.getMaxWidth < 4294967296) (hH : dpi * m.getMaxHeight < 4294967296)
    (hmx : scaledTo dpi m.getMaxWidth xRes < 4294967296)
    (hmy : scaledTo dpi m.getMaxHeight yRes < 4294967296)
    (hsize : scaledTo dpi m.getMaxWidth xRes * scaledTo dpi m.getMaxHeight yRes * 3 <
      4294967296)
    (hact : ∀ p ∈ m.tiffs, p.active = true → p.tiff.tiff ≠ none ∧
      1 ≤ scaledTo dpi p.tiff.x xRes ∧ 1 ≤ scaledTo dpi p.tiff.y yRes)
    (hdel : deleteLoop junk m.tiffs 0 = .ok ()) :
    m.composite junk dpi = .ok (compositeFold m junk dpi xRes yRes) := by
  cases hm : m.tiffs with
  | nil =>
    simp [getXResolution, plate, hm, bind, Except.bind] at hx
  | cons p0 rest =>
    simp [getXResolution, plate, hm, bind, Except.bind, pure, Except.pure] at hx
    simp [getYResolution, plate, hm, bind, Except.bind, pure, Except.pure] at hy
    subst hx
    subst hy
    exact composite_eq_compositeFold m junk dpi p0 rest hm hxr hyr hW hH hmx hmy hsize hact hdel


/-! ## Switching a plate off, exchanging two plates -/

theorem getRes_set (m : TiffManager) (i : Nat) (p p2 : TiffInfo) (hi : m.tiffs[i]? = some p)
    (ht : p2.tiff = p.tiff) :
    (TiffManager.mk (m.tiffs.set i p2)).getXResolution 0 = m.getXResolution 0 ∧
      (TiffManager.mk (m.tiffs.set i p2)).getYResolution 0 = m.getYResolution 0 := by
  unfold getXResolution getYResolution plate
  cases i with
  | zero =>
    cases hl : m.tiffs with
    | nil => rw [hl] at hi; simp at hi
    | cons a l =>
      rw [hl] at hi
      simp only [List.getElem?_cons_zero, Option.some.injEq] at hi
      subst hi
      simp [bind, Except.bind, pure, Except.pure, ht]
  | succ i =>
    have h0 : (m.tiffs.set (i + 1) p2)[0]? = m.tiffs[0]? := List.getElem?_set_ne (by omega)
    simp [h0]

theorem blendPlate_untouched (maxX : Nat) (color : Rgba) (image : List Nat) (x y : Nat)
    (canvas : List Nat) (hc : ∀ v ∈ canvas, v < 256) (col row ch : Nat)
    (hcol : col < maxX) (hch : ch < 3)
    (h : x ≤ col ∨ y ≤ row ∨ image.getD (row * x + col) 0 = 0) :
    (blendPlate maxX color image x y canvas).getD (3 * (maxX * row + col) + ch) 0 =
      canvas.getD (3 * (maxX * row + col) + ch) 0 := by
  obtain ⟨e1, e2, _⟩ := offset_decomp maxX row col ch hcol hch
  rw [List.getD_eq_getElem?_getD, List.getD_eq_getElem?_getD, blendPlate_getElem?, e1, e2]
  cases hv : canvas[3 * (maxX * row + col) + ch]? with
  | none => simp
  | some v =>
    simp only [Option.map_some', Option.getD_some]
    by_cases hcond : col < x ∧ row < y
    · rw [if_pos hcond]
      rcases h with h | h | h
      · omega
      · omega
      · rw [h]
        exact mix_zero v _ (hc v (List.getElem?_mem hv))
    · rw [if_neg hcond]

theorem composite_exchange (junk : Junk) (dpi : Nat) (pre mid post : List TiffInfo)
    (p q : TiffInfo) (xRes yRes : ℚ)
    (hx : (plateSet pre p mid q post).getXResolution 0 = .ok xRes)
    (hy : (plateSet pre p mid q post).getYResolution 0 = .ok yRes)
    (hx2 : (plateSet pre q mid p post).getXResolution 0 = .ok xRes)
    (hy2 : (plateSet pre q mid p post).getYResolution 0 = .ok yRes)
    (hxr : 0 < xRes) (hyr : 0 < yRes)
    (hW : dpi * (plateSet pre p mid q post).getMaxWidth < 4294967296)
    (hH : dpi * (plateSet pre p mid q post).getMaxHeight < 4294967296)
    (hmx : scaledTo dpi (plateSet pre p mid q post).getMaxWidth xRes < 4294967296)
    (hmy : scaledTo dpi (plateSet pre p mid q post).getMaxHeight yRes < 4294967296)
    (hsize : scaledTo dpi (plateSet pre p mid q post).getMaxWidth xRes *
      scaledTo dpi (plateSet pre p mid q post).getMaxHeight yRes * 3 < 4294967296)
    (hact : ∀ r ∈ (plateSet pre p mid q post).tiffs, r.active = true → r.tiff.tiff ≠ none ∧
      1 ≤ scaledTo dpi r.tiff.x xRes ∧ 1 ≤ scaledTo dpi r.tiff.y yRes)
    (hp : p.active = true) (hq : q.active = true) (hmid : ∀ r ∈ mid, r.active = false)
    (hdel : deleteLoop junk (plateSet pre p mid q post).tiffs 0 = .ok ())
    (hdis : ∀ col row, col < scaledTo dpi p.tiff.x xRes → row < scaledTo dpi p.tiff.y yRes →
      col < scaledTo dpi q.tiff.x xRes → row < scaledTo dpi q.tiff.y yRes →
      (scaledImage junk p (scaledTo dpi p.tiff.x xRes) (scaledTo dpi p.tiff.y yRes)).getD
          (row * scaledTo dpi p.tiff.x xRes + col) 0 = 0 ∨
        (scaledImage junk q (scaledTo dpi q.tiff.x xRes) (scaledTo dpi q.tiff.y yRes)).getD
          (row * scaledTo dpi q.tiff.x xRes + col) 0 = 0) :
    (plateSet pre q mid p post).composite junk dpi =
        (plateSet pre p mid q post).composite junk dpi ∧
      ∃ canvas, (plateSet pre p mid q post).composite junk dpi = .ok canvas ∧
        canvas.length = scaledTo dpi (plateSet pre p mid q post).getMaxWidth xRes *
          scaledTo dpi (plateSet pre p mid q post).getMaxHeight yRes * 3 := by
  obtain ⟨hgw, hgh⟩ := getMax_plateSet pre mid post p q
  have hdel2 : deleteLoop junk (plateSet pre q mid p post).tiffs 0 = .ok () := by
    rw [← hdel]
    apply deleteLoop_congr
    simp [plateSet, hp, hq]
  have e1 := composite_fold_res (plateSet pre p mid q post) junk dpi xRes yRes hx hy hxr hyr hW
    hH hmx hmy hsize hact hdel
  have e2 := composite_fold_res (plateSet pre q mid p post) junk dpi xRes yRes hx2 hy2 hxr hyr
    (by rw [hgw]; exact hW) (by rw [hgh]; exact hH) (by rw [hgw]; exact hmx)
    (by rw [hgh]; exact hmy) (by rw [hgw, hgh]; exact hsize)
    (fun r hr ha => hact r ((mem_plateSet pre mid post q p r).1 hr) ha) hdel2
  rw [e1, e2]
  refine ⟨?_, _, rfl, ?_⟩
  · congr 1
    rw [compositeFold_eq, compositeFold_eq, hgw, hgh]
    simp only [plateSet, List.foldl_append, List.foldl_cons]
    rw [foldl_plateStep_inactive junk dpi _ xRes yRes mid _ hmid,
      foldl_plateStep_inactive junk dpi _ xRes yRes mid _ hmid]
    congr 1
    have hc := foldl_plateStep_bytes junk dpi
      (TiffManager.mk (pre ++ p :: (mid ++ q :: post))).getMaxWidth xRes yRes pre _
      (replicate_bytes (scaledTo dpi (TiffManager.mk (pre ++ p :: (mid ++ q :: post))).getMaxWidth
        xRes * scaledTo dpi (TiffManager.mk (pre ++ p :: (mid ++ q :: post))).getMaxHeight yRes *
        3))
    have ep : ∀ (w : Nat) (c : List Nat), plateStep junk dpi w xRes yRes c p =
        blendPlate (scaledTo dpi w xRes) p.color
          (scaledImage junk p (scaledTo dpi p.tiff.x xRes) (scaledTo dpi p.tiff.y yRes))
          (scaledTo dpi p.tiff.x xRes) (scaledTo dpi p.tiff.y yRes) c := by
      intro w c
      unfold plateStep
      rw [if_pos hp]
    have eq : ∀ (w : Nat) (c : List Nat), plateStep junk dpi w xRes yRes c q =
        blendPlate (scaledTo dpi w xRes) q.color
          (scaledImage junk q (scaledTo dpi q.tiff.x xRes) (scaledTo dpi q.tiff.y yRes))
          (scaledTo dpi q.tiff.x xRes) (scaledTo dpi q.tiff.y yRes) c := by
      intro w c
      unfold plateStep
      rw [if_pos hq]
    rw [ep, eq, ep, eq]
    exact blendPlate_comm _ q.color p.color _ _ _ _ _ _ _ hc
      (fun col row a b c d => (hdis col row c d a b).symm)
  · rw [compositeFold_eq, foldl_plateStep_length, List.length_replicate]

/-! # The claims C11 to C20 -/

/-- C11, where the code departs from the claim. The rectangle of the pixels 0
and 1 of the image of 16 by 1 pixels in which only pixel 1 is set (zero is
white), scaled to one cell: `getPixels(0, 0, 1, 0, 1, 1)` counts one set bit of
two and returns the cell 127, so the weighted average rescaled by 100/255 is
49.8; `sample(0, 0, 1, 0)` shifts its mask by `8 - (x1 % 8 + 1) = 7`, counts
pixel 0 alone and returns 0. The two bit counts are 1 and 0 and the two values
differ by more than 100/255. -/
theorem sample_and_grid_disagree :
    (loaded (file16x1 0x40 0)).getPixels junkZero 0 0 1 0 1 1 = .ok (some [127]) ∧
    blockSizes 2 1 = [2] ∧ blockSizes 1 1 = [1] ∧
    (loaded (file16x1 0x40 0)).sample junkZero 0 0 1 0 = .ok 0 ∧
    (100 : ℚ) / 255 ≤ weightedAverage [127] [2 * 1] * (100 / 255) - 0 ∧
    (file16x1 0x40 0).blockBits junkZero 0 2 0 1 = 1 ∧
    sampleCoverage (loaded (file16x1 0x40 0)) (file16x1 0x40 0) junkZero 0 0 1 0 = 0 ∧
    (loaded (file16x1 0x40 0)).zeroWhite = true := by
  decide!

/-- C12, where the code departs from the claim. `sample(0, 0, 7, 0)` on the
image of 16 by 1 pixels with the bytes 0x7F 0xFF (zero is white): the rectangle
is the first byte, `totalBits`, `leadingBits` and `trailingBits` are all 8 and
`(totalBits - leadingBits - trailingBits) / 8` is `(2^32 - 8) / 8 = 536870911`
in `unsigned int`, while the rectangle has no byte between its first and its
last. The loop counts the 7 set bits of byte 0 and then goes on reading: byte 1
alone adds 8, so whatever the bytes behind the buffer are, at least 15 bits are
counted for 8 pixels and the value returned is above 100. -/
theorem sample_whole_bytes_wrap (junk : Junk) :
    (sampleMasks 0 7).wholeBytes = 536870911 ∧ 7 / 8 - 0 / 8 = 0 ∧
    ∃ q, (loaded (file16x1 0x7F 0xFF)).sample junk 0 0 7 0 = .ok q ∧ 100 < q := by
  refine ⟨by decide, by decide, ?_⟩
  have ht : (loaded (file16x1 0x7F 0xFF)).tiff = some (file16x1 0x7F 0xFF) := rfl
  have hz : (loaded (file16x1 0x7F 0xFF)).zeroWhite = true := by decide
  have harea : u32 (u32 (usub 7 0 + 1) * u32 (usub 0 0 + 1)) = 8 := by decide
  have hcov := sampleCoverage_wrap junk
  unfold sample
  rw [ht]
  simp only [hz, if_true, harea]
  refine ⟨_, rfl, ?_⟩
  have h15 : (15 : ℚ) ≤
      (sampleCoverage (loaded (file16x1 0x7F 0xFF)) (file16x1 0x7F 0xFF) junk 0 0 7 0 : ℚ) := by
    exact_mod_cast hcov
  have e : ((8 : Nat) : ℚ) = 8 := by norm_num
  rw [e]
  linarith

/-- C14, where the code departs from the claim. Two plates of 24 by 1 pixels at
1 dpi, both active, the second an image without ink: it is scaled to the cells
0, 0, 0, the blend leaves every byte as the first plate made it, and
`composite(1)` returns the canvas of the first plate alone. After
`setActive(1, false)` the claim gives the same canvas; the code skips the
plate in the loops of lines 80-117 and then passes `images[1]`, which was
never assigned, to `delete[]` (line 121): with anything but the null pointer
in that cell no canvas is returned. Only when the cell happens to hold the
null pointer is the canvas the one of the claim. -/
theorem switching_off_a_plate_without_ink_ends_in_delete :
    (TiffManager.mk [plateOf (file24x1 0 0x0F 0) red200,
        plateOf (file24x1 0 0 0) blue255]).composite junkSet 1 =
      .ok [255, 255, 255, 227, 152, 152, 255, 255, 255] ∧
    (TiffManager.mk [plateOf (file24x1 0 0x0F 0) red200]).composite junkSet 1 =
      .ok [255, 255, 255, 227, 152, 152, 255, 255, 255] ∧
    (plateOf (file24x1 0 0 0) blue255).tiff.scale junkSet 3 1 = .ok (some [0, 0, 0]) ∧
    (TiffManager.mk [plateOf (file24x1 0 0x0F 0) red200,
        plateOf (file24x1 0 0 0) blue255]).setActive 1 false =
      .ok (TiffManager.mk [plateOf (file24x1 0 0x0F 0) red200,
        idle (plateOf (file24x1 0 0 0) blue255)]) ∧
    (TiffManager.mk [plateOf (file24x1 0 0x0F 0) red200,
        idle (plateOf (file24x1 0 0 0) blue255)]).composite junkSet 1 =
      .error .invalidFree ∧
    (TiffManager.mk [plateOf (file24x1 0 0x0F 0) red200,
        idle (plateOf (file24x1 0 0 0) blue255)]).composite junkZero 1 =
      .ok [255, 255, 255, 227, 152, 152, 255, 255, 255] := by
  decide!

/-- C15. The two plates of 24 by 1 pixels with the bytes 0x00 0x0F 0x00, colour
(200, 50, 50), and 0x00 0x1F 0x00, colour (0, 0, 255), both active, at 1 dpi
(8 dots per unit across): each is scaled to 3 by 1 cells, the first has the
sample 127 and the second the sample 159 at pixel 1. With the red plate first
the bytes 3 and 4 of the canvas are 85 and 57, with the blue plate first they
are 84 and 56. -/
theorem exchange_changes_overlapping_plates :
    ∃ (p q : TiffInfo) (dpi : Nat), p.active = true ∧ q.active = true ∧
      (∃ (sp sq : List Nat) (k : Nat),
        (TiffManager.mk [p, q]).scaledSize dpi 0 = .ok (3, 1) ∧
        (TiffManager.mk [p, q]).scaledSize dpi 1 = .ok (3, 1) ∧
        (TiffManager.mk [q, p]).scaledSize dpi 0 = .ok (3, 1) ∧
        (TiffManager.mk [q, p]).scaledSize dpi 1 = .ok (3, 1) ∧
        p.tiff.scale junkZero 3 1 = .ok (some sp) ∧ q.tiff.scale junkZero 3 1 = .ok (some sq) ∧
        0 < sp.getD k 0 ∧ sp.getD k 0 < 255 ∧ 0 < sq.getD k 0 ∧ sq.getD k 0 < 255) ∧
      ∃ (c1 c2 : List Nat) (o : Nat),
        (TiffManager.mk [p, q]).composite junkZero dpi = .ok c1 ∧
        (TiffManager.mk [q, p]).composite junkZero dpi = .ok c2 ∧
        c1.getD o 0 ≠ c2.getD o 0 :=
  ⟨plateOf (file24x1 0 0x0F 0) red200, plateOf (file24x1 0 0x1F 0) blue255, 1, by decide!,
    by decide!, ⟨[0, 127, 0], [0, 159, 0], 1, by decide!⟩,
    ⟨[255, 255, 255, 85, 57, 152, 255, 255, 255], [255, 255, 255, 84, 56, 152, 255, 255, 255],
      3, by decide!⟩⟩

/-- C16 as stated fails, in two ways. First, the plate of 8 by 2 pixels at
resolution 1 (ink in the columns 4 to 7) and the plate of 16 by 4 pixels at
resolution 2 (ink in the rows 2 and 3), both active, at 1 dpi: their inked
regions are disjoint and fully opaque in either order, yet with the first plate
at position 0 the canvas has 16 by 4 pixels (192 bytes) and after the exchange
8 by 2 pixels (48 bytes), the resolution being the one of the plate at position
0. Second, three plates of 24 by 1 pixels and equal resolution whose samples at
1 dpi are (0, 255, 0), (0, 159, 0) and (0, 0, 255): the first and the third are
disjoint and fully opaque, and exchanging them changes byte 3 of the canvas
from 173 to 172, the plate between them being blended after the first in one
order and before it in the other. -/
theorem exchange_changes_disjoint_plates :
    (((TiffManager.mk [plateOf file8x2 red200, plateOf file16x4 blue255]).composite
        junkZero 1).map List.length = .ok 192 ∧
      ((TiffManager.mk [plateOf file16x4 blue255, plateOf file8x2 red200]).composite
        junkZero 1).map List.length = .ok 48 ∧
      (plateOf file8x2 red200).tiff.scale junkZero 8 2 =
        .ok (some [0, 0, 0, 0, 255, 255, 255, 255, 0, 0, 0, 0, 255, 255, 255, 255]) ∧
      (plateOf file16x4 blue255).tiff.scale junkZero 16 4 =
        .ok (some (List.replicate 32 0 ++ List.replicate 32 255)) ∧
      (plateOf file8x2 red200).tiff.scale junkZero 4 1 = .ok (some [0, 0, 255, 255]) ∧
      (plateOf file16x4 blue255).tiff.scale junkZero 8 2 =
        .ok (some (List.replicate 8 0 ++ List.replicate 8 255))) ∧
    ((TiffManager.mk [plateOf (file24x1 0 0xFF 0) red200, plateOf (file24x1 0 0x1F 0) red200,
        plateOf (file24x1 0 0 0xFF) blue255]).composite junkZero 1 =
        .ok [255, 255, 255, 173, 24, 24, 0, 0, 255] ∧
      (TiffManager.mk [plateOf (file24x1 0 0 0xFF) blue255, plateOf (file24x1 0 0x1F 0) red200,
        plateOf (file24x1 0 0xFF 0) red200]).composite junkZero 1 =
        .ok [255, 255, 255, 172, 24, 24, 0, 0, 255] ∧
      (plateOf (file24x1 0 0xFF 0) red200).tiff.scale junkZero 3 1 = .ok (some [0, 255, 0]) ∧
      (plateOf (file24x1 0 0x1F 0) red200).tiff.scale junkZero 3 1 = .ok (some [0, 159, 0]) ∧
      (plateOf (file24x1 0 0 0xFF) blue255).tiff.scale junkZero 3 1 =
        .ok (some [0, 0, 255])) := by
  decide!

/-- C16 as amended. Two active plates `p` and `q` with only plates that are
switched off between them, in a plate set on which `composite(dpi)` has a result
(first plate with positive resolutions, sizes inside `unsigned int`, active
plates open with at least one cell, and the null pointer in the never assigned
cell of `images` of every plate that is switched off) and in which the exchange
leaves the values of `getXResolution()` and `getYResolution()` (the resolution
of the plate at position 0) as they are: when at every canvas pixel inside both
scaled extents at least one of the two samples is 0, the exchange changes
neither the size nor any byte of the result of `composite(dpi)`. -/
theorem exchange_keeps_adjacent_disjoint_plates (junk : Junk) (dpi : Nat)
    (pre mid post : List TiffInfo) (p q : TiffInfo) (xRes yRes : ℚ)
    (hx : (plateSet pre p mid q post).getXResolution 0 = .ok xRes)
    (hy : (plateSet pre p mid q post).getYResolution 0 = .ok yRes)
    (hx2 : (plateSet pre q mid p post).getXResolution 0 = .ok xRes)
    (hy2 : (plateSet pre q mid p post).getYResolution 0 = .ok yRes)
    (hxr : 0 < xRes) (hyr : 0 < yRes)
    (hW : dpi * (plateSet pre p mid q post).getMaxWidth < 4294967296)
    (hH : dpi * (plateSet pre p mid q post).getMaxHeight < 4294967296)
    (hmx : scaledTo dpi (plateSet pre p mid q post).getMaxWidth xRes < 4294967296)
    (hmy : scaledTo dpi (plateSet pre p mid q post).getMaxHeight yRes < 4294967296)
    (hsize : scaledTo dpi (plateSet pre p mid q post).getMaxWidth xRes *
      scaledTo dpi (plateSet pre p mid q post).getMaxHeight yRes * 3 < 4294967296)
    (hact : ∀ r ∈ (plateSet pre p mid q post).tiffs, r.active = true → r.tiff.tiff ≠ none ∧
      1 ≤ scaledTo dpi r.tiff.x xRes ∧ 1 ≤ scaledTo dpi r.tiff.y yRes)
    (hp : p.active = true) (hq : q.active = true) (hmid : ∀ r ∈ mid, r.active = false)
    (hnull : ∀ i r, (plateSet pre p mid q post).tiffs[i]? = some r → r.active = false →
      junk.nullAt i = true)
    (hdis : ∀ col row, col < scaledTo dpi p.tiff.x xRes → row < scaledTo dpi p.tiff.y yRes →
      col < scaledTo dpi q.tiff.x xRes → row < scaledTo dpi q.tiff.y yRes →
      (scaledImage junk p (scaledTo dpi p.tiff.x xRes) (scaledTo dpi p.tiff.y yRes)).getD
          (row * scaledTo dpi p.tiff.x xRes + col) 0 = 0 ∨
        (scaledImage junk q (scaledTo dpi q.tiff.x xRes) (scaledTo dpi q.tiff.y yRes)).getD
          (row * scaledTo dpi q.tiff.x xRes + col) 0 = 0) :
    (plateSet pre q mid p post).composite junk dpi =
        (plateSet pre p mid q post).composite junk dpi ∧
      ∃ canvas, (plateSet pre p mid q post).composite junk dpi = .ok canvas ∧
        canvas.length = scaledTo dpi (plateSet pre p mid q post).getMaxWidth xRes *
          scaledTo dpi (plateSet pre p mid q post).getMaxHeight yRes * 3 :=
  composite_exchange junk dpi pre mid post p q xRes yRes hx hy hx2 hy2 hxr hyr hW hH hmx hmy
    hsize hact hp hq hmid
    (deleteLoop_ok junk _ 0 (fun i r hi hr => by
      rw [Nat.zero_add]
      exact hnull i r hi hr))
    hdis

/-- C16 as amended, at the two plates of 24 by 1 pixels with the samples
(0, 255, 0) and (0, 0, 255), followed by a third active plate with the samples
(0, 159, 0), at 1 dpi. -/
theorem exchange_keeps_adjacent_disjoint_plates_witness :
    (plateSet [] (plateOf (file24x1 0 0 0xFF) blue255) []
        (plateOf (file24x1 0 0xFF 0) red200)
        [plateOf (file24x1 0 0x1F 0) red200]).composite junkSet 1 =
      (plateSet [] (plateOf (file24x1 0 0xFF 0) red200) []
        (plateOf (file24x1 0 0 0xFF) blue255)
        [plateOf (file24x1 0 0x1F 0) red200]).composite junkSet 1 :=
  (exchange_keeps_adjacent_disjoint_plates junkSet 1 [] [] [plateOf (file24x1 0 0x1F 0) red200]
    (plateOf (file24x1 0 0xFF 0) red200)
    (plateOf (file24x1 0 0 0xFF) blue255) 8 1 (by decide!) (by decide!) (by decide!) (by decide!)
    (by decide!) (by decide!) (by decide!) (by decide!) (by decide!) (by decide!) (by decide!)
    (by decide!) (by decide!) (by decide!) (by decide!)
    (fun i r hi hr => by
      have hall : ∀ s ∈ (plateSet [] (plateOf (file24x1 0 0xFF 0) red200) []
          (plateOf (file24x1 0 0 0xFF) blue255) [plateOf (file24x1 0 0x1F 0) red200]).tiffs,
          s.active = true := by decide!
      rw [hall r (List.getElem?_mem hi)] at hr
      exact absurd hr (by simp))
    (by
      intro col row h1 h2 _ _
      have e1 : scaledTo 1 (plateOf (file24x1 0 0xFF 0) red200).tiff.x 8 = 3 := by decide!
      have e2 : scaledTo 1 (plateOf (file24x1 0 0xFF 0) red200).tiff.y 1 = 1 := by decide!
      have e3 : scaledTo 1 (plateOf (file24x1 0 0 0xFF) blue255).tiff.x 8 = 3 := by decide!
      have e4 : scaledTo 1 (plateOf (file24x1 0 0 0xFF) blue255).tiff.y 1 = 1 := by decide!
      have i1 : scaledImage junkSet (plateOf (file24x1 0 0xFF 0) red200) 3 1 = [0, 255, 0] := by
        decide!
      have i2 : scaledImage junkSet (plateOf (file24x1 0 0 0xFF) blue255) 3 1 = [0, 0, 255] := by
        decide!
      rw [e1] at h1
      rw [e2] at h2
      rw [e1, e2, e3, e4, i1, i2]
      interval_cases col <;> interval_cases row <;> decide)).1

/-- C19. `addTiff(file, filename)` returns what `load(file)` returns on a new
`Tiff`, which is true exactly when the file can be opened. When it is true the
plate vector is the old one with one entry appended at the end, which is active,
carries the label `filename` and holds the loaded image; the size grows by one
and every earlier entry is at its index. When it is false the plate set is
unchanged. -/
theorem addTiff_appends_active_plate (junk : Junk) (fs : String → Option TiffFile)
    (m : TiffManager) (file filename : String) :
    (m.addTiff junk fs file filename).1 = (load junk fs Tiff.new file).1 ∧
    ((load junk fs Tiff.new file).1 = true ↔ fs file ≠ none) ∧
    ((load junk fs Tiff.new file).1 = true →
      ∃ p : TiffInfo, (m.addTiff junk fs file filename).2.tiffs = m.tiffs ++ [p] ∧
        p.active = true ∧ p.filename = filename ∧ p.tiff = (load junk fs Tiff.new file).2 ∧
        (m.addTiff junk fs file filename).2.size = m.size + 1 ∧
        (m.addTiff junk fs file filename).2.tiffs[m.size]? = some p ∧
        ∀ k, k < m.size → (m.addTiff junk fs file filename).2.tiffs[k]? = m.tiffs[k]?) ∧
    ((load junk fs Tiff.new file).1 = false → (m.addTiff junk fs file filename).2 = m) :=
  addTiff_eq junk fs m file filename

/-- C19 at the plate set with one plate, for the file that exists and for a
file that does not. -/
theorem addTiff_appends_active_plate_witness :
    ((TiffManager.mk [plateOf (file8x1 0) red200]).addTiff junkZero (oneFile (file8x1 0x0F))
        "plate.tif" "cyan").1 = true ∧
    ((TiffManager.mk [plateOf (file8x1 0) red200]).addTiff junkZero (oneFile (file8x1 0x0F))
        "plate.tif" "cyan").2.size = 2 ∧
    ((TiffManager.mk [plateOf (file8x1 0) red200]).addTiff junkZero (oneFile (file8x1 0x0F))
        "other.tif" "cyan").1 = false ∧
    ((TiffManager.mk [plateOf (file8x1 0) red200]).addTiff junkZero (oneFile (file8x1 0x0F))
        "other.tif" "cyan").2 = TiffManager.mk [plateOf (file8x1 0) red200] := by
  have h1 := addTiff_appends_active_plate junkZero (oneFile (file8x1 0x0F))
    (TiffManager.mk [plateOf (file8x1 0) red200]) "plate.tif" "cyan"
  have h2 := addTiff_appends_active_plate junkZero (oneFile (file8x1 0x0F))
    (TiffManager.mk [plateOf (file8x1 0) red200]) "other.tif" "cyan"
  have l1 : (load junkZero (oneFile (file8x1 0x0F)) Tiff.new "plate.tif").1 = true := by decide
  have l2 : (load junkZero (oneFile (file8x1 0x0F)) Tiff.new "other.tif").1 = false := by decide
  obtain ⟨p, _, _, _, _, hs, _, _⟩ := h1.2.2.1 l1
  exact ⟨h1.1.trans l1, hs, h2.1.trans l2, h2.2.2.2 l2⟩

/-- C20. For an index `i` below the size, `deleteTiff(i)` returns true and
leaves the plate vector without its entry `i`: one entry less, the entries
before `i` at their index and the entries after `i` one index lower, each entry
as it was. `deleteTiffs()` returns true and leaves the empty vector. -/
theorem deleteTiff_removes_one_plate (m : TiffManager) (i : Nat) (hi : i < m.size) :
    ∃ m2 : TiffManager, m.deleteTiff i = .ok (true, m2) ∧ m2.size = m.size - 1 ∧
      (∀ k, k < i → m2.tiffs[k]? = m.tiffs[k]?) ∧
      (∀ k, i ≤ k → m2.tiffs[k]? = m.tiffs[k + 1]?) ∧
      m.deleteTiffs = (true, TiffManager.mk []) ∧ m.deleteTiffs.2.size = 0 :=
  ⟨TiffManager.mk (m.tiffs.eraseIdx i), (deleteTiff_eq m i hi).1, (deleteTiff_eq m i hi).2.1,
    (deleteTiff_eq m i hi).2.2.1, (deleteTiff_eq m i hi).2.2.2, rfl, rfl⟩

/-- C20 at the middle one of three plates. -/
theorem deleteTiff_removes_one_plate_witness :
    ∃ m2 : TiffManager,
      (TiffManager.mk [plateOf (file8x1 0) red200, idle (plateOf (file8x1 0x0F) blue255),
        plateOf (file8x1 0x3C) blue255]).deleteTiff 1 = .ok (true, m2) ∧
      m2.size = (TiffManager.mk [plateOf (file8x1 0) red200,
        idle (plateOf (file8x1 0x0F) blue255), plateOf (file8x1 0x3C) blue255]).size - 1 ∧
      (∀ k, k < 1 → m2.tiffs[k]? = (TiffManager.mk [plateOf (file8x1 0) red200,
        idle (plateOf (file8x1 0x0F) blue255), plateOf (file8x1 0x3C) blue255]).tiffs[k]?) ∧
      (∀ k, 1 ≤ k → m2.tiffs[k]? = (TiffManager.mk [plateOf (file8x1 0) red200,
        idle (plateOf (file8x1 0x0F) blue255), plateOf (file8x1 0x3C) blue255]).tiffs[k + 1]?) ∧
      (TiffManager.mk [plateOf (file8x1 0) red200, idle (plateOf (file8x1 0x0F) blue255),
        plateOf (file8x1 0x3C) blue255]).deleteTiffs = (true, TiffManager.mk []) ∧
      (TiffManager.mk [plateOf (file8x1 0) red200, idle (plateOf (file8x1 0x0F) blue255),
        plateOf (file8x1 0x3C) blue255]).deleteTiffs.2.size = 0 :=
  deleteTiff_removes_one_plate
    (TiffManager.mk [plateOf (file8x1 0) red200, idle (plateOf (file8x1 0x0F) blue255),
      plateOf (file8x1 0x3C) blue255]) 1 (by decide)


/-! # Proofs for the block tables, the colours and the canvas -/


/-! ## The block widths as differences of running quotients -/

theorem blockLoop_take (out incH incL : Nat) :
    ∀ n accum k, k ≤ n →
      (blockLoop out incH incL n accum).take k = blockLoop out incH incL k accum := by
  intro n
  induction n with
  | zero =>
    intro accum k hk
    have : k = 0 := by omega
    subst this
    simp [blockLoop]
  | succ n ih =>
    intro accum k hk
    cases k with
    | zero => simp [blockLoop]
    | succ k =>
      rw [blockLoop, blockLoop]
      split
      · rw [List.take_succ_cons, ih _ k (by omega)]
      · rw [List.take_succ_cons, ih _ k (by omega)]

theorem blockSizes_of_le (span out : Nat) (hout : 0 < out) (h : out ≤ span) :
    blockSizes span out = blockLoop out (span / out) (span % out) out 0 := by
  unfold blockSizes
  split
  · have : span = out := by omega
    subst this
    rw [Nat.div_self hout, Nat.mod_self]
  · have hmod : span - span / out * out = span % out := by
      have := Nat.div_add_mod span out
      have e : span / out * out = out * (span / out) := by ring
      omega
    rw [hmod]

theorem mul_div_split (k span out : Nat) (hout : 0 < out) :
    k * span / out = k * (span / out) + k * (span % out) / out := by
  have h := Nat.div_add_mod span out
  have e : k * span = k * (span % out) + out * (k * (span / out)) := by
    calc k * span = k * (out * (span / out) + span % out) := by rw [h]
      _ = k * (span % out) + out * (k * (span / out)) := by ring
  rw [e, Nat.add_mul_div_left _ _ hout]
  omega

theorem blockSizes_take_sum (span out k : Nat) (hout : 0 < out) (h : out ≤ span)
    (hk : k ≤ out) : ((blockSizes span out).take k).sum = k * span / out := by
  rw [blockSizes_of_le span out hout h, blockLoop_take _ _ _ _ _ _ hk,
    blockLoop_sum _ _ _ hout (Nat.mod_lt _ hout) _ _ hout, Nat.zero_add,
    mul_div_split k span out hout]

theorem take_succ_sum (l : List Nat) (k b : Nat) (h : l[k]? = some b) :
    (l.take (k + 1)).sum = (l.take k).sum + b := by
  rw [List.take_succ, h]
  simp

theorem blockSizes_getElem? (span out k : Nat) (hout : 0 < out) (h : out ≤ span)
    (hk : k < out) :
    (blockSizes span out)[k]? = some ((k + 1) * span / out - k * span / out) := by
  have hlen : k < (blockSizes span out).length := by rw [blockSizes_length]; exact hk
  have hb : (blockSizes span out)[k]? = some (blockSizes span out)[k] :=
    List.getElem?_eq_getElem hlen
  have h1 := take_succ_sum _ k _ hb
  rw [blockSizes_take_sum span out (k + 1) hout h (by omega),
    blockSizes_take_sum span out k hout h (by omega)] at h1
  rw [hb]
  congr 1
  omega

theorem blockSizes_mem (span out : Nat) (hout : 0 < out) (h : out ≤ span) :
    ∀ b ∈ blockSizes span out, b = span / out ∨ b = span / out + 1 := by
  intro b hb
  rw [blockSizes_of_le span out hout h] at hb
  exact blockLoop_mem _ _ _ _ _ b hb

theorem sum_eq_countP (h : Nat) : ∀ l : List Nat, (∀ b ∈ l, b = h ∨ b = h + 1) →
    l.sum = l.length * h + l.countP (fun b => b = h + 1) := by
  intro l
  induction l with
  | nil => intro _; simp
  | cons a l ih =>
    intro hl
    have ha := hl a (List.mem_cons_self _ _)
    have hr := ih (fun b hb => hl b (List.mem_cons_of_mem _ hb))
    rw [List.sum_cons, List.length_cons, List.countP_cons, hr]
    rcases ha with ha | ha
    · subst ha
      simp
      ring
    · subst ha
      simp
      ring

theorem blockSizes_enlarged (span out k : Nat) (hout : 0 < out) (h : out ≤ span)
    (hk : k ≤ out) :
    ((blockSizes span out).take k).countP (fun b => b = span / out + 1) =
      k * (span % out) / out := by
  have hs := sum_eq_countP (span / out) ((blockSizes span out).take k)
    (fun b hb => blockSizes_mem span out hout h b (List.mem_of_mem_take hb))
  rw [blockSizes_take_sum span out k hout h hk, mul_div_split k span out hout,
    List.length_take, blockSizes_length, Nat.min_eq_left hk] at hs
  omega

theorem blockSizes_flat (span out : Nat) (h : span ≤ out) :
    blockSizes span out = List.replicate out 1 := by
  unfold blockSizes
  rw [if_pos h]
  rcases Nat.eq_zero_or_pos out with h0 | h0
  · subst h0
    rfl
  · exact blockLoop_flat out 1 h0 out

theorem increments_flat (span out : Nat) (h : span ≤ out) : increments span out = .ok (1, 0) := by
  unfold increments
  rw [if_pos h]

/-! ## The largest width and height -/

theorem getMax_attained (g : TiffInfo → Nat) (ps : List TiffInfo) (hne : ps ≠ []) :
    ∃ p ∈ ps, ps.foldl (fun w p => if g p > w then g p else w) 0 = g p := by
  rcases foldl_max_attained g ps 0 with h | h
  · cases ps with
    | nil => exact absurd rfl hne
    | cons p ps =>
      refine ⟨p, List.mem_cons_self _ _, ?_⟩
      have := (foldl_max_ge g (p :: ps) 0).2 p (List.mem_cons_self _ _)
      omega
  · exact h


/-! ## The two block tables of `getPixels` -/

theorem rowLoop_eq_rowsOf (zw : Bool) (f : TiffFile) (junk : Junk) (blockX : List Nat)
    (masks : List Mask) (x1 x y incHY incLY : Nat) :
    ∀ (n i accumY row : Nat) (data : List Nat),
      rowLoop zw f junk blockX masks x1 x y incHY incLY n i accumY row data =
        rowsOf zw f junk blockX masks x1 x (blockLoop y incHY incLY n accumY) i row data := by
  intro n
  induction n with
  | zero => intro i accumY row data; rfl
  | succ n ih =>
    intro i accumY row data
    rw [rowLoop, blockLoop]
    by_cases h : accumY + incLY ≥ y
    · simp only [if_pos h]
      rw [rowsOf, ih]
    · simp only [if_neg h]
      rw [rowsOf, ih]

/-- The widths and the heights of the blocks of `getPixels` are the two tables
`blockSizes` of the column span and of the row span. -/
theorem getPixels_tables (t : Tiff) (f : TiffFile) (junk : Junk) (x1 y1 x2 y2 x y : Nat)
    (ht : t.tiff = some f) (hx : 0 < x) (hy : 0 < y) :
    getPixels t junk x1 y1 x2 y2 x y =
      .ok (some (rowsOf t.zeroWhite f junk (blockSizes (u32 (usub x2 x1 + 1)) x)
        (maskLoop (blockSizes (u32 (usub x2 x1 + 1)) x) (startBits x1) (startBits x1)) x1 x
        (blockSizes (u32 (usub y2 y1 + 1)) y) 0 y1 (skipLoop f y1 []))) := by
  unfold getPixels
  rw [ht]
  simp only [increments_eq _ x hx, increments_eq _ y hy, bind, Except.bind, pure, Except.pure]
  rw [rowLoop_eq_rowsOf, ← blockSizes_eq_blockLoop, ← blockSizes_eq_blockLoop]


/-! ## The colour table -/

theorem find_filter_ne (k k2 : List Char) (hne : k2 ≠ k) :
    ∀ l : List (List Char × Color),
      (l.filter fun e => e.1 ≠ k).find? (fun e => e.1 = k2) = l.find? (fun e => e.1 = k2) := by
  intro l
  induction l with
  | nil => rfl
  | cons e l ih =>
    by_cases h1 : e.1 = k
    · have h2 : ¬ e.1 = k2 := fun h => hne (h ▸ h1)
      rw [List.filter_cons_of_neg (by simpa using h1), List.find?_cons_of_neg _ (by simpa using h2)]
      exact ih
    · rw [List.filter_cons_of_pos (by simpa using h1)]
      by_cases h2 : e.1 = k2
      · rw [List.find?_cons_of_pos _ (by simpa using h2),
          List.find?_cons_of_pos _ (by simpa using h2)]
      · rw [List.find?_cons_of_neg _ (by simpa using h2),
          List.find?_cons_of_neg _ (by simpa using h2)]
        exact ih

theorem find_assign (c : Colors) (k k2 : List Char) (v : Color) :
    (c.assign k v).find k2 = if k2 = k then some v else c.find k2 := by
  unfold Colors.find Colors.assign
  by_cases h : k2 = k
  · subst h
    rw [if_pos rfl, List.find?_cons_of_pos _ (by simp)]
    rfl
  · rw [if_neg h, List.find?_cons_of_neg _ (by simpa using fun e => h e.symm),
      find_filter_ne k k2 h]

theorem parseLine_eq (c : Colors) (line : List Char) :
    c.parseLine line = c.assign (lineCode line) (colorOfNumber (strtoul16 (lineHex line))) := rfl

theorem find_foldl (k : List Char) : ∀ (lines : List (List Char)) (c : Colors),
    (lines.foldl Colors.parseLine c).find k =
      match lines.reverse.find? (fun l => lineCode l = k) with
      | some l => some (colorOfNumber (strtoul16 (lineHex l)))
      | none => c.find k := by
  intro lines
  induction lines using List.reverseRecOn with
  | nil => intro c; rfl
  | append_singleton lines l ih =>
    intro c
    rw [List.foldl_append, List.foldl_cons, List.foldl_nil, parseLine_eq, find_assign,
      List.reverse_append, List.reverse_singleton, List.singleton_append]
    by_cases h : k = lineCode l
    · rw [if_pos h, List.find?_cons_of_pos _ (by simpa using h.symm)]
    · rw [if_neg h, List.find?_cons_of_neg _ (by simpa using fun e => h e.symm)]
      exact ih c

theorem find_new (k : List Char) : Colors.new.find k = none := rfl

theorem hexDigit_facts (c : Char) (h : Nat) (hc : hexDigit c = some h) :
    h < 16 ∧ isspace c = false ∧ c ≠ '-' ∧ c ≠ '+' ∧ c ≠ 'x' ∧ c ≠ 'X' := by
  have hm : c.toNat ≠ 45 ∧ c.toNat ≠ 43 ∧ c.toNat ≠ 120 ∧ c.toNat ≠ 88 ∧ c.toNat ≠ 32 ∧
      ¬ (9 ≤ c.toNat ∧ c.toNat ≤ 13) ∧ h < 16 := by
    unfold hexDigit at hc
    split_ifs at hc with h1 h2 h3
    · simp only [Option.some.injEq] at hc; omega
    · simp only [Option.some.injEq] at hc; omega
    · simp only [Option.some.injEq] at hc; omega
  obtain ⟨a1, a2, a3, a4, a5, a6, a7⟩ := hm
  refine ⟨a7, ?_, ?_, ?_, ?_, ?_⟩
  · unfold isspace
    simp [a5, a6]
  · intro e; subst e; exact a1 rfl
  · intro e; subst e; exact a2 rfl
  · intro e; subst e; exact a3 rfl
  · intro e; subst e; exact a4 rfl

theorem strtoul16_six (d0 d1 d2 d3 d4 d5 : Char) (h0 h1 h2 h3 h4 h5 : Nat)
    (e0 : hexDigit d0 = some h0) (e1 : hexDigit d1 = some h1) (e2 : hexDigit d2 = some h2)
    (e3 : hexDigit d3 = some h3) (e4 : hexDigit d4 = some h4) (e5 : hexDigit d5 = some h5) :
    strtoul16 [d0, d1, d2, d3, d4, d5] =
      (16 * h0 + h1) * 65536 + (16 * h2 + h3) * 256 + (16 * h4 + h5) := by
  obtain ⟨b0, s0, m0, p0, -, -⟩ := hexDigit_facts d0 h0 e0
  obtain ⟨b1, -, -, -, x1, x2⟩ := hexDigit_facts d1 h1 e1
  obtain ⟨b2, -⟩ := hexDigit_facts d2 h2 e2
  obtain ⟨b3, -⟩ := hexDigit_facts d3 h3 e3
  obtain ⟨b4, -⟩ := hexDigit_facts d4 h4 e4
  obtain ⟨b5, -⟩ := hexDigit_facts d5 h5 e5
  unfold strtoul16
  have hd : List.dropWhile isspace [d0, d1, d2, d3, d4, d5] = [d0, d1, d2, d3, d4, d5] := by
    rw [List.dropWhile_cons, s0]
    rfl
  simp only [hd, List.head?_cons, Option.some.injEq, m0, p0, or_self, if_false, x1, x2,
    false_and, and_false]
  simp only [hexDigits, e0, e1, e2, e3, e4, e5]
  unfold u32
  omega

theorem colorOfNumber_bytes (a b c : Nat) (ha : a < 256) (hb : b < 256) (hc : c < 256) :
    colorOfNumber (a * 65536 + b * 256 + c) = { r := a, g := b, b := c } := by
  unfold colorOfNumber
  have e : (0x000000ff : Nat) = 2 ^ 8 - 1 := by norm_num
  rw [e, Nat.and_pow_two_sub_one_eq_mod, Nat.and_pow_two_sub_one_eq_mod,
    Nat.and_pow_two_sub_one_eq_mod, Nat.shiftRight_eq_div_pow, Nat.shiftRight_eq_div_pow]
  congr 1 <;> omega


/-! ## The test of line 347 with the row index and with the column index -/

theorem maskLoop_low_bit : ∀ (bs : List Nat) (L R : Nat), 1 ≤ R → R ≤ 8 → R ≤ L →
    ∀ m ∈ maskLoop bs L R,
      (m.wholeBytes ≠ 0 → m.leadingMask &&& 1 ≠ 0) ∧
        ((∀ b ∈ bs, 8 ≤ b) → m.leadingMask &&& 1 ≠ 0) := by
  intro bs
  induction bs with
  | nil => intro L R _ _ _ m hm; simp [maskLoop] at hm
  | cons b bs ih =>
    intro L R h1 h8 hL m hm
    by_cases hbR : b < R
    · rw [maskLoop_cons_lt b bs L R hL hbR] at hm
      rcases List.mem_cons.1 hm with h | h
      · subst h
        refine ⟨fun hw => absurd rfl hw, fun hall => ?_⟩
        have := hall b (List.mem_cons_self _ _)
        omega
      · obtain ⟨a1, a2⟩ := ih 8 (R - b) (by omega) (by omega) (by omega) m h
        exact ⟨a1, fun hall => a2 (fun c hc => hall c (List.mem_cons_of_mem _ hc))⟩
    · rw [maskLoop_cons_ge b bs L R hL (by omega)] at hm
      rcases List.mem_cons.1 hm with h | h
      · subst h
        have hlow := (mask_low_bit R (by omega) R (by omega) h1 (Nat.le_refl _)).2 rfl
        exact ⟨fun _ => hlow, fun _ => hlow⟩
      · obtain ⟨a1, a2⟩ := ih _ _ (by omega) (by omega) (Nat.le_refl _) m h
        exact ⟨a1, fun hall => a2 (fun c hc => hall c (List.mem_cons_of_mem _ hc))⟩

/-- For a value `wbi` read inside the table the test of line 347 is the test
on the entry of the column. -/
theorem advance_test_agrees (bs : List Nat) (L R wbi : Nat) (h1 : 1 ≤ R) (h8 : R ≤ 8)
    (hL : R ≤ L) (hw : wbi = 0 ∨ ∀ b ∈ bs, 8 ≤ b) :
    ∀ m ∈ maskLoop bs L R,
      ((wbi ≠ 0 ∨ m.leadingMask &&& 1 ≠ 0) ∧ m.trailingMask = 0 ↔
        (m.wholeBytes ≠ 0 ∨ m.leadingMask &&& 1 ≠ 0) ∧ m.trailingMask = 0) := by
  intro m hm
  obtain ⟨a1, a2⟩ := maskLoop_low_bit bs L R h1 h8 hL m hm
  rcases hw with hw | hw
  · subst hw
    constructor
    · rintro ⟨h | h, ht⟩
      · exact absurd rfl h
      · exact ⟨Or.inr h, ht⟩
    · rintro ⟨h | h, ht⟩
      · exact ⟨Or.inr (a1 h), ht⟩
      · exact ⟨Or.inr h, ht⟩
  · have hlow := a2 hw
    exact ⟨fun h => ⟨Or.inr hlow, h.2⟩, fun h => ⟨Or.inr hlow, h.2⟩⟩

theorem columnLoop_byColumn (junk : Junk) (data : List Nat) (wbi : Nat) :
    ∀ (ms : List Mask) (p : Nat),
      (∀ m ∈ ms, ((wbi ≠ 0 ∨ m.leadingMask &&& 1 ≠ 0) ∧ m.trailingMask = 0 ↔
        (m.wholeBytes ≠ 0 ∨ m.leadingMask &&& 1 ≠ 0) ∧ m.trailingMask = 0)) →
      columnLoop junk data wbi ms p = columnLoopByColumn junk data ms p := by
  intro ms
  induction ms with
  | nil => intro p _; rfl
  | cons m ms ih =>
    intro p h
    have hm := h m (List.mem_cons_self _ _)
    rw [columnLoop, columnLoopByColumn]
    simp only [hm]
    rw [ih _ (fun q hq => h q (List.mem_cons_of_mem _ hq))]

theorem countLoop_byColumn (f : TiffFile) (junk : Junk) (ms : List Mask) (x1 wbi : Nat)
    (h : ∀ m ∈ ms, ((wbi ≠ 0 ∨ m.leadingMask &&& 1 ≠ 0) ∧ m.trailingMask = 0 ↔
      (m.wholeBytes ≠ 0 ∨ m.leadingMask &&& 1 ≠ 0) ∧ m.trailingMask = 0)) :
    ∀ (c row : Nat) (data ones : List Nat),
      countLoop f junk ms x1 wbi c row data ones = countLoopByColumn f junk ms x1 c row data ones := by
  intro c
  induction c with
  | zero => intro row data ones; rfl
  | succ c ih =>
    intro row data ones
    rw [countLoop, countLoopByColumn, columnLoop_byColumn junk _ wbi ms _ h]
    exact ih _ _ _

theorem rowLoop_byColumn (zw : Bool) (f : TiffFile) (junk : Junk) (blockX : List Nat)
    (ms : List Mask) (x1 x y incHY incLY : Nat) :
    ∀ (n i accumY row : Nat) (data : List Nat),
      (∀ k, i ≤ k → k < i + n → ∀ m ∈ ms,
        ((wholeBytesAt junk ms k ≠ 0 ∨ m.leadingMask &&& 1 ≠ 0) ∧ m.trailingMask = 0 ↔
          (m.wholeBytes ≠ 0 ∨ m.leadingMask &&& 1 ≠ 0) ∧ m.trailingMask = 0)) →
      rowLoop zw f junk blockX ms x1 x y incHY incLY n i accumY row data =
        rowLoopByColumn zw f junk blockX ms x1 x y incHY incLY n i accumY row data := by
  intro n
  induction n with
  | zero => intro i accumY row data _; rfl
  | succ n ih =>
    intro i accumY row data h
    rw [rowLoop, rowLoopByColumn]
    simp only [countLoop_byColumn f junk ms x1 _ (h i (Nat.le_refl _) (by omega))]
    rw [ih _ _ _ _ (fun k hk1 hk2 => h k (by omega) (by omega))]

theorem increments_blockLoop (span out : Nat) (v : Nat × Nat)
    (h : increments span out = .ok v) : blockLoop out v.1 v.2 out 0 = blockSizes span out := by
  unfold increments at h
  unfold blockSizes
  split_ifs at h with h1 h2
  · rw [if_pos h1]
    cases h
    rfl
  · rw [if_neg h1]
    cases h
    rfl

theorem getPixels_byColumn (t : Tiff) (junk : Junk) (x1 y1 x2 y2 x y : Nat) (hyx : y ≤ x) :
    getPixels t junk x1 y1 x2 y2 x y = getPixelsByColumn t junk x1 y1 x2 y2 x y := by
  unfold getPixels getPixelsByColumn
  cases ht : t.tiff with
  | none => rfl
  | some f =>
    simp only []
    cases hX : increments (u32 (usub x2 x1 + 1)) x with
    | error e => rfl
    | ok incX =>
      cases hY : increments (u32 (usub y2 y1 + 1)) y with
      | error e => rfl
      | ok incY =>
        simp only [bind, Except.bind, pure, Except.pure]
        rw [increments_blockLoop _ _ _ hX]
        rw [rowLoop_byColumn]
        intro k _ hk m hm
        exact advance_test_agrees _ _ _ _ (startBits_range x1).1 (startBits_range x1).2
          (Nat.le_refl _) (wholeBytesAt_inside junk _ x x1 k (by omega)) m hm


/-! ## The writes of the blend loop -/

theorem offset_inside (maxX maxY x y j ch : Nat) (hxm : x ≤ maxX) (hym : y ≤ maxY)
    (hj : j < x * y) (hch : ch < 3) : 3 * (maxX * (j / x) + j % x) + ch < maxX * maxY * 3 := by
  have hx : 0 < x := by
    rcases Nat.eq_zero_or_pos x with h | h
    · subst h; simp at hj
    · exact h
  have hrow : j / x < y := (Nat.div_lt_iff_lt_mul hx).2 (by rw [Nat.mul_comm] at hj; exact hj)
  have hcol : j % x < x := Nat.mod_lt _ hx
  have h1 : maxX * (j / x) + j % x < maxX * (j / x + 1) := by
    rw [Nat.mul_add, Nat.mul_one]
    omega
  have h2 : maxX * (j / x + 1) ≤ maxX * maxY := Nat.mul_le_mul_left _ (by omega)
  omega

theorem blendPixels_ok (junk : Junk) (maxX maxY x y : Nat) (color : Rgba)
    (image canvas : List Nat) (hxm : x ≤ maxX) (hym : y ≤ maxY)
    (hsize : maxX * maxY * 3 < 4294967296) (hlen : canvas.length = maxX * maxY * 3) :
    ∃ blended, blendPixels junk color image x maxX (u32 (x * y)) 0 0 canvas = .ok blended ∧
      blended.length = canvas.length := by
  have hprod : x * y ≤ maxX * maxY := Nat.mul_le_mul hxm hym
  rw [u32_of_lt (by omega)]
  rcases Nat.eq_zero_or_pos x with h | h
  · subst h
    rw [Nat.zero_mul]
    exact ⟨canvas, rfl, rfl⟩
  · have := blendPixels_eq junk maxX maxY x y color image canvas h hxm hym hsize hlen (x * y) 0 0
      (by omega) (fun h0 => absurd (Nat.zero_mod x) h0)
    rw [blendUpTo_zero, Nat.zero_add] at this
    exact ⟨_, this, blendUpTo_length _ _ _ _ _ _ _⟩


/-! # The claims C21 to C30 -/

/-- C21. `getMaxWidth()` is at least the width of every plate, active or not, is
0 for the empty plate set and is the width of one of the plates otherwise, and
the same holds for `getMaxHeight()` and the heights; after a call
`setActive(i, b)` both return what they returned before. -/
theorem getMax_is_over_all_plates (m : TiffManager) :
    (∀ p ∈ m.tiffs, p.tiff.x ≤ m.getMaxWidth) ∧
    (∀ p ∈ m.tiffs, p.tiff.y ≤ m.getMaxHeight) ∧
    (m.tiffs = [] → m.getMaxWidth = 0 ∧ m.getMaxHeight = 0) ∧
    (m.tiffs ≠ [] → (∃ p ∈ m.tiffs, m.getMaxWidth = p.tiff.x) ∧
      ∃ p ∈ m.tiffs, m.getMaxHeight = p.tiff.y) ∧
    ∀ (i : Nat) (b : Bool) (m2 : TiffManager), m.setActive i b = .ok m2 →
      m2.getMaxWidth = m.getMaxWidth ∧ m2.getMaxHeight = m.getMaxHeight := by
  refine ⟨le_getMaxWidth m, le_getMaxHeight m, ?_, ?_, ?_⟩
  · intro h
    unfold getMaxWidth getMaxHeight
    rw [h]
    exact ⟨rfl, rfl⟩
  · intro h
    exact ⟨getMax_attained (fun p => p.tiff.x) m.tiffs h,
      getMax_attained (fun p => p.tiff.y) m.tiffs h⟩
  · intro i b m2 h
    unfold setActive at h
    cases hi : m.tiffs[i]? with
    | none => rw [hi] at h; simp at h
    | some p =>
      rw [hi] at h
      simp only [Except.ok.injEq] at h
      rw [← h]
      exact getMax_set m i p { p with active := b } hi rfl

/-- C21 at three plates of the widths 8, 16 and 8, the widest switched off and
on. -/
theorem getMax_is_over_all_plates_witness :
    (TiffManager.mk [plateOf (file8x1 0) red200, idle (plateOf file16x4 blue255),
        plateOf file8x2 red200]).getMaxWidth = 16 ∧
    (TiffManager.mk [plateOf (file8x1 0) red200, idle (plateOf file16x4 blue255),
        plateOf file8x2 red200]).getMaxHeight = 4 ∧
    ∀ m2, (TiffManager.mk [plateOf (file8x1 0) red200, idle (plateOf file16x4 blue255),
        plateOf file8x2 red200]).setActive 1 true = .ok m2 →
      m2.getMaxWidth = 16 ∧ m2.getMaxHeight = 4 := by
  have h := getMax_is_over_all_plates (TiffManager.mk [plateOf (file8x1 0) red200,
    idle (plateOf file16x4 blue255), plateOf file8x2 red200])
  have e1 : (TiffManager.mk [plateOf (file8x1 0) red200, idle (plateOf file16x4 blue255),
      plateOf file8x2 red200]).getMaxWidth = 16 := by decide
  have e2 : (TiffManager.mk [plateOf (file8x1 0) red200, idle (plateOf file16x4 blue255),
      plateOf file8x2 red200]).getMaxHeight = 4 := by decide
  refine ⟨e1, e2, fun m2 hm2 => ?_⟩
  have := h.2.2.2.2 1 true m2 hm2
  rw [e1, e2] at this
  exact this

/-- C22. For a colour file that can be opened, `init` returns true and
`operator[](s)` on the object that it filled returns the colour of the last line
whose code is `s` in lower case, and the fallback (0xff, 0x6e, 0xc7) when no line
has that code; two strings with the same lower-case form get the same colour.
The code of a line `code=rest` is `code` in lower case and its colour is read
from the first six characters of `rest` (a line without `=` has the whole line
as its code and is read from its own first six characters); six digits of base
16 with the values `h0 .. h5` give `r = 16 h0 + h1`, `g = 16 h2 + h3`,
`b = 16 h4 + h5`, the bits 23-16, 15-8 and 7-0 of the number. -/
theorem color_lookup_by_lower_case_code (fs : String → Option (List (List Char)))
    (file : String) (lines : List (List Char)) (hf : fs file = some lines) (s : List Char) :
    (Colors.init fs Colors.new file).1 = true ∧
    (Colors.init fs Colors.new file).2.get s =
      ((lines.reverse.find? fun l => lineCode l = s.map tolower).map fun l =>
        colorOfNumber (strtoul16 (lineHex l))).getD neonPink ∧
    (∀ s2 : List Char, s2.map tolower = s.map tolower →
      (Colors.init fs Colors.new file).2.get s2 = (Colors.init fs Colors.new file).2.get s) ∧
    (∀ code rest : List Char, findEq code = none →
      lineCode (code ++ '=' :: rest) = code.map tolower ∧
        lineHex (code ++ '=' :: rest) = rest.take 6 ∧
        lineCode code = code.map tolower ∧ lineHex code = code.take 6) ∧
    ∀ (d0 d1 d2 d3 d4 d5 : Char) (h0 h1 h2 h3 h4 h5 : Nat),
      hexDigit d0 = some h0 → hexDigit d1 = some h1 → hexDigit d2 = some h2 →
      hexDigit d3 = some h3 → hexDigit d4 = some h4 → hexDigit d5 = some h5 →
      colorOfNumber (strtoul16 [d0, d1, d2, d3, d4, d5]) =
        Color.mk (16 * h0 + h1) (16 * h2 + h3) (16 * h4 + h5) := by
  have hinit : Colors.init fs Colors.new file = (true, lines.foldl Colors.parseLine Colors.new) := by
    unfold Colors.init
    rw [hf]
  have hget : ∀ s3 : List Char, (Colors.init fs Colors.new file).2.get s3 =
      ((lines.reverse.find? fun l => lineCode l = s3.map tolower).map fun l =>
        colorOfNumber (strtoul16 (lineHex l))).getD neonPink := by
    intro s3
    rw [hinit]
    unfold Colors.get
    rw [find_foldl]
    cases lines.reverse.find? (fun l => lineCode l = s3.map tolower) with
    | none => rfl
    | some l => rfl
  refine ⟨by rw [hinit], hget s, ?_, ?_, ?_⟩
  · intro s2 h2
    rw [hget s2, hget s, h2]
  · intro code rest hc
    have hfind : ∀ c : List Char, findEq c = none →
        findEq (c ++ '=' :: rest) = some c.length := by
      intro c
      induction c with
      | nil => intro _; simp [findEq]
      | cons a c ih =>
        intro h
        rw [findEq] at h
        by_cases ha : a = '='
        · rw [if_pos ha] at h
          simp at h
        · rw [if_neg ha] at h
          have hc2 : findEq c = none := by
            cases hq : findEq c with
            | none => rfl
            | some q => rw [hq] at h; simp at h
          rw [List.cons_append, findEq, if_neg ha, ih hc2]
          rfl
    unfold lineCode lineHex
    rw [hfind code hc, hc]
    simp
  · intro d0 d1 d2 d3 d4 d5 h0 h1 h2 h3 h4 h5 e0 e1 e2 e3 e4 e5
    rw [strtoul16_six d0 d1 d2 d3 d4 d5 h0 h1 h2 h3 h4 h5 e0 e1 e2 e3 e4 e5]
    have b0 := (hexDigit_facts d0 h0 e0).1
    have b1 := (hexDigit_facts d1 h1 e1).1
    have b2 := (hexDigit_facts d2 h2 e2).1
    have b3 := (hexDigit_facts d3 h3 e3).1
    have b4 := (hexDigit_facts d4 h4 e4).1
    have b5 := (hexDigit_facts d5 h5 e5).1
    exact colorOfNumber_bytes _ _ _ (by omega) (by omega) (by omega)

/-- C22 at the file with the line `cool color 12=003b11` between two lines for
`cyan`, asked for `COOL COLOR 12`, for `CYAN` and for a code that is not in
the file. -/
theorem color_lookup_by_lower_case_code_witness :
    (Colors.init (oneColorFile ["Cyan=00ffff".toList, "cool color 12=003b11".toList,
        "cyan=0000FF".toList]) Colors.new "colors.txt").2.get "COOL COLOR 12".toList =
      Color.mk 0x00 0x3b 0x11 ∧
    (Colors.init (oneColorFile ["Cyan=00ffff".toList, "cool color 12=003b11".toList,
        "cyan=0000FF".toList]) Colors.new "colors.txt").2.get "CYAN".toList =
      Color.mk 0x00 0x00 0xff ∧
    (Colors.init (oneColorFile ["Cyan=00ffff".toList, "cool color 12=003b11".toList,
        "cyan=0000FF".toList]) Colors.new "colors.txt").2.get "magenta".toList =
      Color.mk 0xff 0x6e 0xc7 :=
  ⟨((color_lookup_by_lower_case_code
      (oneColorFile ["Cyan=00ffff".toList, "cool color 12=003b11".toList, "cyan=0000FF".toList])
      "colors.txt" ["Cyan=00ffff".toList, "cool color 12=003b11".toList, "cyan=0000FF".toList]
      rfl "COOL COLOR 12".toList).2.1).trans (by decide!),
    ((color_lookup_by_lower_case_code
      (oneColorFile ["Cyan=00ffff".toList, "cool color 12=003b11".toList, "cyan=0000FF".toList])
      "colors.txt" ["Cyan=00ffff".toList, "cool color 12=003b11".toList, "cyan=0000FF".toList]
      rfl "CYAN".toList).2.1).trans (by decide!),
    ((color_lookup_by_lower_case_code
      (oneColorFile ["Cyan=00ffff".toList, "cool color 12=003b11".toList, "cyan=0000FF".toList])
      "colors.txt" ["Cyan=00ffff".toList, "cool color 12=003b11".toList, "cyan=0000FF".toList]
      rfl "magenta".toList).2.1).trans (by decide!)⟩

/-- C23. For an open image, a rectangle inside it and an output of `x` by `y`
cells, both at least 1, `getPixels` works with the table `blockX` of the column
span `x2 - x1 + 1` and `x` and takes the values of `blockY` from the same
recurrence for the row span `y2 - y1 + 1` and `y`. For every span `n`
and output size `out` with `1 ≤ out ≤ n` that table has `out` entries, entry
`k` is `floor((k+1) n / out) - floor(k n / out)`, every entry is `floor(n / out)`
or one more, the entries sum to `n`, and among the first `k` entries
`floor(k (n mod out) / out)` are the larger ones. -/
theorem block_sizes_are_quotient_differences (t : Tiff) (f : TiffFile) (junk : Junk)
    (x1 y1 x2 y2 x y : Nat) (ht : t.tiff = some f) (wf : f.WellFormed)
    (hxx : x1 ≤ x2) (hx2 : x2 < f.imageWidth) (hyy : y1 ≤ y2) (hy2 : y2 < f.imageLength)
    (hx : 1 ≤ x) (hy : 1 ≤ y) :
    getPixels t junk x1 y1 x2 y2 x y =
      .ok (some (rowsOf t.zeroWhite f junk (blockSizes (x2 - x1 + 1) x)
        (maskLoop (blockSizes (x2 - x1 + 1) x) (startBits x1) (startBits x1)) x1 x
        (blockSizes (y2 - y1 + 1) y) 0 y1 (skipLoop f y1 []))) ∧
    ∀ n out : Nat, 1 ≤ out → out ≤ n →
      (∃ inc, increments n out = .ok inc ∧ blockLoop out inc.1 inc.2 out 0 = blockSizes n out) ∧
      (blockSizes n out).length = out ∧
      (∀ k, k < out → (blockSizes n out)[k]? = some ((k + 1) * n / out - k * n / out)) ∧
      (∀ b ∈ blockSizes n out, b = n / out ∨ b = n / out + 1) ∧
      (blockSizes n out).sum = n ∧
      ∀ k, k ≤ out →
        ((blockSizes n out).take k).countP (fun b => b = n / out + 1) = k * (n % out) / out := by
  have hw := wf.width
  have hh := wf.height
  constructor
  · have := getPixels_tables t f junk x1 y1 x2 y2 x y ht hx hy
    rw [span_eq hxx (by omega), span_eq hyy (by omega)] at this
    exact this
  · intro n out h1 h2
    refine ⟨⟨_, increments_eq n out h1, (blockSizes_eq_blockLoop n out).symm⟩,
      blockSizes_length n out, fun k hk => blockSizes_getElem? n out k h1 h2 hk,
      blockSizes_mem n out h1 h2, blockSizes_sum n out h1 h2,
      fun k hk => blockSizes_enlarged n out k h1 h2 hk⟩

/-- C23 at the loaded image of 20 by 5 pixels, scaled as a whole to 3 by 2
cells. -/
theorem block_sizes_are_quotient_differences_witness :
    (loaded file20x5).getPixels junkZero 0 0 19 4 3 2 =
      .ok (some (rowsOf (loaded file20x5).zeroWhite file20x5 junkZero (blockSizes (19 - 0 + 1) 3)
        (maskLoop (blockSizes (19 - 0 + 1) 3) (startBits 0) (startBits 0)) 0 3
        (blockSizes (4 - 0 + 1) 2) 0 0 (skipLoop file20x5 0 []))) ∧
    (blockSizes 20 3)[2]? = some ((2 + 1) * 20 / 3 - 2 * 20 / 3) ∧
    (blockSizes 20 3).sum = 20 :=
  ⟨(block_sizes_are_quotient_differences (loaded file20x5) file20x5 junkZero 0 0 19 4 3 2 rfl
      ⟨by decide, by decide, by decide, by decide, by decide⟩ (by decide) (by decide) (by decide)
      (by decide) (by decide) (by decide)).1,
    ((block_sizes_are_quotient_differences (loaded file20x5) file20x5 junkZero 0 0 19 4 3 2 rfl
      ⟨by decide, by decide, by decide, by decide, by decide⟩ (by decide) (by decide) (by decide)
      (by decide) (by decide) (by decide)).2 20 3 (by decide)
      (by decide)).2.2.1 2 (by decide),
    ((block_sizes_are_quotient_differences (loaded file20x5) file20x5 junkZero 0 0 19 4 3 2 rfl
      ⟨by decide, by decide, by decide, by decide, by decide⟩ (by decide) (by decide) (by decide)
      (by decide) (by decide) (by decide)).2 20 3 (by decide)
      (by decide)).2.2.2.2.1⟩

/-- C24. For an open image and an output of at least one column and one row,
`getPixels` works with the table `blockX` of the column span and takes the
values of `blockY` from the same recurrence for the row span; and for every
span `n` and output size `out` with `n ≤ out` the increments are `(1, 0)` and
the table is `out` times 1. -/
theorem blocks_are_single_units_when_enlarging (t : Tiff) (f : TiffFile) (junk : Junk)
    (x1 y1 x2 y2 x y : Nat) (ht : t.tiff = some f) (hx : 1 ≤ x) (hy : 1 ≤ y) :
    getPixels t junk x1 y1 x2 y2 x y =
      .ok (some (rowsOf t.zeroWhite f junk (blockSizes (u32 (usub x2 x1 + 1)) x)
        (maskLoop (blockSizes (u32 (usub x2 x1 + 1)) x) (startBits x1) (startBits x1)) x1 x
        (blockSizes (u32 (usub y2 y1 + 1)) y) 0 y1 (skipLoop f y1 []))) ∧
    ∀ n out : Nat, n ≤ out →
      increments n out = .ok (1, 0) ∧ blockLoop out 1 0 out 0 = blockSizes n out ∧
        blockSizes n out = List.replicate out 1 ∧ ∀ b ∈ blockSizes n out, b = 1 := by
  refine ⟨getPixels_tables t f junk x1 y1 x2 y2 x y ht hx hy, fun n out h => ?_⟩
  refine ⟨increments_flat n out h, ?_, blockSizes_flat n out h, ?_⟩
  · unfold blockSizes
    rw [if_pos h]
  · intro b hb
    rw [blockSizes_flat n out h] at hb
    exact List.eq_of_mem_replicate hb

/-- C24 at the loaded image of 8 by 1 pixels and an output of 8 by 3 cells. -/
theorem blocks_are_single_units_when_enlarging_witness :
    blockSizes 8 8 = List.replicate 8 1 ∧ blockSizes 1 3 = List.replicate 3 1 :=
  ⟨((blocks_are_single_units_when_enlarging (loaded (file8x1 0)) (file8x1 0) junkZero 0 0 7 0 8
      3 rfl (by decide) (by decide)).2 8 8 (by decide)).2.2.1,
    ((blocks_are_single_units_when_enlarging (loaded (file8x1 0)) (file8x1 0) junkZero 0 0 7 0 8
      3 rfl (by decide) (by decide)).2 1 3 (by decide)).2.2.1⟩

/-- C25, where the code departs from the claim. `getPixels(0, 0, 7, 0, 16, 1)` on
the loaded image of 8 by 1 pixels without ink, a scanline of one byte: the
output is wider than the rectangle, all 16 blocks are one pixel wide and the
cells 8 to 15 are counted in the byte at offset 1, behind the scanline, so that
they are 0 when that byte is 0 and 255 when it is 255; the pixels counted there
have the columns 8 to 15, outside the rectangle. And
`getPixels(0, 0, 7, 0, 8, 2)` on the image with the byte 0x0F counts a second
row, the scanline 1 that the image does not have, and finds the bits of row 0
again. -/
theorem getPixels_reads_behind_the_scanline :
    TIFFScanlineSize (file8x1 0) = 1 ∧ blockSizes 8 16 = List.replicate 16 1 ∧
    (loaded (file8x1 0)).getPixels junkZero 0 0 7 0 16 1 = .ok (some (List.replicate 16 0)) ∧
    (loaded (file8x1 0)).getPixels junkSet 0 0 7 0 16 1 =
      .ok (some (List.replicate 8 0 ++ List.replicate 8 255)) ∧
    blockSizes 1 2 = [1, 1] ∧ (file8x1 0x0F).imageLength = 1 ∧
    (loaded (file8x1 0x0F)).getPixels junkZero 0 0 7 0 8 2 =
      .ok (some [0, 0, 0, 0, 255, 255, 255, 255, 0, 0, 0, 0, 255, 255, 255, 255]) := by
  decide!

/-- C26, where the code departs from the claim. `scale(2, 3)` on the loaded
image of 10 by 3 pixels whose pixels 5 to 9 of the last row are set: the tables
have 2 entries, and for the output row `i = 2` the test of line 347 reads
`wholeBytes[2]`. With 0 there the image returned has 255 in its last cell, with
1 there the pointer moves on after column 0 of the last row and the cell
is 0. -/
theorem wholeBytes_is_read_behind_its_end (junk : Junk) :
    (maskLoop (blockSizes 10 2) (startBits 0) (startBits 0)).length = 2 ∧
    blockSizes 3 3 = [1, 1, 1] ∧
    wholeBytesAt junk (maskLoop (blockSizes 10 2) (startBits 0) (startBits 0)) 2 = junk.stack 2 ∧
    (loaded file10x3).scale junkZero 2 3 = .ok (some [0, 0, 0, 0, 0, 255]) ∧
    (loaded file10x3).scale junkOne 2 3 = .ok (some [0, 0, 0, 0, 0, 0]) :=
  ⟨by decide, by decide, rfl, by decide!, by decide!⟩

/-- C27. For an output with no more rows than columns, whatever the image, the
rectangle and the left edge are: for every output row `i` and every column
entry of the mask tables the test of line 347, which reads `wholeBytes[i]`, has
the truth value of the test that reads the entry `wholeBytes[j]` of the column,
and `getPixels` returns what the variant with the test on the column
returns. -/
theorem row_index_test_agrees_with_column_test (t : Tiff) (junk : Junk)
    (x1 y1 x2 y2 x y : Nat) (hyx : y ≤ x) :
    (∀ i, i < y →
      ∀ m ∈ maskLoop (blockSizes (u32 (usub x2 x1 + 1)) x) (startBits x1) (startBits x1),
        ((wholeBytesAt junk
            (maskLoop (blockSizes (u32 (usub x2 x1 + 1)) x) (startBits x1) (startBits x1)) i ≠ 0 ∨
          m.leadingMask &&& 1 ≠ 0) ∧ m.trailingMask = 0 ↔
        (m.wholeBytes ≠ 0 ∨ m.leadingMask &&& 1 ≠ 0) ∧ m.trailingMask = 0)) ∧
    getPixels t junk x1 y1 x2 y2 x y = getPixelsByColumn t junk x1 y1 x2 y2 x y :=
  ⟨fun i hi m hm =>
      advance_test_agrees _ _ _ _ (startBits_range x1).1 (startBits_range x1).2 (Nat.le_refl _)
        (wholeBytesAt_inside junk _ x x1 i (by omega)) m hm,
    getPixels_byColumn t junk x1 y1 x2 y2 x y hyx⟩

/-- C27 at the loaded image of 20 by 5 pixels and an output of 4 by 4 cells. -/
theorem row_index_test_agrees_with_column_test_witness :
    (loaded file20x5).getPixels junkOne 0 0 19 4 4 4 =
      getPixelsByColumn (loaded file20x5) junkOne 0 0 19 4 4 4 :=
  (row_index_test_agrees_with_column_test (loaded file20x5) junkOne 0 0 19 4 4 4 (by decide)).2

/-- C28 as stated fails: a plate of 65536 by 65536 pixels that is switched off
and an active plate of 8 by 1 pixels, both at resolution 1, at 1 dpi:
`dpi * maxWidth` and `dpi * maxHeight` are 65536, the canvas is 65536 by 65536
pixels and `maxX * maxY * 3` is 0 in `unsigned int`, so the canvas has no byte
and the first write of the blend, at offset 0 for the plate scaled to 8 by 1, is
outside it. And `maxX` is not the exact quotient: with a plate of 1431655765 by
1 pixels that is switched off and an active plate of 100 by 1 pixels, at
resolution 1 and 1 dpi, the exact byte count 1431655765 * 1 * 3 is below `2^32`,
but the conversion of `dpi * maxWidth` to `float` gives 1431655808, the byte
count wraps to 128 and the blend of the 100 pixels leaves the canvas at
offset 128. -/
theorem canvas_byte_count_can_wrap :
    ((TiffManager.mk [idle (plateOf file65536 red200), plateOf (file8x1 0x0F) blue255]).composite
        junkZero 1 = .error .badIndex ∧
      1 * (TiffManager.mk [idle (plateOf file65536 red200),
        plateOf (file8x1 0x0F) blue255]).getMaxWidth = 65536 ∧
      1 * (TiffManager.mk [idle (plateOf file65536 red200),
        plateOf (file8x1 0x0F) blue255]).getMaxHeight = 65536 ∧
      u32 (65536 * 65536 * 3) = 0 ∧
      (TiffManager.mk [idle (plateOf file65536 red200),
        plateOf (file8x1 0x0F) blue255]).scaledSize 1 1 = .ok (8, 1)) ∧
    ((TiffManager.mk [idle (plateOf file1431655765 red200),
        plateOf file100x1 blue255]).composite junkZero 1 = .error .badIndex ∧
      (TiffManager.mk [idle (plateOf file1431655765 red200),
        plateOf file100x1 blue255]).getMaxWidth = 1431655765 ∧
      (TiffManager.mk [idle (plateOf file1431655765 red200),
        plateOf file100x1 blue255]).getMaxHeight = 1 ∧
      exactScaled 1 1431655765 1 * exactScaled 1 1 1 * 3 = 4294967295 ∧
      TiffManager.scaled 1 1431655765 1 = .ok 1431655808 ∧
      u32 (1431655808 * 1 * 3) = 128 ∧
      (TiffManager.mk [idle (plateOf file1431655765 red200),
        plateOf file100x1 blue255]).scaledSize 1 1 = .ok (100, 1)) := by
  decide!

/-- C28 as amended. For a plate set that is not empty, whose first plate has
positive resolutions, with `dpi * maxWidth`, `dpi * maxHeight`, the two canvas
sizes `maxX`, `maxY` as `composite` computes them (`scaledTo`: the quotient in
single precision, truncated) and the byte count `maxX * maxY * 3` inside the
range of `unsigned int`: for every plate the scaled size `(x, y)` of lines 82-83
has `x ≤ maxX` and `y ≤ maxY`, every offset `3 (maxX (j / x) + j mod x) + ch` of
a cell `j < x y` and a channel `ch < 3` is below `maxX * maxY * 3`, and the
blend loop of lines 105-114, on a canvas of that many bytes and whatever the
scaled image holds, ends without a write outside the canvas. -/
theorem blend_writes_inside_the_canvas (m : TiffManager) (junk : Junk) (dpi : Nat)
    (p0 : TiffInfo) (rest : List TiffInfo) (hm : m.tiffs = p0 :: rest)
    (hxr : 0 < p0.tiff.xResolution) (hyr : 0 < p0.tiff.yResolution)
    (hW : dpi * m.getMaxWidth < 4294967296) (hH : dpi * m.getMaxHeight < 4294967296)
    (hmx : scaledTo dpi m.getMaxWidth p0.tiff.xResolution < 4294967296)
    (hmy : scaledTo dpi m.getMaxHeight p0.tiff.yResolution < 4294967296)
    (hsize : scaledTo dpi m.getMaxWidth p0.tiff.xResolution *
      scaledTo dpi m.getMaxHeight p0.tiff.yResolution * 3 < 4294967296) :
    scaled dpi m.getMaxWidth p0.tiff.xResolution =
      .ok (scaledTo dpi m.getMaxWidth p0.tiff.xResolution) ∧
    scaled dpi m.getMaxHeight p0.tiff.yResolution =
      .ok (scaledTo dpi m.getMaxHeight p0.tiff.yResolution) ∧
    ∀ (i : Nat) (p : TiffInfo), m.tiffs[i]? = some p →
      m.scaledSize dpi i = .ok (scaledTo dpi p.tiff.x p0.tiff.xResolution,
        scaledTo dpi p.tiff.y p0.tiff.yResolution) ∧
      scaledTo dpi p.tiff.x p0.tiff.xResolution ≤ scaledTo dpi m.getMaxWidth p0.tiff.xResolution ∧
      scaledTo dpi p.tiff.y p0.tiff.yResolution ≤
        scaledTo dpi m.getMaxHeight p0.tiff.yResolution ∧
      (∀ j ch, j < scaledTo dpi p.tiff.x p0.tiff.xResolution *
          scaledTo dpi p.tiff.y p0.tiff.yResolution → ch < 3 →
        3 * (scaledTo dpi m.getMaxWidth p0.tiff.xResolution *
            (j / scaledTo dpi p.tiff.x p0.tiff.xResolution) +
            j % scaledTo dpi p.tiff.x p0.tiff.xResolution) + ch <
          scaledTo dpi m.getMaxWidth p0.tiff.xResolution *
            scaledTo dpi m.getMaxHeight p0.tiff.yResolution * 3) ∧
      ∀ image canvas : List Nat,
        canvas.length = u32 (scaledTo dpi m.getMaxWidth p0.tiff.xResolution *
          scaledTo dpi m.getMaxHeight p0.tiff.yResolution * 3) →
        ∃ blended,
          blendPixels junk p.color image (scaledTo dpi p.tiff.x p0.tiff.xResolution)
              (scaledTo dpi m.getMaxWidth p0.tiff.xResolution)
              (u32 (scaledTo dpi p.tiff.x p0.tiff.xResolution *
                scaledTo dpi p.tiff.y p0.tiff.yResolution)) 0 0 canvas = .ok blended ∧
            blended.length = canvas.length := by
  refine ⟨scaled_eq dpi _ _ hxr hW hmx, scaled_eq dpi _ _ hyr hH hmy, fun i p hi => ?_⟩
  have hpm : p ∈ m.tiffs := List.getElem?_mem hi
  have hxm := scaledTo_mono dpi p.tiff.x m.getMaxWidth p0.tiff.xResolution hxr
    (le_getMaxWidth m p hpm)
  have hym := scaledTo_mono dpi p.tiff.y m.getMaxHeight p0.tiff.yResolution hyr
    (le_getMaxHeight m p hpm)
  refine ⟨?_, hxm, hym, fun j ch hj hch => offset_inside _ _ _ _ j ch hxm hym hj hch, ?_⟩
  · rw [scaledSize_eq m dpi i p0 p rest hm hi]
    exact plateSize_eq dpi _ _ m.getMaxWidth m.getMaxHeight p hxr hyr hW hH hmx hmy
      (le_getMaxWidth m p hpm) (le_getMaxHeight m p hpm)
  · intro image canvas hlen
    rw [u32_of_lt hsize] at hlen
    exact blendPixels_ok junk _ _ _ _ p.color image canvas hxm hym hsize hlen

/-- C28 as amended, at the plates of 16 by 4 and of 8 by 2 pixels at 1 dpi. -/
theorem blend_writes_inside_the_canvas_witness :
    (TiffManager.mk [plateOf file16x4 blue255, plateOf file8x2 red200]).scaledSize 1 1 =
      .ok (scaledTo 1 (plateOf file8x2 red200).tiff.x (plateOf file16x4 blue255).tiff.xResolution,
        scaledTo 1 (plateOf file8x2 red200).tiff.y (plateOf file16x4 blue255).tiff.yResolution) ∧
    scaledTo 1 (plateOf file8x2 red200).tiff.x (plateOf file16x4 blue255).tiff.xResolution ≤
      scaledTo 1 (TiffManager.mk [plateOf file16x4 blue255, plateOf file8x2 red200]).getMaxWidth
        (plateOf file16x4 blue255).tiff.xResolution :=
  ⟨((blend_writes_inside_the_canvas
      (TiffManager.mk [plateOf file16x4 blue255, plateOf file8x2 red200]) junkZero 1
      (plateOf file16x4 blue255) [plateOf file8x2 red200] rfl (by decide!) (by decide!)
      (by decide!) (by decide!) (by decide!) (by decide!) (by decide!)).2.2 1
      (plateOf file8x2 red200) rfl).1,
    ((blend_writes_inside_the_canvas
      (TiffManager.mk [plateOf file16x4 blue255, plateOf file8x2 red200]) junkZero 1
      (plateOf file16x4 blue255) [plateOf file8x2 red200] rfl (by decide!) (by decide!)
      (by decide!) (by decide!) (by decide!) (by decide!) (by decide!)).2.2 1
      (plateOf file8x2 red200) rfl).2.1⟩

/-- C29, where the code departs from the claim. Two plates of 24 by 1 pixels at
1 dpi, the second switched off. Before the switch the claim has a canvas to
compare with; the code blends the first plate and then passes `images[1]`,
which was never assigned because the plate is not active, to `delete[]`
(line 121): with anything but the null pointer in that cell `composite(1)`
returns no canvas. After `setActive(1, true)` every cell of `images` is
assigned and `composite(1)` returns a canvas. Only when the cell happens to
hold the null pointer is there a canvas before the switch, and then every byte
after the switch is at most the byte before it. -/
theorem composite_before_the_switch_ends_in_delete :
    (TiffManager.mk [plateOf (file24x1 0 0x0F 0) red200,
        idle (plateOf (file24x1 0 0x1F 0xFF) blue255)]).composite junkSet 1 =
      .error .invalidFree ∧
    (TiffManager.mk [plateOf (file24x1 0 0x0F 0) red200,
        idle (plateOf (file24x1 0 0x1F 0xFF) blue255)]).setActive 1 true =
      .ok (TiffManager.mk [plateOf (file24x1 0 0x0F 0) red200,
        plateOf (file24x1 0 0x1F 0xFF) blue255]) ∧
    (TiffManager.mk [plateOf (file24x1 0 0x0F 0) red200,
        plateOf (file24x1 0 0x1F 0xFF) blue255]).composite junkSet 1 =
      .ok [255, 255, 255, 85, 57, 152, 0, 0, 255] ∧
    (TiffManager.mk [plateOf (file24x1 0 0x0F 0) red200,
        idle (plateOf (file24x1 0 0x1F 0xFF) blue255)]).composite junkZero 1 =
      .ok [255, 255, 255, 227, 152, 152, 255, 255, 255] := by
  decide!

/-- C30, where the code departs from the claim. The image of 8 by 1 pixels
without ink and its complement, the image with the byte 0xFF: `load` gives the
first `zeroWhite = true` and the second `zeroWhite = false`, and
`getPixels(0, 0, 7, 0, 16, 1)` counts the cells 8 to 15 of both in the byte
behind the scanline, which is not inverted with the image: with 0 there the
cells are 0 for the first image and 255 for the second. -/
theorem complement_changes_cells_behind_the_scanline :
    (file8x1 0).imageWidth = 8 ∧ (file8x1 0).complement = file8x1 0xFF ∧
    (loaded (file8x1 0)).zeroWhite = true ∧ (loaded (file8x1 0).complement).zeroWhite = false ∧
    (loaded (file8x1 0)).getPixels junkZero 0 0 7 0 16 1 = .ok (some (List.replicate 16 0)) ∧
    (loaded (file8x1 0).complement).getPixels junkZero 0 0 7 0 16 1 =
      .ok (some (List.replicate 8 0 ++ List.replicate 8 255)) := by
  decide!
end Gold3
